import Mathlib

/-!
# libdspl-2.0: rational composition and the analog frequency transforms

A shallow embedding of `src/dspl/src/filter_ft.c` (`ratcompos`, `low2low`,
`low2high`, `low2bp`) and of `src/dspl/src/filter_iir.c` (`bilinear`, `iir`,
`iir_ap`).

Conventions of the embedding:

* a `double` is an exact rational number (`ℚ`): sums, products and quotients
  are exact, rounding is not modelled, and there is no NaN and no infinity; the
  properties proved here are the exact-arithmetic ones, for arguments that are
  numbers (a NaN frequency, which fails every `<=` test of the three frequency
  transforms and is passed on to `ratcompos`, is not a value of the embedding);
* a C `int` is an `Int`; the sizes that `ratcompos` computes (`k2`, `k2s`,
  `nk2s`) keep what 32 bits keep of them (`wrapInt`), as the narrowing of the
  `size_t` products to `int` does. Every theorem that asserts that `ratcompos`,
  called directly or through `bilinear`, a frequency transform or `iir`,
  returns `RES_OK` carries the condition that the scratch byte count
  `(n+1)*(n*p+1)*8` is below `2^31`; under it every `int` of the function holds
  its exact value, and a call beyond it has no result in the embedding;
* a `double*` argument is an `Option (List ℚ)`: `none` is the null pointer,
  `some l` an array of `l.length` doubles;
* every array access is bounds-checked: a call that would touch memory outside
  an array has no result (`none`);
* `malloc` followed by `memset(.., 0, ..)` yields a zero-filled list when the
  `int` byte count is not negative (a request that fits is taken to be served;
  the source does not check the pointer). A negative byte count becomes, as a
  `size_t`, a request that cannot be served: `malloc` returns the null pointer
  and the `memset` that follows has no block to write (no result). A `malloc`
  alone yields an array of unspecified content;
* what `iir` takes from outside the sources (selector macros, prototype
  generators, `tan`, `M_PI`) is a parameter, the record `Ext`;
* the caller's output arrays are threaded through the call, so that a result
  records their content after the call.
-/

namespace Dspl

/-- Modelled from the spec: the status codes of `dspl.h` (the header is not part
of the sources at hand); section 7 of the specification lists them as distinct
outcomes, which is all that is used of them. -/
inductive Status where
  | RES_OK
  | ERROR_PTR
  | ERROR_SIZE
  | ERROR_FILTER_ORD
  | ERROR_FILTER_ORD_BP
  | ERROR_FILTER_FT
  | ERROR_FILTER_TYPE
  | ERROR_FILTER_APPROX
  deriving DecidableEq, Repr

open Status

/-! ## Memory -/

/-- Read `m[i]`; no result outside the array. -/
def ld (m : List ℚ) (i : Int) : Option ℚ :=
  if 0 ≤ i ∧ i < m.length then m[i.toNat]? else none

/-- Write `m[i] = x`; no result outside the array. -/
def st (m : List ℚ) (i : Int) (x : ℚ) : Option (List ℚ) :=
  if 0 ≤ i ∧ i < m.length then some (m.set i.toNat x) else none

/-- Read the `len` entries `m[off], .., m[off+len-1]`. -/
def rd (m : List ℚ) (off len : Int) : Option (List ℚ) :=
  if 0 ≤ off ∧ 0 ≤ len ∧ off + len ≤ m.length then
    some ((m.drop off.toNat).take len.toNat)
  else none

/-- Write the entries of `v` to `m[off], .., m[off + v.length - 1]`. -/
def wr (m : List ℚ) (off : Int) (v : List ℚ) : Option (List ℚ) :=
  if 0 ≤ off ∧ off + v.length ≤ m.length then
    some (m.take off.toNat ++ v ++ m.drop (off.toNat + v.length))
  else none

/-- The call `memset(m, 0, cnt * sizeof(double))`. -/
def memset0 (m : List ℚ) (cnt : Int) : Option (List ℚ) :=
  if 0 ≤ cnt then wr m 0 (List.replicate cnt.toNat 0) else none

/-! ## Machine integers and allocation -/

/-- The value an `int` (32 bits, two's complement) keeps of an integer: what the narrowing
of a `size_t` result to `int` leaves, and what the machine leaves of an `int` operation
whose result does not fit. -/
def wrapInt (x : Int) : Int :=
  (x + 2147483648) % 4294967296 - 2147483648

/-- The constant `sizeof(double)`. -/
def sizeofDouble : Int := 8

/-- The call `memset(m, 0, bytes)` for an `int` byte count: the call converts it to
`size_t`, so a negative count asks for more than the array holds (no result). -/
def memsetZero (m : List ℚ) (bytes : Int) : Option (List ℚ) :=
  memset0 m (bytes / sizeofDouble)

/-- The pair `x = (double*)malloc(bytes); memset(x, 0, bytes);` for an `int` byte count,
which both calls convert to `size_t`. A negative count becomes a request of more than
2^63 bytes: `malloc` returns the null pointer, the source does not test it, and `memset`
writes through it (no result). Otherwise the result is a zero-filled array of
`bytes / sizeof(double)` doubles; a request that fits an `int` is taken to be served. -/
def mallocZero (bytes : Int) : Option (List ℚ) :=
  if 0 ≤ bytes then some (List.replicate (bytes / sizeofDouble).toNat 0) else none

/-! ## Control: calls that may leave through `exit_label` -/

/-- Sequencing of steps that may touch memory outside an array (`none`) or jump
to `exit_label` with a status (`error`). -/
def andThen {α β : Type} (x : Option (Except Status α))
    (f : α → Option (Except Status β)) : Option (Except Status β) :=
  match x with
  | none => none
  | some (Except.error r) => some (Except.error r)
  | some (Except.ok v) => f v

/-- A memory access as a step: it never jumps to `exit_label`. -/
def mem {α : Type} (x : Option α) : Option (Except Status α) :=
  x.map Except.ok

/-- The loop `for (i = lo; i < lo + cnt; i++) body`, on a state of type `σ`. -/
def forLoop {σ : Type} (body : Int → σ → Option (Except Status σ)) :
    Nat → Int → σ → Option (Except Status σ)
  | 0, _, s => some (Except.ok s)
  | t + 1, i, s => andThen (body i s) (forLoop body t (i + 1))

/-! ## Convolution -/

/-- Modelled from the spec: the product of two polynomials given by their
coefficient lists, "coefficient k of the product sums products of coefficient
pairs whose indices total k" (glossary, Convolution). The result has
`x.length + y.length - 1` coefficients. -/
def polyMul (x y : List ℚ) : List ℚ :=
  (List.range (x.length + y.length - 1)).map fun k =>
    ((List.range (k + 1)).map fun i => x.getD i 0 * y.getD (k - i) 0).sum

/-- Modelled from the spec: `conv(a + oa, na, b + ob, nb, c + oc)`, the external
convolution primitive ("multiply two polynomials, error on invalid size"): it
reads `na` entries of `a` from offset `oa` and `nb` entries of `b` from offset
`ob`, and writes the `na + nb - 1` coefficients of their product to `c` from
offset `oc`; a size below 1 is the size error. The result is the new content of
`c`. -/
def conv (a : List ℚ) (oa na : Int) (b : List ℚ) (ob nb : Int) (c : List ℚ) (oc : Int) :
    Option (Except Status (List ℚ)) :=
  if na < 1 ∨ nb < 1 then some (Except.error ERROR_SIZE)
  else
    match rd a oa na, rd b ob nb with
    | some x, some y => mem (wr c oc (polyMul x y))
    | _, _ => none

/-! ## `ratcompos` -/

/-- The result of a call: the returned status and the content of the caller's two
output arrays after the call. -/
structure Out where
  res : Status
  beta : Option (List ℚ)
  alpha : Option (List ℚ)
  deriving DecidableEq, Repr

/-- The scratch arrays `num`, `den` and the running `pn`, `ln` of the power loop. -/
structure PowSt where
  num : List ℚ
  den : List ℚ
  pn : Int
  ln : Int

/-- Body of the power loop (`filter_ft.c`, lines 150-160). -/
def powBody (c d : List ℚ) (p k2 : Int) (_i : Int) (s : PowSt) :
    Option (Except Status PowSt) :=
  andThen (conv s.num s.pn s.ln c 0 (p + 1) s.num (s.pn + k2)) fun num1 =>
  andThen (conv s.den s.pn s.ln d 0 (p + 1) s.den (s.pn + k2)) fun den1 =>
  some (Except.ok ⟨num1, den1, s.pn + k2, s.ln + p⟩)

/-- The scratch array `ndn` and the running `pn`, `pd`, `ln`, `ld` of the
cross-term loop. -/
structure CrossSt where
  ndn : List ℚ
  pn : Int
  pd : Int
  ln : Int
  ld : Int

/-- Body of the cross-term loop (`filter_ft.c`, lines 167-176). -/
def crossBody (num den : List ℚ) (p k2 : Int) (i : Int) (s : CrossSt) :
    Option (Except Status CrossSt) :=
  andThen (conv num s.pn s.ln den s.pd s.ld s.ndn (i * k2)) fun ndn1 =>
  some (Except.ok ⟨ndn1, s.pn + k2, s.pd - k2, s.ln + p, s.ld - p⟩)

/-- Body of the inner weighting loop (`filter_ft.c`, lines 180-184):
`ndd[i*k2 + k] = ndn[i*k2 + k] * a[i]; ndn[i*k2 + k] *= b[i];`, on the state
`(ndn, ndd)`. -/
def scaleBody (b a : List ℚ) (k2 i : Int) (k : Int) (s : List ℚ × List ℚ) :
    Option (Except Status (List ℚ × List ℚ)) :=
  andThen (mem (ld s.1 (i * k2 + k))) fun x =>
  andThen (mem (ld a i)) fun ai =>
  andThen (mem (st s.2 (i * k2 + k) (x * ai))) fun ndd1 =>
  andThen (mem (ld s.1 (i * k2 + k))) fun y =>
  andThen (mem (ld b i)) fun bi =>
  andThen (mem (st s.1 (i * k2 + k) (y * bi))) fun ndn1 =>
  some (Except.ok (ndn1, ndd1))

/-- Body of the inner summation loop (`filter_ft.c`, lines 194-198):
`beta[k] += ndn[i*k2 + k]; alpha[k] += ndd[i*k2 + k];`, on the state
`(beta, alpha)`. -/
def sumBody (ndn ndd : List ℚ) (k2 k : Int) (i : Int) (s : List ℚ × List ℚ) :
    Option (Except Status (List ℚ × List ℚ)) :=
  andThen (mem (ld s.1 k)) fun x =>
  andThen (mem (ld ndn (i * k2 + k))) fun u =>
  andThen (mem (st s.1 k (x + u))) fun beta1 =>
  andThen (mem (ld s.2 k)) fun y =>
  andThen (mem (ld ndd (i * k2 + k))) fun v =>
  andThen (mem (st s.2 k (y + v))) fun alpha1 =>
  some (Except.ok (beta1, alpha1))

/-- The sizes and the scratch arrays of `ratcompos`: the `int` variables `k2`, `k2s` and
the arrays `num`, `den`, `ndn`, `ndd`. -/
structure Scratch where
  k2 : Int
  k2s : Int
  num : List ℚ
  den : List ℚ
  ndn : List ℚ
  ndd : List ℚ

/-- The set-up of `ratcompos` (`filter_ft.c`, lines 132-147): the `int` sizes `k2`, `k2s`,
`nk2s` (the byte counts are `size_t` products narrowed to `int`), the four scratch arrays
of `nk2s` bytes, zero-filled, and `num[0] = den[0] = 1.0`. -/
def ratcomposScratch (n p : Int) : Option (Except Status Scratch) :=
  let k2 := wrapInt (n * p + 1)
  let k2s := wrapInt (k2 * sizeofDouble)
  let nk2s := wrapInt (wrapInt ((n + 1) * k2) * sizeofDouble)
  andThen (mem (mallocZero nk2s)) fun num =>
  andThen (mem (mallocZero nk2s)) fun den =>
  andThen (mem (mallocZero nk2s)) fun ndn =>
  andThen (mem (mallocZero nk2s)) fun ndd =>
  andThen (mem (st num 0 1)) fun num1 =>
  andThen (mem (st den 0 1)) fun den1 =>
  some (Except.ok ⟨k2, k2s, num1, den1, ndn, ndd⟩)

/-- The power loop of `ratcompos` (`filter_ft.c`, lines 148-160) on the scratch `s`,
stopped after `cnt` steps; `ratcompos` runs all `n` of them. -/
def ratcomposPow (c d : List ℚ) (p : Int) (s : Scratch) (cnt : Nat) :
    Option (Except Status PowSt) :=
  forLoop (powBody c d p s.k2) cnt 1 ⟨s.num, s.den, 0, 1⟩

/-- The cross-term loop of `ratcompos` (`filter_ft.c`, lines 162-176) on the scratch `s`
and the result `s1` of the power loop, stopped after `cnt` steps; `ratcompos` runs all
`n + 1` of them. -/
def ratcomposCross (n p : Int) (s : Scratch) (s1 : PowSt) (cnt : Nat) :
    Option (Except Status CrossSt) :=
  forLoop (crossBody s1.num s1.den p s.k2) cnt 0 ⟨s.ndn, 0, n * s.k2, 1, s.k2⟩

/-- The part of `ratcompos` after the argument checks (`filter_ft.c`, lines
132-201), for non-null arrays: the final content of `(beta, alpha)`. -/
def ratcomposCore (b a : List ℚ) (n : Int) (c d : List ℚ) (p : Int)
    (beta alpha : List ℚ) : Option (Except Status (List ℚ × List ℚ)) :=
  andThen (ratcomposScratch n p) fun s =>
  andThen (ratcomposPow c d p s (n + 1 - 1).toNat) fun s1 =>
  andThen (ratcomposCross n p s s1 (n + 1).toNat) fun s2 =>
  andThen (forLoop (fun i => forLoop (scaleBody b a s.k2 i) s.k2.toNat 0) (n + 1).toNat 0
      (s2.ndn, s.ndd)) fun s3 =>
  andThen (mem (memsetZero alpha s.k2s)) fun alpha0 =>
  andThen (mem (memsetZero beta s.k2s)) fun beta0 =>
  forLoop (fun k => forLoop (sumBody s3.1 s3.2 s.k2 k) (n + 1).toNat 0) s.k2.toNat 0
    (beta0, alpha0)

/-- The function `ratcompos` (`filter_ft.c`, lines 112-213). -/
def ratcompos (b a : Option (List ℚ)) (n : Int) (c d : Option (List ℚ)) (p : Int)
    (beta alpha : Option (List ℚ)) : Option Out :=
  match a, b, c, d, beta, alpha with
  | some av, some bv, some cv, some dv, some betav, some alphav =>
    if n < 1 ∨ p < 1 then some ⟨ERROR_SIZE, beta, alpha⟩
    else
      match ratcomposCore bv av n cv dv p betav alphav with
      | none => none
      | some (Except.error r) => some ⟨r, beta, alpha⟩
      | some (Except.ok (beta1, alpha1)) => some ⟨RES_OK, some beta1, some alpha1⟩
  | _, _, _, _, _, _ => some ⟨ERROR_PTR, beta, alpha⟩

/-! ## The frequency transforms and the bilinear transform -/

/-- The function `low2bp` (`filter_ft.c`, lines 32-51). The frequencies are numbers:
a NaN, for which every comparison of line 44 is false, is not a value of the embedding. -/
def low2bp (b a : Option (List ℚ)) (ord : Int) (w0 wpl wph : ℚ)
    (beta alpha : Option (List ℚ)) : Option Out :=
  let num : List ℚ := [0, 0, 1]
  let den : List ℚ := [0, 0, 0]
  if b.isNone ∨ a.isNone ∨ beta.isNone ∨ alpha.isNone then some ⟨ERROR_PTR, beta, alpha⟩
  else if ord < 1 then some ⟨ERROR_FILTER_ORD, beta, alpha⟩
  else if w0 ≤ 0 ∨ wpl ≤ 0 ∨ wph ≤ 0 ∨ wph ≤ wpl then some ⟨ERROR_FILTER_FT, beta, alpha⟩
  else
    let num := num.set 0 ((wph * wpl) / (w0 * w0))
    let den := den.set 1 ((wph - wpl) / w0)
    ratcompos b a ord (some num) (some den) 2 beta alpha

/-- The function `low2high` (`filter_ft.c`, lines 59-76). The frequencies are numbers:
a NaN, for which every comparison of line 70 is false, is not a value of the embedding. -/
def low2high (b a : Option (List ℚ)) (ord : Int) (w0 w1 : ℚ)
    (beta alpha : Option (List ℚ)) : Option Out :=
  let num : List ℚ := [0, 0]
  let den : List ℚ := [0, 1]
  if b.isNone ∨ a.isNone ∨ beta.isNone ∨ alpha.isNone then some ⟨ERROR_PTR, beta, alpha⟩
  else if ord < 1 then some ⟨ERROR_FILTER_ORD, beta, alpha⟩
  else if w0 ≤ 0 ∨ w1 ≤ 0 then some ⟨ERROR_FILTER_FT, beta, alpha⟩
  else
    let num := num.set 0 (w1 / w0)
    ratcompos b a ord (some num) (some den) 1 beta alpha

/-- The function `low2low` (`filter_ft.c`, lines 87-104). The frequencies are numbers:
a NaN, for which every comparison of line 98 is false, is not a value of the embedding. -/
def low2low (b a : Option (List ℚ)) (ord : Int) (w0 w1 : ℚ)
    (beta alpha : Option (List ℚ)) : Option Out :=
  let num : List ℚ := [0, 1]
  let den : List ℚ := [0, 0]
  if b.isNone ∨ a.isNone ∨ beta.isNone ∨ alpha.isNone then some ⟨ERROR_PTR, beta, alpha⟩
  else if ord < 1 then some ⟨ERROR_FILTER_ORD, beta, alpha⟩
  else if w0 ≤ 0 ∨ w1 ≤ 0 then some ⟨ERROR_FILTER_FT, beta, alpha⟩
  else
    let den := den.set 0 (w1 / w0)
    ratcompos b a ord (some num) (some den) 1 beta alpha

/-- The function `bilinear` (`filter_iir.c`, lines 32-37). -/
def bilinear (bs as : Option (List ℚ)) (ord : Int) (bz az : Option (List ℚ)) : Option Out :=
  let c : List ℚ := [1, -1]
  let d : List ℚ := [1, 1]
  ratcompos bs as ord (some c) (some d) 1 bz az

/-! ## Reading a coefficient list as a polynomial -/

/-- The value at `y` of the polynomial whose coefficient of the `i`-th power is
`l[i]`. -/
def polyEval (l : List ℚ) (y : ℚ) : ℚ :=
  ((List.range l.length).map fun i => l.getD i 0 * y ^ i).sum

/-- The array behind `arr`, when the pointer is not null, has at least `cnt` entries. -/
def holds (arr : Option (List ℚ)) (cnt : Int) : Bool :=
  match arr with
  | none => true
  | some l => decide (cnt ≤ l.length)

/-! ## `iir` and what it takes from outside -/

/-- What `filter_iir.c` uses and the sources at hand do not contain, taken as parameters:
the selector macros of `dspl.h`, the four analog prototype generators (each returns a
status and the content of its two output arrays after the call), `tan` and `M_PI` of
`math.h`, and the content of the memory that `malloc` hands out. -/
structure Ext where
  DSPL_FILTER_TYPE_MASK : Int
  DSPL_FILTER_LPF : Int
  DSPL_FILTER_HPF : Int
  DSPL_FILTER_BPASS : Int
  DSPL_FILTER_BSTOP : Int
  DSPL_FILTER_APPROX_MASK : Int
  DSPL_FILTER_BUTTER : Int
  DSPL_FILTER_CHEBY1 : Int
  DSPL_FILTER_CHEBY2 : Int
  DSPL_FILTER_ELLIP : Int
  butter_ap : ℚ → Int → Option (List ℚ) → Option (List ℚ) → Option Out
  cheby1_ap : ℚ → Int → Option (List ℚ) → Option (List ℚ) → Option Out
  cheby2_ap_wp1 : ℚ → ℚ → Int → Option (List ℚ) → Option (List ℚ) → Option Out
  ellip_ap : ℚ → ℚ → Int → Option (List ℚ) → Option (List ℚ) → Option Out
  tan : ℚ → ℚ
  M_PI : ℚ
  junk : Nat → ℚ

/-- The call `(double*)malloc(cnt * sizeof(double))`: an array of `cnt` doubles of
unspecified content; a negative `cnt`, which the conversion to `size_t` turns into a
request that cannot be served, gives the null pointer. -/
def malloc (junk : Nat → ℚ) (cnt : Int) : Option (List ℚ) :=
  if 0 ≤ cnt then some ((List.range cnt.toNat).map junk) else none

/-- The function `iir_ap` (`filter_iir.c`, lines 139-162). -/
def iir_ap (E : Ext) (rp rs : ℚ) (ord : Int) (type : Int) (b a : Option (List ℚ)) :
    Option Out :=
  if Int.land type E.DSPL_FILTER_APPROX_MASK = E.DSPL_FILTER_BUTTER then
    E.butter_ap rp ord b a
  else if Int.land type E.DSPL_FILTER_APPROX_MASK = E.DSPL_FILTER_CHEBY1 then
    E.cheby1_ap rp ord b a
  else if Int.land type E.DSPL_FILTER_APPROX_MASK = E.DSPL_FILTER_CHEBY2 then
    E.cheby2_ap_wp1 rp rs ord b a
  else if Int.land type E.DSPL_FILTER_APPROX_MASK = E.DSPL_FILTER_ELLIP then
    E.ellip_ap rp rs ord b a
  else some ⟨ERROR_FILTER_APPROX, b, a⟩

/-- The scratch pointers `bs`, `as`, `bt`, `at` of `iir` and its `ord_ap`. -/
structure IirBufs where
  bs : Option (List ℚ)
  as : Option (List ℚ)
  bt : Option (List ℚ)
  at_ : Option (List ℚ)
  ord_ap : Int

/-- The allocations of `iir` (`filter_iir.c`, lines 48-78); `error` is the early
`return ERROR_FILTER_ORD_BP`. -/
def iirAlloc (E : Ext) (ord type : Int) : Except Status IirBufs :=
  let s0 : IirBufs := ⟨none, none, none, none, ord⟩
  let s1 : IirBufs :=
    if Int.land type E.DSPL_FILTER_TYPE_MASK = E.DSPL_FILTER_LPF ∨
        Int.land type E.DSPL_FILTER_TYPE_MASK = E.DSPL_FILTER_HPF then
      ⟨malloc E.junk (s0.ord_ap + 1), malloc E.junk (s0.ord_ap + 1),
        malloc E.junk (s0.ord_ap + 1), malloc E.junk (s0.ord_ap + 1), s0.ord_ap⟩
    else s0
  if Int.land type E.DSPL_FILTER_TYPE_MASK = E.DSPL_FILTER_BPASS ∨
      Int.land type E.DSPL_FILTER_TYPE_MASK = E.DSPL_FILTER_BSTOP then
    if Int.tmod ord 2 ≠ 0 then Except.error ERROR_FILTER_ORD_BP
    else
      Except.ok ⟨malloc E.junk (Int.tdiv ord 2 + 1), malloc E.junk (Int.tdiv ord 2 + 1),
        malloc E.junk (ord + 1), malloc E.junk (ord + 1), Int.tdiv ord 2⟩
  else Except.ok s1

/-- The frequency transformation step of `iir` (`filter_iir.c`, lines 84-108): the prewarped
frequencies and the `switch` on the shape bits of `type`. -/
def iirTransform (E : Ext) (w0 w1 : ℚ) (type : Int) (bs as : Option (List ℚ)) (ord_ap : Int)
    (bt at_ : Option (List ℚ)) : Option Out :=
  let wa0 := E.tan (w0 * E.M_PI * 0.5)
  let wa1 := E.tan (w1 * E.M_PI * 0.5)
  if Int.land type E.DSPL_FILTER_TYPE_MASK = E.DSPL_FILTER_LPF then
    low2low bs as ord_ap 1.0 wa0 bt at_
  else if Int.land type E.DSPL_FILTER_TYPE_MASK = E.DSPL_FILTER_HPF then
    low2high bs as ord_ap 1.0 wa0 bt at_
  else if Int.land type E.DSPL_FILTER_TYPE_MASK = E.DSPL_FILTER_BPASS then
    low2bp bs as ord_ap 1.0 wa0 wa1 bt at_
  else some ⟨ERROR_FILTER_TYPE, bt, at_⟩

/-- The part of `iir` before the call of `bilinear` (`filter_iir.c`, lines 48-110):
`error` is a jump to `error_proc` (or the early return) with that status, `ok` the content
of `bt` and `at` after the frequency transformation. -/
def iirFront (E : Ext) (rp rs : ℚ) (ord : Int) (w0 w1 : ℚ) (type : Int) :
    Option (Except Status (Option (List ℚ) × Option (List ℚ))) :=
  match iirAlloc E ord type with
  | Except.error r => some (Except.error r)
  | Except.ok s =>
    match iir_ap E rp rs s.ord_ap type s.bs s.as with
    | none => none
    | some o1 =>
      if o1.res ≠ RES_OK then some (Except.error o1.res)
      else
        match iirTransform E w0 w1 type o1.beta o1.alpha s.ord_ap s.bt s.at_ with
        | none => none
        | some o2 =>
          if o2.res ≠ RES_OK then some (Except.error o2.res)
          else some (Except.ok (o2.beta, o2.alpha))

/-- The function `iir` (`filter_iir.c`, lines 45-129). -/
def iir (E : Ext) (rp rs : ℚ) (ord : Int) (w0 w1 : ℚ) (type : Int)
    (b a : Option (List ℚ)) : Option Out :=
  match iirFront E rp rs ord w0 w1 type with
  | none => none
  | some (Except.error r) => some ⟨r, b, a⟩
  | some (Except.ok (bt, at_)) => bilinear bt at_ ord b a

/-- A sample environment for concrete evaluations: selector macros with one bit per shape
and per family, prototype generators that succeed with fixed coefficients of the asked
order, the identity in place of `tan`, and zero-filled fresh memory. -/
def sampleExt : Ext :=
  ⟨255, 1, 2, 4, 8, 65280, 256, 512, 1024, 2048,
    fun _ ord _ _ => some ⟨RES_OK, some (List.replicate (ord + 1).toNat 1),
      some (List.replicate (ord + 1).toNat 2)⟩,
    fun _ ord _ _ => some ⟨RES_OK, some (List.replicate (ord + 1).toNat 1),
      some (List.replicate (ord + 1).toNat 2)⟩,
    fun _ _ ord _ _ => some ⟨RES_OK, some (List.replicate (ord + 1).toNat 1),
      some (List.replicate (ord + 1).toNat 2)⟩,
    fun _ _ ord _ _ => some ⟨RES_OK, some (List.replicate (ord + 1).toNat 1),
      some (List.replicate (ord + 1).toNat 2)⟩,
    fun x => x, 3, fun _ => 0⟩

open Polynomial

/-! ## Control lemmas -/

theorem andThen_ok {α β : Type} (v : α) (f : α → Option (Except Status β)) :
    andThen (some (Except.ok v)) f = f v := rfl

theorem mem_some {α : Type} (v : α) : mem (some v) = some (Except.ok v) := rfl

theorem forLoop_inv {σ : Type} (body : Int → σ → Option (Except Status σ))
    (cnt : Nat) : ∀ (Inv : Nat → σ → Prop) (lo : Int) (s0 : σ), Inv 0 s0 →
    (∀ j s, j < cnt → Inv j s → ∃ s1, body (lo + j) s = some (Except.ok s1) ∧ Inv (j + 1) s1) →
    ∃ s1, forLoop body cnt lo s0 = some (Except.ok s1) ∧ Inv cnt s1 := by
  induction cnt with
  | zero => intro Inv lo s0 h0 _; exact ⟨s0, rfl, h0⟩
  | succ t ih =>
    intro Inv lo s0 h0 hstep
    obtain ⟨s1, hb, h1⟩ := hstep 0 s0 (Nat.succ_pos t) h0
    simp only [Nat.cast_zero, add_zero] at hb
    have := ih (fun j s => Inv (j + 1) s) (lo + 1) s1 h1 (by
      intro j s hj hI
      obtain ⟨s2, hb2, h2⟩ := hstep (j + 1) s (Nat.succ_lt_succ hj) hI
      refine ⟨s2, ?_, h2⟩
      rw [← hb2]; congr 1; push_cast; ring)
    obtain ⟨s2, hl, h2⟩ := this
    exact ⟨s2, by simp only [forLoop, hb, andThen_ok, hl], h2⟩

/-! ## Memory lemmas -/

theorem ld_eq (m : List ℚ) (i : Int) (j : Nat) (hi : i = j) (h : j < m.length) :
    ld m i = some (m.getD j 0) := by
  subst hi
  have h2 : ((j : Int) < (m.length : Int)) := by exact_mod_cast h
  simp [ld, h2, List.getD_eq_getElem?_getD, List.getElem?_eq_getElem h]

theorem st_eq (m : List ℚ) (i : Int) (j : Nat) (x : ℚ) (hi : i = j) (h : j < m.length) :
    st m i x = some (m.set j x) := by
  subst hi
  have h2 : ((j : Int) < (m.length : Int)) := by exact_mod_cast h
  simp [st, h2]

theorem getD_set (m : List ℚ) (j : Nat) (x : ℚ) (k : Nat) (h : j < m.length) :
    (m.set j x).getD k 0 = if k = j then x else m.getD k 0 := by
  simp only [List.getD_eq_getElem?_getD, List.getElem?_set]
  by_cases hk : k = j
  · subst hk; simp [h]
  · have : ¬ j = k := fun e => hk e.symm
    simp [hk, this]

theorem rd_eq (m : List ℚ) (off len : Int) (o l : Nat) (ho : off = o) (hl : len = l)
    (h : o + l ≤ m.length) : rd m off len = some ((m.drop o).take l) := by
  subst ho hl
  have h2 : ((o : Int) + (l : Int) ≤ (m.length : Int)) := by exact_mod_cast h
  simp [rd, h2]

theorem getD_slice (m : List ℚ) (o l t : Nat) :
    ((m.drop o).take l).getD t 0 = if t < l then m.getD (o + t) 0 else 0 := by
  simp only [List.getD_eq_getElem?_getD, List.getElem?_take, List.getElem?_drop]
  split <;> simp

theorem wr_eq (m : List ℚ) (off : Int) (o : Nat) (v : List ℚ) (ho : off = o)
    (h : o + v.length ≤ m.length) :
    wr m off v = some (m.take o ++ v ++ m.drop (o + v.length)) := by
  subst ho
  have h2 : ((o : Int) + (v.length : Int) ≤ (m.length : Int)) := by exact_mod_cast h
  simp [wr, h2]

theorem length_patch (m : List ℚ) (o : Nat) (v : List ℚ) (h : o + v.length ≤ m.length) :
    (m.take o ++ v ++ m.drop (o + v.length)).length = m.length := by
  simp only [List.length_append, List.length_take, List.length_drop]
  omega

theorem getD_patch (m : List ℚ) (o : Nat) (v : List ℚ) (x : Nat) (h : o + v.length ≤ m.length) :
    (m.take o ++ v ++ m.drop (o + v.length)).getD x 0 =
      if o ≤ x ∧ x < o + v.length then v.getD (x - o) 0 else m.getD x 0 := by
  have hlen : (m.take o).length = o := by simp; omega
  simp only [List.getD_eq_getElem?_getD]
  by_cases h1 : x < o
  · have : ¬ (o ≤ x ∧ x < o + v.length) := by omega
    rw [if_neg this, List.append_assoc, List.getElem?_append_left (by omega),
      List.getElem?_take_of_lt h1]
  · by_cases h2 : x < o + v.length
    · have : (o ≤ x ∧ x < o + v.length) := by omega
      rw [if_pos this, List.append_assoc, List.getElem?_append_right (by omega),
        List.getElem?_append_left (by omega), hlen]
    · have : ¬ (o ≤ x ∧ x < o + v.length) := by omega
      rw [if_neg this, List.getElem?_append_right (by simp; omega), List.getElem?_drop]
      congr 2
      simp only [List.length_append, hlen]
      omega


/-! ## Convolution lemmas -/

theorem list_sum_range (f : Nat → ℚ) (n : Nat) :
    ((List.range n).map f).sum = ∑ i in Finset.range n, f i := by
  induction n with
  | zero => simp
  | succ n ih => rw [List.sum_range_succ, Finset.sum_range_succ, ih]

theorem polyMul_length (x y : List ℚ) : (polyMul x y).length = x.length + y.length - 1 := by
  simp [polyMul]

theorem polyMul_getD (x y : List ℚ) (A B : ℚ[X]) (hA : ∀ j, A.coeff j = x.getD j 0)
    (hB : ∀ j, B.coeff j = y.getD j 0) (k : Nat) :
    (polyMul x y).getD k 0 = (A * B).coeff k := by
  rw [Polynomial.coeff_mul, Finset.Nat.sum_antidiagonal_eq_sum_range_succ_mk]
  by_cases hk : k < x.length + y.length - 1
  · simp only [polyMul, List.getD_eq_getElem?_getD]
    rw [List.getElem?_map, List.getElem?_range hk]
    simp only [Option.map_some', Option.getD_some]
    rw [list_sum_range]
    refine Finset.sum_congr rfl fun i _ => ?_
    simp only [List.getD_eq_getElem?_getD, hA, hB]
  · have h0 : (polyMul x y).getD k 0 = 0 := by
      rw [List.getD_eq_default]
      rw [polyMul_length]; omega
    rw [h0]
    symm
    refine Finset.sum_eq_zero fun i hi => ?_
    simp only [hA, hB]
    by_cases h1 : i < x.length
    · have : y.length ≤ k - i := by omega
      rw [List.getD_eq_default _ _ this, mul_zero]
    · rw [List.getD_eq_default _ _ (by omega), zero_mul]

theorem conv_eq (a b c : List ℚ) (oa na ob nb oc : Int) (oa1 na1 ob1 nb1 oc1 : Nat)
    (h1 : oa = oa1) (h2 : na = na1) (h3 : ob = ob1) (h4 : nb = nb1) (h5 : oc = oc1)
    (hna : 1 ≤ na1) (hnb : 1 ≤ nb1) (ha : oa1 + na1 ≤ a.length) (hb : ob1 + nb1 ≤ b.length)
    (hc : oc1 + (na1 + nb1 - 1) ≤ c.length) :
    conv a oa na b ob nb c oc = some (Except.ok
      (c.take oc1 ++ polyMul ((a.drop oa1).take na1) ((b.drop ob1).take nb1) ++
        c.drop (oc1 + (polyMul ((a.drop oa1).take na1) ((b.drop ob1).take nb1)).length))) := by
  have hl : (polyMul ((a.drop oa1).take na1) ((b.drop ob1).take nb1)).length
      = na1 + nb1 - 1 := by
    rw [polyMul_length, List.length_take, List.length_take, List.length_drop,
      List.length_drop]
    omega
  have g : ¬ (na < 1 ∨ nb < 1) := by subst h2 h4; omega
  simp only [conv, g, if_false, rd_eq a oa na oa1 na1 h1 h2 ha, rd_eq b ob nb ob1 nb1 h3 h4 hb]
  rw [wr_eq c oc oc1 _ h5 (by rw [hl]; exact hc)]
  rfl

/-- Coefficients of a power vanish above the degree bound. -/
theorem coeff_pow_high (C : ℚ[X]) (p : Nat) (hC : ∀ t, p + 1 ≤ t → C.coeff t = 0)
    (j t : Nat) (ht : j * p + 1 ≤ t) : (C ^ j).coeff t = 0 := by
  apply Polynomial.coeff_eq_zero_of_natDegree_lt
  have hd : C.natDegree ≤ p := by
    rw [Polynomial.natDegree_le_iff_coeff_eq_zero]
    intro N hN; exact hC N hN
  calc (C ^ j).natDegree ≤ j * C.natDegree := Polynomial.natDegree_pow_le
    _ ≤ j * p := Nat.mul_le_mul_left j hd
    _ < t := ht

/-! ## Slot arithmetic -/

theorem slot_lt (K i j t : Nat) (hij : i < j) (ht : t < K) : i * K + t < j * K := by
  have : (i + 1) * K ≤ j * K := Nat.mul_le_mul_right K hij
  have e : (i + 1) * K = i * K + K := by ring
  omega

theorem slot_inj (K i j t u : Nat) (ht : t < K) (hu : u < K) (h : i * K + t = j * K + u) :
    i = j ∧ t = u := by
  rcases Nat.lt_trichotomy i j with hij | hij | hij
  · have := slot_lt K i j t hij ht; omega
  · subst hij; exact ⟨rfl, by omega⟩
  · have := slot_lt K j i u hij hu; omega


/-! ## The power loop -/

theorem pow_step (n p : Nat) (c : List ℚ) (C : ℚ[X]) (hc : p + 1 ≤ c.length)
    (hC : ∀ t, C.coeff t = if t < p + 1 then c.getD t 0 else 0)
    (m : List ℚ) (j : Nat) (hj : j < n) (hlen : m.length = (n + 1) * (n * p + 1))
    (hinv : ∀ i t, i ≤ n → t < n * p + 1 →
      m.getD (i * (n * p + 1) + t) 0 = if i ≤ j then (C ^ i).coeff t else 0)
    (pn ln k2 q : Int) (hpn : pn = ((j * (n * p + 1) : Nat) : Int))
    (hln : ln = ((j * p + 1 : Nat) : Int)) (hk2 : k2 = ((n * p + 1 : Nat) : Int))
    (hq : q = (p : Int)) :
    ∃ m1, conv m pn ln c 0 (q + 1) m (pn + k2) = some (Except.ok m1) ∧
      m1.length = (n + 1) * (n * p + 1) ∧
      ∀ i t, i ≤ n → t < n * p + 1 →
        m1.getD (i * (n * p + 1) + t) 0 = if i ≤ j + 1 then (C ^ i).coeff t else 0 := by
  have e1 : (j + 1) * p = j * p + p := by ring
  have e2 : (j + 1) * (n * p + 1) = j * (n * p + 1) + (n * p + 1) := by ring
  have e3 : (n + 1) * (n * p + 1) = n * (n * p + 1) + (n * p + 1) := by ring
  have b1 : (j + 1) * p ≤ n * p := Nat.mul_le_mul_right p hj
  have b2 : (j + 1) * (n * p + 1) ≤ n * (n * p + 1) := Nat.mul_le_mul_right _ hj
  have hconv := conv_eq m c m pn ln 0 (q + 1) (pn + k2) (j * (n * p + 1)) (j * p + 1) 0 (p + 1)
    ((j + 1) * (n * p + 1)) hpn hln rfl (by subst hq; push_cast; ring)
    (by subst hpn hk2; push_cast; ring) (by omega) (by omega) (by omega) (by omega) (by omega)
  refine ⟨_, hconv, ?_, ?_⟩
  · rw [length_patch _ _ _ (by
      rw [polyMul_length, List.length_take, List.length_take, List.length_drop,
        List.length_drop]; omega)]
    exact hlen
  · intro i t hi ht
    have hx : ∀ u, ((m.drop (j * (n * p + 1))).take (j * p + 1)).getD u 0 = (C ^ j).coeff u := by
      intro u
      rw [getD_slice]
      by_cases hu : u < j * p + 1
      · rw [if_pos hu, hinv j u (by omega) (by omega), if_pos le_rfl]
      · rw [if_neg hu]
        symm
        exact coeff_pow_high C p (fun t ht => by rw [hC t, if_neg (by omega)]) j u (by omega)
    have hy : ∀ u, ((c.drop 0).take (p + 1)).getD u 0 = C.coeff u := by
      intro u
      rw [getD_slice, hC u, Nat.zero_add]
    have hl : (polyMul ((m.drop (j * (n * p + 1))).take (j * p + 1))
        ((c.drop 0).take (p + 1))).length = (j + 1) * p + 1 := by
      rw [polyMul_length, List.length_take, List.length_take, List.length_drop,
        List.length_drop]; omega
    rw [getD_patch _ _ _ _ (by rw [hl]; omega), hl,
      polyMul_getD _ _ (C ^ j) C (fun u => (hx u).symm) (fun u => (hy u).symm), ← pow_succ]
    rcases Nat.lt_trichotomy i (j + 1) with h | h | h
    · have := slot_lt (n * p + 1) i (j + 1) t h ht
      rw [if_neg (by omega), hinv i t hi ht, if_pos (by omega), if_pos (by omega)]
    · subst h
      rw [if_pos le_rfl]
      by_cases h3 : t < (j + 1) * p + 1
      · rw [if_pos (by omega)]
        congr 1; omega
      · rw [if_neg (by omega), hinv (j + 1) t hi ht, if_neg (by omega)]
        symm
        exact coeff_pow_high C p (fun t ht => by rw [hC t, if_neg (by omega)]) (j + 1) t
          (by omega)
    · have : (j + 1 + 1) * (n * p + 1) ≤ i * (n * p + 1) := Nat.mul_le_mul_right _ h
      have e4 : (j + 1 + 1) * (n * p + 1) = (j + 1) * (n * p + 1) + (n * p + 1) := by ring
      rw [if_neg (by omega), if_neg (by omega), hinv i t hi ht, if_neg (by omega)]

theorem init_getD (n p : Nat) (C : ℚ[X]) (i t : Nat) (ht : t < n * p + 1) :
    ((List.replicate ((n + 1) * (n * p + 1)) (0 : ℚ)).set 0 1).getD (i * (n * p + 1) + t) 0 =
      if i ≤ 0 then (C ^ i).coeff t else 0 := by
  have e3 : (n + 1) * (n * p + 1) = n * (n * p + 1) + (n * p + 1) := by ring
  rw [getD_set _ _ _ _ (by rw [List.length_replicate]; omega)]
  have hz : ∀ k, (List.replicate ((n + 1) * (n * p + 1)) (0 : ℚ)).getD k 0 = 0 := by
    intro k
    simp only [List.getD_eq_getElem?_getD, List.getElem?_replicate]
    split <;> rfl
  rw [hz]
  by_cases hi : i = 0
  · subst hi
    simp only [Nat.zero_mul, Nat.zero_add, le_refl, if_true, pow_zero,
      Polynomial.coeff_one]
  · have : 1 * (n * p + 1) ≤ i * (n * p + 1) := Nat.mul_le_mul_right _ (by omega)
    rw [if_neg (by omega), if_neg (by omega)]

theorem powLoop_ok (n p : Nat) (c d : List ℚ) (C D : ℚ[X])
    (hc : p + 1 ≤ c.length) (hd : p + 1 ≤ d.length)
    (hC : ∀ t, C.coeff t = if t < p + 1 then c.getD t 0 else 0)
    (hD : ∀ t, D.coeff t = if t < p + 1 then d.getD t 0 else 0)
    (k2 q : Int) (hk2 : k2 = ((n * p + 1 : Nat) : Int)) (hq : q = (p : Int)) :
    ∃ s, forLoop (powBody c d q k2) n 1
        ⟨(List.replicate ((n + 1) * (n * p + 1)) 0).set 0 1,
         (List.replicate ((n + 1) * (n * p + 1)) 0).set 0 1, 0, 1⟩ = some (Except.ok s) ∧
      s.num.length = (n + 1) * (n * p + 1) ∧ s.den.length = (n + 1) * (n * p + 1) ∧
      (∀ i t, i ≤ n → t < n * p + 1 → s.num.getD (i * (n * p + 1) + t) 0 = (C ^ i).coeff t) ∧
      (∀ i t, i ≤ n → t < n * p + 1 → s.den.getD (i * (n * p + 1) + t) 0 = (D ^ i).coeff t) := by
  obtain ⟨s, hs, h1, h2, h3, h4, h5, h6⟩ := forLoop_inv (powBody c d q k2) n
    (fun j s => s.pn = ((j * (n * p + 1) : Nat) : Int) ∧ s.ln = ((j * p + 1 : Nat) : Int) ∧
      s.num.length = (n + 1) * (n * p + 1) ∧ s.den.length = (n + 1) * (n * p + 1) ∧
      (∀ i t, i ≤ n → t < n * p + 1 →
        s.num.getD (i * (n * p + 1) + t) 0 = if i ≤ j then (C ^ i).coeff t else 0) ∧
      (∀ i t, i ≤ n → t < n * p + 1 →
        s.den.getD (i * (n * p + 1) + t) 0 = if i ≤ j then (D ^ i).coeff t else 0))
    1 ⟨(List.replicate ((n + 1) * (n * p + 1)) 0).set 0 1,
         (List.replicate ((n + 1) * (n * p + 1)) 0).set 0 1, 0, 1⟩
    ⟨by simp, by simp, by simp, by simp, fun i t _ ht => init_getD n p C i t ht,
      fun i t _ ht => init_getD n p D i t ht⟩
    (by
      rintro j s hj ⟨h1, h2, h3, h4, h5, h6⟩
      obtain ⟨m1, hm1, hl1, hi1⟩ := pow_step n p c C hc hC s.num j hj h3 h5 s.pn s.ln k2 q
        h1 h2 hk2 hq
      obtain ⟨m2, hm2, hl2, hi2⟩ := pow_step n p d D hd hD s.den j hj h4 h6 s.pn s.ln k2 q
        h1 h2 hk2 hq
      refine ⟨⟨m1, m2, s.pn + k2, s.ln + q⟩, ?_, ?_, ?_, hl1, hl2, hi1, hi2⟩
      · simp only [powBody, hm1, hm2, andThen_ok]
      · show s.pn + k2 = _
        rw [h1, hk2]; push_cast; ring
      · show s.ln + q = _
        rw [h2, hq]; push_cast; ring)
  refine ⟨s, hs, h3, h4, ?_, ?_⟩
  · intro i t hi ht; rw [h5 i t hi ht, if_pos hi]
  · intro i t hi ht; rw [h6 i t hi ht, if_pos hi]

/-! ## The cross-term loop -/

theorem slice_pow (n p : Nat) (m : List ℚ) (C : ℚ[X]) (hC : ∀ t, p + 1 ≤ t → C.coeff t = 0)
    (hm : ∀ i t, i ≤ n → t < n * p + 1 → m.getD (i * (n * p + 1) + t) 0 = (C ^ i).coeff t)
    (j : Nat) (hj : j ≤ n) (u : Nat) :
    ((m.drop (j * (n * p + 1))).take (j * p + 1)).getD u 0 = (C ^ j).coeff u := by
  have b1 : j * p ≤ n * p := Nat.mul_le_mul_right p hj
  rw [getD_slice]
  by_cases hu : u < j * p + 1
  · rw [if_pos hu, hm j u hj (by omega)]
  · rw [if_neg hu]
    symm
    exact coeff_pow_high C p hC j u (by omega)

theorem replicate_getD (N k : Nat) : (List.replicate N (0 : ℚ)).getD k 0 = 0 := by
  simp only [List.getD_eq_getElem?_getD, List.getElem?_replicate]
  split <;> rfl

theorem cross_step (n p : Nat) (num den : List ℚ) (C D : ℚ[X])
    (hC : ∀ t, p + 1 ≤ t → C.coeff t = 0) (hD : ∀ t, p + 1 ≤ t → D.coeff t = 0)
    (hln : num.length = (n + 1) * (n * p + 1)) (hld : den.length = (n + 1) * (n * p + 1))
    (hnum : ∀ i t, i ≤ n → t < n * p + 1 → num.getD (i * (n * p + 1) + t) 0 = (C ^ i).coeff t)
    (hden : ∀ i t, i ≤ n → t < n * p + 1 → den.getD (i * (n * p + 1) + t) 0 = (D ^ i).coeff t)
    (m : List ℚ) (j : Nat) (hjn : j ≤ n) (h5 : m.length = (n + 1) * (n * p + 1))
    (h6 : ∀ i t, i ≤ n → t < n * p + 1 →
      m.getD (i * (n * p + 1) + t) 0 = if i < j then (C ^ i * D ^ (n - i)).coeff t else 0)
    (pn ln pd ld oc : Int) (h1 : pn = ((j * (n * p + 1) : Nat) : Int))
    (h2 : pd = (n : Int) * ((n * p + 1 : Nat) : Int) - (j : Int) * ((n * p + 1 : Nat) : Int))
    (h3 : ln = ((j * p + 1 : Nat) : Int))
    (h4 : ld = ((n * p + 1 : Nat) : Int) - (j : Int) * (p : Int))
    (h7 : oc = ((j * (n * p + 1) : Nat) : Int)) :
    ∃ m1, conv num pn ln den pd ld m oc = some (Except.ok m1) ∧
      m1.length = (n + 1) * (n * p + 1) ∧
      ∀ i t, i ≤ n → t < n * p + 1 →
        m1.getD (i * (n * p + 1) + t) 0 =
          if i < j + 1 then (C ^ i * D ^ (n - i)).coeff t else 0 := by
  have e3 : (n + 1) * (n * p + 1) = n * (n * p + 1) + (n * p + 1) := by ring
  have b1 : j * p ≤ n * p := Nat.mul_le_mul_right p hjn
  have b2 : j * (n * p + 1) ≤ n * (n * p + 1) := Nat.mul_le_mul_right _ hjn
  have b3 : (n - j) * p ≤ n * p := Nat.mul_le_mul_right p (Nat.sub_le n j)
  have b4 : (n - j) * (n * p + 1) ≤ n * (n * p + 1) :=
    Nat.mul_le_mul_right _ (Nat.sub_le n j)
  have b5 : j * p + (n - j) * p = n * p := by
    rw [← Nat.add_mul]; congr 1; omega
  have hconv := conv_eq num den m pn ln pd ld oc
    (j * (n * p + 1)) (j * p + 1) ((n - j) * (n * p + 1)) ((n - j) * p + 1)
    (j * (n * p + 1)) h1 h3
    (by rw [h2]; push_cast [Nat.cast_sub hjn]; ring)
    (by rw [h4]; push_cast [Nat.cast_sub hjn]; ring)
    h7 (by omega) (by omega) (by omega) (by omega) (by omega)
  have hl : (polyMul ((num.drop (j * (n * p + 1))).take (j * p + 1))
      ((den.drop ((n - j) * (n * p + 1))).take ((n - j) * p + 1))).length = n * p + 1 := by
    rw [polyMul_length, List.length_take, List.length_take, List.length_drop,
      List.length_drop]; omega
  refine ⟨_, hconv, ?_, ?_⟩
  · rw [length_patch _ _ _ (by rw [hl]; omega)]
    exact h5
  · intro i t hi ht
    rw [getD_patch _ _ _ _ (by rw [hl]; omega), hl,
      polyMul_getD _ _ (C ^ j) (D ^ (n - j))
        (fun u => (slice_pow n p num C hC hnum j hjn u).symm)
        (fun u => (slice_pow n p den D hD hden (n - j) (Nat.sub_le n j) u).symm)]
    rcases Nat.lt_trichotomy i j with h | h | h
    · have := slot_lt (n * p + 1) i j t h ht
      rw [if_neg (by omega), h6 i t hi ht, if_pos h, if_pos (by omega)]
    · subst h
      rw [if_pos (by omega), if_pos (by omega)]
      congr 1; omega
    · have : (j + 1) * (n * p + 1) ≤ i * (n * p + 1) := Nat.mul_le_mul_right _ h
      have e4 : (j + 1) * (n * p + 1) = j * (n * p + 1) + (n * p + 1) := by ring
      rw [if_neg (by omega), h6 i t hi ht, if_neg (by omega), if_neg (by omega)]

theorem crossLoop_ok (n p : Nat) (num den : List ℚ) (C D : ℚ[X])
    (hC : ∀ t, p + 1 ≤ t → C.coeff t = 0) (hD : ∀ t, p + 1 ≤ t → D.coeff t = 0)
    (hln : num.length = (n + 1) * (n * p + 1)) (hld : den.length = (n + 1) * (n * p + 1))
    (hnum : ∀ i t, i ≤ n → t < n * p + 1 → num.getD (i * (n * p + 1) + t) 0 = (C ^ i).coeff t)
    (hden : ∀ i t, i ≤ n → t < n * p + 1 → den.getD (i * (n * p + 1) + t) 0 = (D ^ i).coeff t)
    (k2 q : Int) (hk2 : k2 = ((n * p + 1 : Nat) : Int)) (hq : q = (p : Int)) :
    ∃ s, forLoop (crossBody num den q k2) (n + 1) 0
        ⟨List.replicate ((n + 1) * (n * p + 1)) 0, 0, (n : Int) * k2, 1, k2⟩
          = some (Except.ok s) ∧
      s.ndn.length = (n + 1) * (n * p + 1) ∧
      (∀ i t, i ≤ n → t < n * p + 1 →
        s.ndn.getD (i * (n * p + 1) + t) 0 = (C ^ i * D ^ (n - i)).coeff t) := by
  obtain ⟨s, hs, -, -, -, -, h5, h6⟩ := forLoop_inv (crossBody num den q k2) (n + 1)
    (fun j s => s.pn = ((j * (n * p + 1) : Nat) : Int) ∧
      s.pd = (n : Int) * ((n * p + 1 : Nat) : Int) - (j : Int) * ((n * p + 1 : Nat) : Int) ∧
      s.ln = ((j * p + 1 : Nat) : Int) ∧
      s.ld = ((n * p + 1 : Nat) : Int) - (j : Int) * (p : Int) ∧
      s.ndn.length = (n + 1) * (n * p + 1) ∧
      (∀ i t, i ≤ n → t < n * p + 1 →
        s.ndn.getD (i * (n * p + 1) + t) 0 = if i < j then (C ^ i * D ^ (n - i)).coeff t else 0))
    0 ⟨List.replicate ((n + 1) * (n * p + 1)) 0, 0, (n : Int) * k2, 1, k2⟩
    ⟨by simp, by simp [hk2], by simp, by simp [hk2], by simp, fun i t _ _ => by
      rw [replicate_getD, if_neg (Nat.not_lt_zero i)]⟩
    (by
      rintro j s hj ⟨h1, h2, h3, h4, h5, h6⟩
      obtain ⟨m1, hm1, hl1, hi1⟩ := cross_step n p num den C D hC hD hln hld hnum hden s.ndn j
        (by omega) h5 h6 s.pn s.ln s.pd s.ld ((0 + (j : Int)) * k2) h1 h2 h3 h4
        (by rw [hk2]; push_cast; ring)
      refine ⟨⟨m1, s.pn + k2, s.pd - k2, s.ln + q, s.ld - q⟩, ?_, ?_, ?_, ?_, ?_, hl1, hi1⟩
      · simp only [crossBody, hm1, andThen_ok]
      · show s.pn + k2 = _
        rw [h1, hk2]; push_cast; ring
      · show s.pd - k2 = _
        rw [h2, hk2]; push_cast; ring
      · show s.ln + q = _
        rw [h3, hq]; push_cast; ring
      · show s.ld - q = _
        rw [h4, hq]; push_cast; ring)
  refine ⟨s, hs, h5, ?_⟩
  intro i t hi ht
  rw [h6 i t hi ht, if_pos (by omega)]

/-! ## The weighting loops -/

theorem scaleInner_ok (n K : Nat) (b a : List ℚ) (hb : n + 1 ≤ b.length)
    (ha : n + 1 ≤ a.length) (m0 : List ℚ) (i : Nat) (hi : i ≤ n) (k2 ii : Int)
    (hk2 : k2 = (K : Int)) (hii : ii = (i : Int)) (s0 : List ℚ × List ℚ)
    (hl1 : s0.1.length = (n + 1) * K) (hl2 : s0.2.length = (n + 1) * K)
    (h0 : ∀ j t, j ≤ n → t < K →
      (s0.1.getD (j * K + t) 0 =
        if j < i then m0.getD (j * K + t) 0 * b.getD j 0 else m0.getD (j * K + t) 0) ∧
      (j < i → s0.2.getD (j * K + t) 0 = m0.getD (j * K + t) 0 * a.getD j 0)) :
    ∃ s, forLoop (scaleBody b a k2 ii) K 0 s0 = some (Except.ok s) ∧
      s.1.length = (n + 1) * K ∧ s.2.length = (n + 1) * K ∧
      ∀ j t, j ≤ n → t < K →
        (s.1.getD (j * K + t) 0 =
          if j < i + 1 then m0.getD (j * K + t) 0 * b.getD j 0 else m0.getD (j * K + t) 0) ∧
        (j < i + 1 → s.2.getD (j * K + t) 0 = m0.getD (j * K + t) 0 * a.getD j 0) := by
  have e3 : (n + 1) * K = n * K + K := by ring
  have b2 : i * K ≤ n * K := Nat.mul_le_mul_right _ hi
  obtain ⟨s, hs, h1, h2, h3⟩ := forLoop_inv (scaleBody b a k2 ii) K
    (fun k s => s.1.length = (n + 1) * K ∧ s.2.length = (n + 1) * K ∧
      ∀ j t, j ≤ n → t < K →
        (s.1.getD (j * K + t) 0 =
          if j < i ∨ (j = i ∧ t < k) then m0.getD (j * K + t) 0 * b.getD j 0
          else m0.getD (j * K + t) 0) ∧
        (j < i ∨ (j = i ∧ t < k) → s.2.getD (j * K + t) 0 = m0.getD (j * K + t) 0 * a.getD j 0))
    0 s0
    ⟨hl1, hl2, fun j t hj ht => by
      obtain ⟨g1, g2⟩ := h0 j t hj ht
      refine ⟨?_, fun h => g2 (by omega)⟩
      rw [g1]
      by_cases hji : j < i
      · rw [if_pos hji, if_pos (Or.inl hji)]
      · rw [if_neg hji, if_neg (by omega)]⟩
    (by
      rintro k s hk ⟨g1, g2, g3⟩
      have hidx : ii * k2 + (0 + (k : Int)) = ((i * K + k : Nat) : Int) := by
        rw [hii, hk2]; push_cast; ring
      have hx := (g3 i k hi hk).1
      rw [if_neg (by omega)] at hx
      refine ⟨(s.1.set (i * K + k) (m0.getD (i * K + k) 0 * b.getD i 0),
        s.2.set (i * K + k) (m0.getD (i * K + k) 0 * a.getD i 0)), ?_, ?_, ?_, ?_⟩
      · simp only [scaleBody, ld_eq s.1 _ (i * K + k) hidx (by omega), mem_some, andThen_ok,
          ld_eq a ii i hii (by omega), ld_eq b ii i hii (by omega),
          st_eq s.2 _ (i * K + k) _ hidx (by omega), st_eq s.1 _ (i * K + k) _ hidx (by omega),
          hx]
      · simp only [List.length_set]; exact g1
      · simp only [List.length_set]; exact g2
      · intro j t hj ht
        obtain ⟨q1, q2⟩ := g3 j t hj ht
        simp only [getD_set _ _ _ _ (show i * K + k < s.1.length by omega),
          getD_set _ _ _ _ (show i * K + k < s.2.length by omega)]
        by_cases he : j * K + t = i * K + k
        · obtain ⟨e1, e2⟩ := slot_inj K j i t k ht hk he
          subst e1 e2
          simp only [if_true, lt_add_one, and_self, or_true, implies_true]
        · have hne : ¬ (j = i ∧ t = k) := fun h => he (by rw [h.1, h.2])
          rw [if_neg he, if_neg he]
          refine ⟨?_, fun h => q2 (by omega)⟩
          rw [q1]
          by_cases hc : j < i ∨ (j = i ∧ t < k)
          · rw [if_pos hc, if_pos (by omega)]
          · rw [if_neg hc, if_neg (by omega)])
  refine ⟨s, hs, h1, h2, fun j t hj ht => ?_⟩
  obtain ⟨q1, q2⟩ := h3 j t hj ht
  refine ⟨?_, fun h => q2 (by omega)⟩
  rw [q1]
  by_cases hc : j < i + 1
  · rw [if_pos hc, if_pos (by omega)]
  · rw [if_neg hc, if_neg (by omega)]

theorem scaleLoop_ok (n K : Nat) (b a : List ℚ) (hb : n + 1 ≤ b.length)
    (ha : n + 1 ≤ a.length) (m0 z : List ℚ) (hm : m0.length = (n + 1) * K)
    (hz : z.length = (n + 1) * K) (k2 : Int) (hk2 : k2 = (K : Int)) :
    ∃ s, forLoop (fun i => forLoop (scaleBody b a k2 i) K 0) (n + 1) 0 (m0, z)
        = some (Except.ok s) ∧
      s.1.length = (n + 1) * K ∧ s.2.length = (n + 1) * K ∧
      ∀ j t, j ≤ n → t < K →
        s.1.getD (j * K + t) 0 = m0.getD (j * K + t) 0 * b.getD j 0 ∧
        s.2.getD (j * K + t) 0 = m0.getD (j * K + t) 0 * a.getD j 0 := by
  obtain ⟨s, hs, h1, h2, h3⟩ := forLoop_inv (fun i => forLoop (scaleBody b a k2 i) K 0) (n + 1)
    (fun i s => s.1.length = (n + 1) * K ∧ s.2.length = (n + 1) * K ∧
      ∀ j t, j ≤ n → t < K →
        (s.1.getD (j * K + t) 0 =
          if j < i then m0.getD (j * K + t) 0 * b.getD j 0 else m0.getD (j * K + t) 0) ∧
        (j < i → s.2.getD (j * K + t) 0 = m0.getD (j * K + t) 0 * a.getD j 0))
    0 (m0, z)
    ⟨hm, hz, fun j t _ _ => ⟨by rw [if_neg (Nat.not_lt_zero j)], fun h => by omega⟩⟩
    (by
      rintro i s hi ⟨g1, g2, g3⟩
      exact scaleInner_ok n K b a hb ha m0 i (by omega) k2 (0 + (i : Int)) hk2 (by ring) s
        g1 g2 g3)
  refine ⟨s, hs, h1, h2, fun j t hj ht => ?_⟩
  obtain ⟨q1, q2⟩ := h3 j t hj ht
  exact ⟨by rw [q1, if_pos (by omega)], q2 (by omega)⟩

/-! ## The summation loops -/

theorem sumInner_ok (n K : Nat) (ndn ndd : List ℚ) (h1 : ndn.length = (n + 1) * K)
    (h2 : ndd.length = (n + 1) * K) (k : Nat) (hk : k < K) (k2 kk : Int)
    (hk2 : k2 = (K : Int)) (hkk : kk = (k : Int)) (s0 : List ℚ × List ℚ)
    (hl1 : K ≤ s0.1.length) (hl2 : K ≤ s0.2.length) :
    ∃ s, forLoop (sumBody ndn ndd k2 kk) (n + 1) 0 s0 = some (Except.ok s) ∧
      s.1.length = s0.1.length ∧ s.2.length = s0.2.length ∧
      ∀ x,
        (s.1.getD x 0 = if x = k then
            s0.1.getD k 0 + ∑ i in Finset.range (n + 1), ndn.getD (i * K + k) 0
          else s0.1.getD x 0) ∧
        (s.2.getD x 0 = if x = k then
            s0.2.getD k 0 + ∑ i in Finset.range (n + 1), ndd.getD (i * K + k) 0
          else s0.2.getD x 0) := by
  have e3 : (n + 1) * K = n * K + K := by ring
  exact forLoop_inv (sumBody ndn ndd k2 kk) (n + 1)
    (fun i s => s.1.length = s0.1.length ∧ s.2.length = s0.2.length ∧
      ∀ x,
        (s.1.getD x 0 = if x = k then
            s0.1.getD k 0 + ∑ j in Finset.range i, ndn.getD (j * K + k) 0
          else s0.1.getD x 0) ∧
        (s.2.getD x 0 = if x = k then
            s0.2.getD k 0 + ∑ j in Finset.range i, ndd.getD (j * K + k) 0
          else s0.2.getD x 0))
    0 s0
    ⟨rfl, rfl, fun x => by
      by_cases hx : x = k
      · subst hx; simp
      · simp [hx]⟩
    (by
      rintro i s hi ⟨g1, g2, g3⟩
      have b2 : i * K ≤ n * K := Nat.mul_le_mul_right _ (by omega)
      have hidx : (0 + (i : Int)) * k2 + kk = ((i * K + k : Nat) : Int) := by
        rw [hkk, hk2]; push_cast; ring
      obtain ⟨q1, q2⟩ := g3 k
      rw [if_pos rfl] at q1 q2
      refine ⟨(s.1.set k (s.1.getD k 0 + ndn.getD (i * K + k) 0),
        s.2.set k (s.2.getD k 0 + ndd.getD (i * K + k) 0)), ?_, ?_, ?_, ?_⟩
      · simp only [sumBody, ld_eq s.1 kk k hkk (by omega), ld_eq s.2 kk k hkk (by omega),
          mem_some, andThen_ok, ld_eq ndn _ (i * K + k) hidx (by omega),
          ld_eq ndd _ (i * K + k) hidx (by omega),
          st_eq s.1 kk k _ hkk (by omega), st_eq s.2 kk k _ hkk (by omega)]
      · simp only [List.length_set]; exact g1
      · simp only [List.length_set]; exact g2
      · intro x
        simp only [getD_set _ _ _ _ (show k < s.1.length by omega),
          getD_set _ _ _ _ (show k < s.2.length by omega)]
        by_cases hx : x = k
        · subst hx
          simp only [if_true, q1, q2, Finset.sum_range_succ, add_assoc, and_self]
        · simp only [if_neg hx]
          have := g3 x
          simpa only [if_neg hx] using this)

theorem sumLoop_ok (n K : Nat) (ndn ndd : List ℚ) (h1 : ndn.length = (n + 1) * K)
    (h2 : ndd.length = (n + 1) * K) (k2 : Int) (hk2 : k2 = (K : Int))
    (beta0 alpha0 : List ℚ) (hl1 : K ≤ beta0.length) (hl2 : K ≤ alpha0.length) :
    ∃ s, forLoop (fun k => forLoop (sumBody ndn ndd k2 k) (n + 1) 0) K 0 (beta0, alpha0)
        = some (Except.ok s) ∧
      s.1.length = beta0.length ∧ s.2.length = alpha0.length ∧
      ∀ x,
        (s.1.getD x 0 = if x < K then
            beta0.getD x 0 + ∑ i in Finset.range (n + 1), ndn.getD (i * K + x) 0
          else beta0.getD x 0) ∧
        (s.2.getD x 0 = if x < K then
            alpha0.getD x 0 + ∑ i in Finset.range (n + 1), ndd.getD (i * K + x) 0
          else alpha0.getD x 0) := by
  obtain ⟨s, hs, g1, g2, g3⟩ := forLoop_inv
    (fun k => forLoop (sumBody ndn ndd k2 k) (n + 1) 0) K
    (fun k s => s.1.length = beta0.length ∧ s.2.length = alpha0.length ∧
      ∀ x,
        (s.1.getD x 0 = if x < k then
            beta0.getD x 0 + ∑ i in Finset.range (n + 1), ndn.getD (i * K + x) 0
          else beta0.getD x 0) ∧
        (s.2.getD x 0 = if x < k then
            alpha0.getD x 0 + ∑ i in Finset.range (n + 1), ndd.getD (i * K + x) 0
          else alpha0.getD x 0))
    0 (beta0, alpha0)
    ⟨rfl, rfl, fun x => by simp⟩
    (by
      rintro k s hk ⟨g1, g2, g3⟩
      obtain ⟨s1, hs1, q1, q2, q3⟩ := sumInner_ok n K ndn ndd h1 h2 k hk k2 (0 + (k : Int)) hk2
        (by ring) s (by omega) (by omega)
      refine ⟨s1, hs1, q1.trans g1, q2.trans g2, fun x => ?_⟩
      obtain ⟨r1, r2⟩ := q3 x
      obtain ⟨u1, u2⟩ := g3 x
      obtain ⟨v1, v2⟩ := g3 k
      rw [if_neg (lt_irrefl k)] at v1 v2
      rw [r1, r2]
      by_cases hx : x = k
      · subst hx
        rw [if_pos rfl, if_pos rfl, if_pos (Nat.lt_succ_self x), if_pos (Nat.lt_succ_self x),
          v1, v2]
        exact ⟨rfl, rfl⟩
      · rw [if_neg hx, if_neg hx, u1, u2]
        by_cases hxk : x < k
        · rw [if_pos hxk, if_pos hxk, if_pos (by omega), if_pos (by omega)]
          exact ⟨rfl, rfl⟩
        · rw [if_neg hxk, if_neg hxk, if_neg (by omega), if_neg (by omega)]
          exact ⟨rfl, rfl⟩)
  exact ⟨s, hs, g1, g2, g3⟩

/-! ## `ratcompos` on well-sized arrays -/

theorem memset0_ok (m : List ℚ) (cnt : Int) (K : Nat) (hcnt : cnt = (K : Int))
    (h : K ≤ m.length) :
    ∃ m1, memset0 m cnt = some m1 ∧ m1.length = m.length ∧
      ∀ x, m1.getD x 0 = if x < K then 0 else m.getD x 0 := by
  subst hcnt
  have hw := wr_eq m 0 0 (List.replicate K 0) rfl (by simpa using h)
  refine ⟨_, by simp only [memset0, Int.toNat_ofNat, Int.ofNat_zero_le, if_true]; exact hw,
    length_patch _ _ _ (by simpa using h), fun x => ?_⟩
  rw [getD_patch _ _ _ _ (by simpa using h), replicate_getD, List.length_replicate]
  by_cases hx : x < K
  · rw [if_pos hx, if_pos (by omega)]
  · rw [if_neg hx, if_neg (by omega)]

theorem wrapInt_eq (x : Int) (h1 : -2147483648 ≤ x) (h2 : x < 2147483648) :
    wrapInt x = x := by
  unfold wrapInt; omega

/-- When the byte count of a scratch array fits an `int`, the set-up of `ratcompos` gives
the sizes `k2 = n*p+1`, `k2s = 8*k2` and four arrays of `(n+1)*k2` entries. -/
theorem ratcomposScratch_ok (n p : Nat) (hfit : (n + 1) * (n * p + 1) * 8 < 2 ^ 31) :
    ratcomposScratch (n : Int) (p : Int) = some (Except.ok
      ⟨((n * p + 1 : Nat) : Int), (((n * p + 1) * 8 : Nat) : Int),
        (List.replicate ((n + 1) * (n * p + 1)) 0).set 0 1,
        (List.replicate ((n + 1) * (n * p + 1)) 0).set 0 1,
        List.replicate ((n + 1) * (n * p + 1)) 0,
        List.replicate ((n + 1) * (n * p + 1)) 0⟩) := by
  have hKS : n * p + 1 ≤ (n + 1) * (n * p + 1) := Nat.le_mul_of_pos_left _ (Nat.succ_pos n)
  have h31 : (2 : Nat) ^ 31 = 2147483648 := by norm_num
  rw [h31] at hfit
  have c1 : (n : Int) * (p : Int) + 1 = ((n * p + 1 : Nat) : Int) := by push_cast; ring
  have c2 : ((n : Int) + 1) * ((n * p + 1 : Nat) : Int)
      = (((n + 1) * (n * p + 1) : Nat) : Int) := by push_cast; ring
  have c3 : ((n * p + 1 : Nat) : Int) * 8 = (((n * p + 1) * 8 : Nat) : Int) := by push_cast; ring
  have c4 : (((n + 1) * (n * p + 1) : Nat) : Int) * 8
      = (((n + 1) * (n * p + 1) * 8 : Nat) : Int) := by push_cast; ring
  have e1 : wrapInt ((n : Int) * (p : Int) + 1) = ((n * p + 1 : Nat) : Int) := by
    rw [c1, wrapInt_eq _ (by omega) (by omega)]
  have e2 : wrapInt (((n * p + 1 : Nat) : Int) * 8) = (((n * p + 1) * 8 : Nat) : Int) := by
    rw [c3, wrapInt_eq _ (by omega) (by omega)]
  have e3 : wrapInt (wrapInt (((n : Int) + 1) * ((n * p + 1 : Nat) : Int)) * 8)
      = (((n + 1) * (n * p + 1) * 8 : Nat) : Int) := by
    have e3a : wrapInt (((n + 1) * (n * p + 1) : Nat) : Int)
        = (((n + 1) * (n * p + 1) : Nat) : Int) := wrapInt_eq _ (by omega) (by omega)
    rw [c2, e3a, c4]
    exact wrapInt_eq _ (by omega) (by omega)
  have e4 : mallocZero (((n + 1) * (n * p + 1) * 8 : Nat) : Int)
      = some (List.replicate ((n + 1) * (n * p + 1)) 0) := by
    have hd : ((((n + 1) * (n * p + 1) * 8 : Nat) : Int) / 8).toNat = (n + 1) * (n * p + 1) := by
      omega
    simp only [mallocZero, sizeofDouble, Int.ofNat_zero_le, if_true, hd]
  have hpos : 0 < (List.replicate ((n + 1) * (n * p + 1)) (0 : ℚ)).length := by
    rw [List.length_replicate]; omega
  simp only [ratcomposScratch, sizeofDouble, e1, e2, e3, e4, mem_some, andThen_ok,
    st_eq _ 0 0 1 rfl hpos]

theorem core_ok (n p : Nat) (hfit : (n + 1) * (n * p + 1) * 8 < 2 ^ 31)
    (b a c d beta alpha : List ℚ)
    (hb : n + 1 ≤ b.length) (ha : n + 1 ≤ a.length)
    (hc : p + 1 ≤ c.length) (hd : p + 1 ≤ d.length)
    (hbeta : n * p + 1 ≤ beta.length) (halpha : n * p + 1 ≤ alpha.length)
    (C D : ℚ[X])
    (hC : ∀ t, C.coeff t = if t < p + 1 then c.getD t 0 else 0)
    (hD : ∀ t, D.coeff t = if t < p + 1 then d.getD t 0 else 0) :
    ∃ β α, ratcomposCore b a (n : Int) c d (p : Int) beta alpha = some (Except.ok (β, α)) ∧
      β.length = beta.length ∧ α.length = alpha.length ∧
      ∀ x,
        (β.getD x 0 = if x < n * p + 1 then
            ∑ i in Finset.range (n + 1), (C ^ i * D ^ (n - i)).coeff x * b.getD i 0
          else beta.getD x 0) ∧
        (α.getD x 0 = if x < n * p + 1 then
            ∑ i in Finset.range (n + 1), (C ^ i * D ^ (n - i)).coeff x * a.getD i 0
          else alpha.getD x 0) := by
  have hc1 : ((n : Int) + 1 - 1).toNat = n := by
    rw [add_sub_cancel_right, Int.toNat_ofNat]
  have hc2 : ((n : Int) + 1).toNat = n + 1 := by
    have : (n : Int) + 1 = ((n + 1 : Nat) : Int) := by push_cast; ring
    rw [this, Int.toNat_ofNat]
  have hbytes : (((n * p + 1) * 8 : Nat) : Int) / sizeofDouble = ((n * p + 1 : Nat) : Int) := by
    unfold sizeofDouble; omega
  have hCz : ∀ t, p + 1 ≤ t → C.coeff t = 0 := fun t ht => by rw [hC t, if_neg (by omega)]
  have hDz : ∀ t, p + 1 ≤ t → D.coeff t = 0 := fun t ht => by rw [hD t, if_neg (by omega)]
  obtain ⟨s1, hs1, l1, l2, i1, i2⟩ := powLoop_ok n p c d C D hc hd hC hD
    ((n * p + 1 : Nat) : Int) (p : Int) rfl rfl
  obtain ⟨s2, hs2, l3, i3⟩ := crossLoop_ok n p s1.num s1.den C D hCz hDz l1 l2 i1 i2
    ((n * p + 1 : Nat) : Int) (p : Int) rfl rfl
  obtain ⟨s3, hs3, l4, l5, i4⟩ := scaleLoop_ok n (n * p + 1) b a hb ha s2.ndn
    (List.replicate ((n + 1) * (n * p + 1)) 0) l3 (by rw [List.length_replicate])
    ((n * p + 1 : Nat) : Int) rfl
  obtain ⟨alpha0, ha0, la0, ia0⟩ := memset0_ok alpha ((n * p + 1 : Nat) : Int) (n * p + 1) rfl
    halpha
  obtain ⟨beta0, hb0, lb0, ib0⟩ := memset0_ok beta ((n * p + 1 : Nat) : Int) (n * p + 1) rfl
    hbeta
  obtain ⟨s4, hs4, l6, l7, i5⟩ := sumLoop_ok n (n * p + 1) s3.1 s3.2 l4 l5
    ((n * p + 1 : Nat) : Int) rfl beta0 alpha0 (by omega) (by omega)
  refine ⟨s4.1, s4.2, ?_, l6.trans lb0, l7.trans la0, fun x => ?_⟩
  · simp only [ratcomposCore, ratcomposScratch_ok n p hfit, andThen_ok, ratcomposPow,
      ratcomposCross, memsetZero, hbytes]
    rw [hc1, hc2, Int.toNat_ofNat, hs1, andThen_ok, hs2,
      andThen_ok, hs3, andThen_ok, ha0, mem_some, andThen_ok, hb0, mem_some, andThen_ok, hs4]
  · obtain ⟨r1, r2⟩ := i5 x
    rw [r1, r2, ib0 x, ia0 x]
    by_cases hx : x < n * p + 1
    · simp only [if_pos hx, zero_add]
      constructor
      · refine Finset.sum_congr rfl fun i hi => ?_
        have hin : i ≤ n := by
          have := Finset.mem_range.mp hi; omega
        rw [(i4 i x hin hx).1, i3 i x hin hx]
      · refine Finset.sum_congr rfl fun i hi => ?_
        have hin : i ≤ n := by
          have := Finset.mem_range.mp hi; omega
        rw [(i4 i x hin hx).2, i3 i x hin hx]
    · simp only [if_neg hx, and_self]

theorem ratcompos_ok (n p : Nat) (hn : 1 ≤ n) (hp : 1 ≤ p)
    (hfit : (n + 1) * (n * p + 1) * 8 < 2 ^ 31) (b a c d beta alpha : List ℚ)
    (hb : n + 1 ≤ b.length) (ha : n + 1 ≤ a.length)
    (hc : p + 1 ≤ c.length) (hd : p + 1 ≤ d.length)
    (hbeta : n * p + 1 ≤ beta.length) (halpha : n * p + 1 ≤ alpha.length)
    (C D : ℚ[X])
    (hC : ∀ t, C.coeff t = if t < p + 1 then c.getD t 0 else 0)
    (hD : ∀ t, D.coeff t = if t < p + 1 then d.getD t 0 else 0) :
    ∃ β α, ratcompos (some b) (some a) (n : Int) (some c) (some d) (p : Int)
        (some beta) (some alpha) = some ⟨RES_OK, some β, some α⟩ ∧
      β.length = beta.length ∧ α.length = alpha.length ∧
      ∀ x,
        (β.getD x 0 = if x < n * p + 1 then
            ∑ i in Finset.range (n + 1), (C ^ i * D ^ (n - i)).coeff x * b.getD i 0
          else beta.getD x 0) ∧
        (α.getD x 0 = if x < n * p + 1 then
            ∑ i in Finset.range (n + 1), (C ^ i * D ^ (n - i)).coeff x * a.getD i 0
          else alpha.getD x 0) := by
  obtain ⟨β, α, h, r⟩ := core_ok n p hfit b a c d beta alpha hb ha hc hd hbeta halpha C D hC hD
  refine ⟨β, α, ?_, r⟩
  have g : ¬ ((n : Int) < 1 ∨ (p : Int) < 1) := by omega
  simp only [ratcompos, g, if_false, h]

/-! ## Scratch requests that do not fit an `int` -/

/-- When the byte count of the scratch arrays, narrowed to `int`, is negative, the first
`malloc` of `ratcompos` returns the null pointer and the `memset` of line 141 has no
block to write: the set-up has no result. -/
theorem ratcomposScratch_neg (n p : Int)
    (hneg : wrapInt (wrapInt ((n + 1) * wrapInt (n * p + 1)) * sizeofDouble) < 0) :
    ratcomposScratch n p = none := by
  simp only [ratcomposScratch, mallocZero, if_neg (not_le.mpr hneg), mem, Option.map_none',
    andThen]

/-- A call of `ratcompos` that passes both checks and whose scratch byte count is negative
as an `int` has no result. -/
theorem ratcompos_wrap_fault (b a c d beta alpha : List ℚ) (n p : Int) (hn : 1 ≤ n)
    (hp : 1 ≤ p)
    (hneg : wrapInt (wrapInt ((n + 1) * wrapInt (n * p + 1)) * sizeofDouble) < 0) :
    ratcompos (some b) (some a) n (some c) (some d) p (some beta) (some alpha) = none := by
  have g : ¬ (n < 1 ∨ p < 1) := by omega
  simp only [ratcompos, g, if_false, ratcomposCore, ratcomposScratch_neg n p hneg, andThen]

/-- A call of `bilinear` on non-null arrays whose scratch byte count is negative as an
`int` has no result. -/
theorem bilinear_wrap_fault (bs as bz az : List ℚ) (ord : Int) (hord : 1 ≤ ord)
    (hneg : wrapInt (wrapInt ((ord + 1) * wrapInt (ord * 1 + 1)) * sizeofDouble) < 0) :
    bilinear (some bs) (some as) ord (some bz) (some az) = none :=
  ratcompos_wrap_fault bs as [1, -1] [1, 1] bz az ord 1 hord (by decide) hneg

/-! ## A call that returns has sizes that fit -/

theorem andThen_some {α β : Type} (x : Option (Except Status α))
    (f : α → Option (Except Status β)) (r : Except Status β) (h : andThen x f = some r) :
    (∃ v, x = some (Except.ok v) ∧ f v = some r) ∨ ∃ e, x = some (Except.error e) := by
  rcases x with _ | (e | v)
  · exact Option.noConfusion h
  · exact Or.inr ⟨e, rfl⟩
  · exact Or.inl ⟨v, rfl, h⟩

/-- A `conv` call with sizes of at least 1 that has a result has written inside its
destination array. -/
theorem conv_some (a b c : List ℚ) (oa na ob nb oc : Int) (r : Except Status (List ℚ))
    (hna : 1 ≤ na) (hnb : 1 ≤ nb) (h : conv a oa na b ob nb c oc = some r) :
    ∃ c1, r = Except.ok c1 ∧ c1.length = c.length ∧ 0 ≤ oc ∧
      oc + (na + nb - 1) ≤ c.length := by
  have g : ¬ (na < 1 ∨ nb < 1) := by omega
  simp only [conv, g, if_false, rd] at h
  by_cases h1 : 0 ≤ oa ∧ 0 ≤ na ∧ oa + na ≤ a.length
  · by_cases h2 : 0 ≤ ob ∧ 0 ≤ nb ∧ ob + nb ≤ b.length
    · rw [if_pos h1, if_pos h2] at h
      simp only [wr, mem] at h
      by_cases h3 : 0 ≤ oc ∧ oc + ((polyMul ((a.drop oa.toNat).take na.toNat)
          ((b.drop ob.toNat).take nb.toNat)).length : Int) ≤ c.length
      · rw [if_pos h3] at h
        simp only [Option.map_some', Option.some.injEq] at h
        have hl : (polyMul ((a.drop oa.toNat).take na.toNat)
            ((b.drop ob.toNat).take nb.toNat)).length = na.toNat + nb.toNat - 1 := by
          rw [polyMul_length, List.length_take, List.length_take, List.length_drop,
            List.length_drop]
          omega
        have h4 : oc.toNat + (polyMul ((a.drop oa.toNat).take na.toNat)
            ((b.drop ob.toNat).take nb.toNat)).length ≤ c.length := by
          omega
        refine ⟨_, h.symm, length_patch c oc.toNat _ h4, h3.1, ?_⟩
        rw [hl] at h3
        omega
      · rw [if_neg h3] at h
        exact Option.noConfusion h
    · rw [if_pos h1, if_neg h2] at h
      exact Option.noConfusion h
  · rw [if_neg h1] at h
    exact Option.noConfusion h

/-- A step of the power loop that has a result has written inside `num`. -/
theorem powBody_some (c d : List ℚ) (q k2 i : Int) (st : PowSt) (r : Except Status PowSt)
    (hq : 0 ≤ q) (hln : 1 ≤ st.ln) (h : powBody c d q k2 i st = some r) :
    ∃ num1 den1, r = Except.ok ⟨num1, den1, st.pn + k2, st.ln + q⟩ ∧
      num1.length = st.num.length ∧ 0 ≤ st.pn + k2 ∧
      st.pn + k2 + (st.ln + q) ≤ st.num.length := by
  unfold powBody at h
  rcases andThen_some _ _ _ h with ⟨num1, h1, h2⟩ | ⟨e, h1⟩
  · obtain ⟨c1, e1, l1, b1, b2⟩ := conv_some _ _ _ _ _ _ _ _ _ hln (by omega) h1
    rcases andThen_some _ _ _ h2 with ⟨den1, h3, h4⟩ | ⟨e, h3⟩
    · have e2 : c1 = num1 := by injection e1.symm
      subst e2
      refine ⟨c1, den1, ?_, l1, b1, by omega⟩
      injection h4 with h5
      exact h5.symm
    · obtain ⟨c2, e2, -⟩ := conv_some _ _ _ _ _ _ _ _ _ hln (by omega) h3
      injection e2
  · obtain ⟨c1, e1, -⟩ := conv_some _ _ _ _ _ _ _ _ _ hln (by omega) h1
    injection e1

/-- A power loop of at least one step that has a result has written, in its last step,
inside `num`. -/
theorem powLoop_some (c d : List ℚ) (q k2 : Int) (hq : 0 ≤ q) :
    ∀ (t : Nat) (i0 : Int) (st : PowSt) (r : Except Status PowSt),
      forLoop (powBody c d q k2) (t + 1) i0 st = some r → 1 ≤ st.ln →
      0 ≤ st.pn + ((t : Int) + 1) * k2 ∧
      st.pn + ((t : Int) + 1) * k2 + (st.ln + ((t : Int) + 1) * q) ≤ st.num.length := by
  intro t
  induction t with
  | zero =>
    intro i0 st r h hln
    simp only [forLoop] at h
    rcases andThen_some _ _ _ h with ⟨v, h1, -⟩ | ⟨e, h1⟩
    · obtain ⟨num1, den1, -, -, b1, b2⟩ := powBody_some c d q k2 i0 st _ hq hln h1
      simp only [Nat.cast_zero, zero_add, one_mul]
      exact ⟨b1, b2⟩
    · obtain ⟨num1, den1, e1, -⟩ := powBody_some c d q k2 i0 st _ hq hln h1
      injection e1
  | succ t ih =>
    intro i0 st r h hln
    rw [forLoop] at h
    rcases andThen_some _ _ _ h with ⟨v, h1, h2⟩ | ⟨e, h1⟩
    · obtain ⟨num1, den1, e1, l1, -, -⟩ := powBody_some c d q k2 i0 st _ hq hln h1
      have e2 : v = ⟨num1, den1, st.pn + k2, st.ln + q⟩ := by injection e1
      subst e2
      obtain ⟨b1, b2⟩ := ih (i0 + 1) _ r h2 (by show 1 ≤ st.ln + q; omega)
      simp only [l1] at b2
      push_cast
      constructor
      · have : st.pn + k2 + ((t : Int) + 1) * k2 = st.pn + ((t : Int) + 1 + 1) * k2 := by ring
        rw [← this]; exact b1
      · have : st.pn + k2 + ((t : Int) + 1) * k2 + (st.ln + q + ((t : Int) + 1) * q)
            = st.pn + ((t : Int) + 1 + 1) * k2 + (st.ln + ((t : Int) + 1 + 1) * q) := by ring
        rw [← this]; exact b2
    · obtain ⟨num1, den1, e1, -⟩ := powBody_some c d q k2 i0 st _ hq hln h1
      injection e1

theorem wrapInt_lt (x : Int) : wrapInt x < 2147483648 := by
  unfold wrapInt; omega

/-- The set-up of `ratcompos`, when it has a result, gives arrays of fewer than `2^28`
entries. -/
theorem ratcomposScratch_some (n p : Int) (r : Except Status Scratch)
    (h : ratcomposScratch n p = some r) :
    ∃ s, r = Except.ok s ∧ s.k2 = wrapInt (n * p + 1) ∧ s.num.length < 2 ^ 28 := by
  by_cases h0 : 0 ≤ wrapInt (wrapInt ((n + 1) * wrapInt (n * p + 1)) * sizeofDouble)
  · have e4 : mallocZero (wrapInt (wrapInt ((n + 1) * wrapInt (n * p + 1)) * sizeofDouble))
        = some (List.replicate (wrapInt (wrapInt ((n + 1) * wrapInt (n * p + 1))
            * sizeofDouble) / sizeofDouble).toNat 0) := by
      simp only [mallocZero, if_pos h0]
    simp only [ratcomposScratch, e4, mem_some, andThen_ok] at h
    by_cases h1 : 0 < (List.replicate (wrapInt (wrapInt ((n + 1) * wrapInt (n * p + 1))
        * sizeofDouble) / sizeofDouble).toNat (0 : ℚ)).length
    · simp only [st_eq _ 0 0 1 rfl h1, mem_some, andThen_ok, Option.some.injEq] at h
      refine ⟨_, h.symm, rfl, ?_⟩
      have := wrapInt_lt (wrapInt ((n + 1) * wrapInt (n * p + 1)) * sizeofDouble)
      simp only [List.length_set, List.length_replicate, sizeofDouble] at *
      omega
    · have e5 : st (List.replicate (wrapInt (wrapInt ((n + 1) * wrapInt (n * p + 1))
          * sizeofDouble) / sizeofDouble).toNat (0 : ℚ)) 0 1 = none := by
        unfold st
        rw [if_neg]
        intro hc
        exact h1 (by exact_mod_cast hc.2)
      simp only [e5, mem, Option.map_none', andThen] at h
      exact Option.noConfusion h
  · rw [ratcomposScratch_neg n p (by omega)] at h
    exact Option.noConfusion h

/-- A call of `ratcompos` on non-null arrays with `n ≥ 1`, `p ≥ 1` that has a result (it
returns, whatever the status) has a scratch byte count that fits an `int`: otherwise the
set-up or the last step of the power loop falls outside the scratch block. -/
theorem ratcompos_some_fit (n p : Nat) (hn : 1 ≤ n) (hp : 1 ≤ p)
    (b a c d beta alpha : List ℚ) (out : Out)
    (h : ratcompos (some b) (some a) (n : Int) (some c) (some d) (p : Int)
      (some beta) (some alpha) = some out) :
    (n + 1) * (n * p + 1) * 8 < 2 ^ 31 := by
  obtain ⟨t, rfl⟩ : ∃ t, n = t + 1 := ⟨n - 1, by omega⟩
  have g : ¬ (((t + 1 : Nat) : Int) < 1 ∨ (p : Int) < 1) := by omega
  have hcore : ∃ r, ratcomposCore b a ((t + 1 : Nat) : Int) c d (p : Int) beta alpha
      = some r := by
    rcases hc : ratcomposCore b a ((t + 1 : Nat) : Int) c d (p : Int) beta alpha with _ | r
    · simp only [ratcompos, g, if_false, hc] at h
      exact Option.noConfusion h
    · exact ⟨r, rfl⟩
  obtain ⟨r, hcore⟩ := hcore
  unfold ratcomposCore at hcore
  have hsc : ∃ s, ratcomposScratch ((t + 1 : Nat) : Int) (p : Int) = some (Except.ok s) ∧
      ∃ y, ratcomposPow c d (p : Int) s (((t + 1 : Nat) : Int) + 1 - 1).toNat = some y := by
    rcases andThen_some _ _ _ hcore with ⟨s, h1, h2⟩ | ⟨e, h1⟩
    · refine ⟨s, h1, ?_⟩
      rcases andThen_some _ _ _ h2 with ⟨v, hv, -⟩ | ⟨e, hv⟩
      · exact ⟨_, hv⟩
      · exact ⟨_, hv⟩
    · obtain ⟨s, e1, -⟩ := ratcomposScratch_some _ _ _ h1
      injection e1
  obtain ⟨s, h1, y, h2⟩ := hsc
  obtain ⟨s0, e1, hk, hL⟩ := ratcomposScratch_some _ _ _ h1
  have e2 : s = s0 := by injection e1
  subst e2
  have hcnt : (((t + 1 : Nat) : Int) + 1 - 1).toNat = t + 1 := by
    rw [add_sub_cancel_right, Int.toNat_ofNat]
  rw [hcnt] at h2
  unfold ratcomposPow at h2
  obtain ⟨b1, b2⟩ := powLoop_some c d (p : Int) s.k2 (Int.ofNat_zero_le p) t 1
    ⟨s.num, s.den, 0, 1⟩ y h2 le_rfl
  simp only [zero_add] at b1 b2
  have hpos : (0 : Int) < (t : Int) + 1 := by omega
  have hk0 : 0 ≤ s.k2 := nonneg_of_mul_nonneg_right b1 hpos
  have hX : (0 : Int) ≤ ((t : Int) + 1) * (p : Int) :=
    mul_nonneg (le_of_lt hpos) (Int.ofNat_zero_le p)
  have hk2 : s.k2 = ((t : Int) + 1) * (p : Int) + 1 := by
    rw [hk]
    push_cast
    exact wrapInt_eq _ (by omega) (by omega)
  rw [hk2] at b2
  have e : (((t + 1 + 1) * ((t + 1) * p + 1) : Nat) : Int)
      = ((t : Int) + 1) * (((t : Int) + 1) * (p : Int) + 1)
        + (1 + ((t : Int) + 1) * (p : Int)) := by
    push_cast; ring
  have hle : (((t + 1 + 1) * ((t + 1) * p + 1) : Nat) : Int) ≤ (s.num.length : Int) := by
    rw [e]; exact b2
  have hle2 : (t + 1 + 1) * ((t + 1) * p + 1) ≤ s.num.length := by exact_mod_cast hle
  omega

/-! ## Lists and polynomials -/

theorem list_ext_getD (l1 l2 : List ℚ) (hl : l1.length = l2.length)
    (h : ∀ x, x < l1.length → l1.getD x 0 = l2.getD x 0) : l1 = l2 := by
  apply List.ext_getElem hl
  intro i h1 h2
  have := h i h1
  rwa [List.getD_eq_getElem _ _ h1, List.getD_eq_getElem _ _ h2] at this

theorem exists_poly (l : List ℚ) : ∃ P : ℚ[X], ∀ t, P.coeff t = l.getD t 0 := by
  refine ⟨∑ i in Finset.range l.length, Polynomial.monomial i (l.getD i 0), fun t => ?_⟩
  rw [Polynomial.finset_sum_coeff]
  simp only [Polynomial.coeff_monomial]
  rw [Finset.sum_ite_eq' (Finset.range l.length) t]
  by_cases ht : t < l.length
  · rw [if_pos (Finset.mem_range.mpr ht)]
  · rw [if_neg (by simpa using ht), List.getD_eq_default _ _ (by omega)]

theorem coeff_take (l : List ℚ) (P : ℚ[X]) (h : ∀ t, P.coeff t = l.getD t 0) (m : Nat)
    (hm : l.length ≤ m) (t : Nat) : P.coeff t = if t < m then l.getD t 0 else 0 := by
  rw [h t]
  by_cases ht : t < m
  · rw [if_pos ht]
  · rw [if_neg ht, List.getD_eq_default _ _ (by omega)]

theorem polyEval_eq_sum (l : List ℚ) (y : ℚ) :
    polyEval l y = ∑ i in Finset.range l.length, l.getD i 0 * y ^ i := by
  rw [polyEval, list_sum_range]

theorem polyEval_eq_eval (l : List ℚ) (P : ℚ[X]) (h : ∀ t, P.coeff t = l.getD t 0) (y : ℚ) :
    polyEval l y = P.eval y := by
  rw [polyEval_eq_sum]
  by_cases hl : l.length = 0
  · have hP : P = 0 := by
      ext t
      rw [h t, List.getD_eq_default _ _ (by omega), Polynomial.coeff_zero]
    rw [hl, hP]; simp
  · have hd : P.natDegree < l.length := by
      have : P.natDegree ≤ l.length - 1 := by
        rw [Polynomial.natDegree_le_iff_coeff_eq_zero]
        intro N hN
        rw [h N, List.getD_eq_default _ _ (by omega)]
      omega
    rw [Polynomial.eval_eq_sum_range' hd]
    exact Finset.sum_congr rfl fun i _ => by rw [h i]

theorem natDegree_le_of_coeff (P : ℚ[X]) (p : Nat) (h : ∀ t, p + 1 ≤ t → P.coeff t = 0) :
    P.natDegree ≤ p := by
  rw [Polynomial.natDegree_le_iff_coeff_eq_zero]
  intro N hN; exact h N hN

theorem natDegree_cross (C D : ℚ[X]) (p n i : Nat) (hi : i ≤ n) (hC : C.natDegree ≤ p)
    (hD : D.natDegree ≤ p) : (C ^ i * D ^ (n - i)).natDegree ≤ n * p := by
  have h1 : (C ^ i).natDegree ≤ i * p :=
    le_trans Polynomial.natDegree_pow_le (Nat.mul_le_mul_left i hC)
  have h2 : (D ^ (n - i)).natDegree ≤ (n - i) * p :=
    le_trans Polynomial.natDegree_pow_le (Nat.mul_le_mul_left (n - i) hD)
  have h3 : i * p + (n - i) * p = n * p := by
    rw [← Nat.add_mul]; congr 1; omega
  have := Polynomial.natDegree_mul_le (p := C ^ i) (q := D ^ (n - i))
  omega

/-- The value of an output of `ratcompos`, from its coefficients. -/
theorem compos_eval (β b : List ℚ) (n p : Nat) (C D : ℚ[X])
    (hC : C.natDegree ≤ p) (hD : D.natDegree ≤ p)
    (hβlen : β.length = n * p + 1)
    (hβ : ∀ x, x < n * p + 1 →
      β.getD x 0 = ∑ i in Finset.range (n + 1), (C ^ i * D ^ (n - i)).coeff x * b.getD i 0)
    (y : ℚ) :
    polyEval β y = ∑ i in Finset.range (n + 1), b.getD i 0 * (C.eval y ^ i * D.eval y ^ (n - i)) := by
  rw [polyEval_eq_sum, hβlen]
  have h1 : ∀ x ∈ Finset.range (n * p + 1), β.getD x 0 * y ^ x
      = ∑ i in Finset.range (n + 1), b.getD i 0 * ((C ^ i * D ^ (n - i)).coeff x * y ^ x) := by
    intro x hx
    rw [hβ x (Finset.mem_range.mp hx), Finset.sum_mul]
    exact Finset.sum_congr rfl fun i _ => by ring
  rw [Finset.sum_congr rfl h1, Finset.sum_comm]
  refine Finset.sum_congr rfl fun i hi => ?_
  have hin : i ≤ n := by
    have := Finset.mem_range.mp hi; omega
  rw [← Finset.mul_sum, ← Polynomial.eval_eq_sum_range'
    (Nat.lt_succ_of_le (natDegree_cross C D p n i hin hC hD)) y,
    Polynomial.eval_mul, Polynomial.eval_pow, Polynomial.eval_pow]

theorem subst_sum (b : List ℚ) (n : Nat) (hb : b.length = n + 1) (u v : ℚ) (hv : v ≠ 0) :
    ∑ i in Finset.range (n + 1), b.getD i 0 * (u ^ i * v ^ (n - i))
      = v ^ n * polyEval b (u / v) := by
  rw [polyEval_eq_sum, hb, Finset.mul_sum]
  refine Finset.sum_congr rfl fun i hi => ?_
  have hin : i ≤ n := by
    have := Finset.mem_range.mp hi; omega
  have e : v ^ n = v ^ i * v ^ (n - i) := by
    rw [← pow_add]; congr 1; omega
  rw [e, div_pow]
  field_simp
  ring

/-- Both outputs of `ratcompos` at a point, for arrays of the documented sizes. -/
theorem ratcompos_eval (n p : Nat) (hn : 1 ≤ n) (hp : 1 ≤ p)
    (hfit : (n + 1) * (n * p + 1) * 8 < 2 ^ 31)
    (b a c d beta alpha : List ℚ) (hb : b.length = n + 1) (ha : a.length = n + 1)
    (hc : c.length = p + 1) (hd : d.length = p + 1)
    (hbeta : beta.length = n * p + 1) (halpha : alpha.length = n * p + 1) :
    ∃ β α, ratcompos (some b) (some a) (n : Int) (some c) (some d) (p : Int)
        (some beta) (some alpha) = some ⟨RES_OK, some β, some α⟩ ∧
      β.length = n * p + 1 ∧ α.length = n * p + 1 ∧
      ∀ y : ℚ, polyEval d y ≠ 0 →
        polyEval β y = polyEval d y ^ n * polyEval b (polyEval c y / polyEval d y) ∧
        polyEval α y = polyEval d y ^ n * polyEval a (polyEval c y / polyEval d y) := by
  obtain ⟨C, hC⟩ := exists_poly c
  obtain ⟨D, hD⟩ := exists_poly d
  have hC1 := coeff_take c C hC (p + 1) (by omega)
  have hD1 := coeff_take d D hD (p + 1) (by omega)
  obtain ⟨β, α, h, l1, l2, r⟩ := ratcompos_ok n p hn hp hfit b a c d beta alpha (by omega)
    (by omega)
    (by omega) (by omega) (by omega) (by omega) C D hC1 hD1
  have dC : C.natDegree ≤ p :=
    natDegree_le_of_coeff C p fun t ht => by rw [hC1 t, if_neg (by omega)]
  have dD : D.natDegree ≤ p :=
    natDegree_le_of_coeff D p fun t ht => by rw [hD1 t, if_neg (by omega)]
  refine ⟨β, α, h, l1.trans hbeta, l2.trans halpha, fun y hy => ?_⟩
  have e1 := compos_eval β b n p C D dC dD (l1.trans hbeta)
    (fun x hx => by rw [(r x).1, if_pos hx]) y
  have e2 := compos_eval α a n p C D dC dD (l2.trans halpha)
    (fun x hx => by rw [(r x).2, if_pos hx]) y
  rw [← polyEval_eq_eval c C hC y, ← polyEval_eq_eval d D hD y] at e1 e2
  exact ⟨e1.trans (subst_sum b n hb _ _ hy), e2.trans (subst_sum a n ha _ _ hy)⟩

/-! ## The claims -/

/-- C1 as stated fails: at `n = 16383`, `p = 1` the scratch byte count
`16384 * 16384 * 8 = 2^31` is negative as an `int`, `malloc` returns the null pointer and
the `memset` that follows has no block to write, so `ratcompos` does not return `RES_OK`. -/
theorem ratcompos_substitution_unbounded_fails :
    ¬ ∀ (n p : Nat), 1 ≤ n → 1 ≤ p → ∀ (b a c d beta alpha : List ℚ),
      b.length = n + 1 → a.length = n + 1 → c.length = p + 1 → d.length = p + 1 →
      beta.length = n * p + 1 → alpha.length = n * p + 1 →
      ∃ β α, ratcompos (some b) (some a) (n : Int) (some c) (some d) (p : Int)
          (some beta) (some alpha) = some ⟨RES_OK, some β, some α⟩ ∧
        ∀ y : ℚ, polyEval d y ≠ 0 →
          polyEval β y = polyEval d y ^ n * polyEval b (polyEval c y / polyEval d y) ∧
          polyEval α y = polyEval d y ^ n * polyEval a (polyEval c y / polyEval d y) ∧
          (polyEval α y ≠ 0 →
            polyEval β y / polyEval α y =
              polyEval b (polyEval c y / polyEval d y) /
                polyEval a (polyEval c y / polyEval d y)) := by
  intro h
  obtain ⟨β, α, hr, -⟩ := h 16383 1 (by decide) (by decide) (List.replicate 16384 0)
    (List.replicate 16384 0) [0, 1] [1, 0] (List.replicate 16384 0) (List.replicate 16384 0)
    (List.length_replicate _ _) (List.length_replicate _ _) rfl rfl
    (List.length_replicate _ _) (List.length_replicate _ _)
  have hf := ratcompos_wrap_fault (List.replicate 16384 0) (List.replicate 16384 0) [0, 1]
    [1, 0] (List.replicate 16384 0) (List.replicate 16384 0) ((16383 : Nat) : Int)
    ((1 : Nat) : Int) (by decide) (by decide) (by decide)
  exact Option.noConfusion (hf.symm.trans hr)

/-- C1, amended: for `n ≥ 1`, `p ≥ 1` whose scratch byte count `(n+1)*(n*p+1)*8` fits an
`int` (the allocations being served), `b`, `a` of length `n+1` and `c`, `d` of length `p+1`
(output arrays of `n*p+1` entries), `ratcompos` returns `RES_OK` and at every `y` with
`d(y) ≠ 0` the outputs satisfy `beta(y) = d(y)^n * B(c(y)/d(y))` and
`alpha(y) = d(y)^n * A(c(y)/d(y))`; hence `beta(y)/alpha(y) = B(x)/A(x)` at `x = c(y)/d(y)`
whenever `alpha(y) ≠ 0`. -/
theorem ratcompos_substitution (n p : Nat) (hn : 1 ≤ n) (hp : 1 ≤ p)
    (hfit : (n + 1) * (n * p + 1) * 8 < 2 ^ 31)
    (b a c d beta alpha : List ℚ) (hb : b.length = n + 1) (ha : a.length = n + 1)
    (hc : c.length = p + 1) (hd : d.length = p + 1)
    (hbeta : beta.length = n * p + 1) (halpha : alpha.length = n * p + 1) :
    ∃ β α, ratcompos (some b) (some a) (n : Int) (some c) (some d) (p : Int)
        (some beta) (some alpha) = some ⟨RES_OK, some β, some α⟩ ∧
      ∀ y : ℚ, polyEval d y ≠ 0 →
        polyEval β y = polyEval d y ^ n * polyEval b (polyEval c y / polyEval d y) ∧
        polyEval α y = polyEval d y ^ n * polyEval a (polyEval c y / polyEval d y) ∧
        (polyEval α y ≠ 0 →
          polyEval β y / polyEval α y =
            polyEval b (polyEval c y / polyEval d y) /
              polyEval a (polyEval c y / polyEval d y)) := by
  obtain ⟨β, α, h, -, -, r⟩ :=
    ratcompos_eval n p hn hp hfit b a c d beta alpha hb ha hc hd hbeta halpha
  refine ⟨β, α, h, fun y hy => ?_⟩
  obtain ⟨e1, e2⟩ := r y hy
  refine ⟨e1, e2, fun _ => ?_⟩
  rw [e1, e2, mul_div_mul_left _ _ (pow_ne_zero n hy)]

/-- Witness of C1: the substitution `x = y / (1 + y)` in `(1 + 2x) / (3 + 4x)`. -/
theorem ratcompos_substitution_witness :
    ∃ β α, ratcompos (some [1, 2]) (some [3, 4]) ((1 : Nat) : Int) (some [0, 1]) (some [1, 1])
        ((1 : Nat) : Int) (some [0, 0]) (some [0, 0]) = some ⟨RES_OK, some β, some α⟩ ∧
      ∀ y : ℚ, polyEval [1, 1] y ≠ 0 →
        polyEval β y = polyEval [1, 1] y ^ 1 * polyEval [1, 2] (polyEval [0, 1] y / polyEval [1, 1] y) ∧
        polyEval α y = polyEval [1, 1] y ^ 1 * polyEval [3, 4] (polyEval [0, 1] y / polyEval [1, 1] y) ∧
        (polyEval α y ≠ 0 →
          polyEval β y / polyEval α y =
            polyEval [1, 2] (polyEval [0, 1] y / polyEval [1, 1] y) /
              polyEval [3, 4] (polyEval [0, 1] y / polyEval [1, 1] y)) :=
  ratcompos_substitution 1 1 (by decide) (by decide) (by decide) [1, 2] [3, 4] [0, 1] [1, 1]
    [0, 0] [0, 0] rfl rfl rfl rfl rfl rfl

/-- C2 as stated fails: at `n = 16383`, `p = 1` the scratch byte count `2^31` is negative
as an `int`, the scratch arrays do not exist and `ratcompos` has no outputs. -/
theorem ratcompos_coefficients_unbounded_fails :
    ¬ ∀ (n p : Nat), 1 ≤ n → 1 ≤ p → ∀ (b a c d beta alpha : List ℚ),
      b.length = n + 1 → a.length = n + 1 → c.length = p + 1 → d.length = p + 1 →
      beta.length = n * p + 1 → alpha.length = n * p + 1 →
      ∀ (C D : ℚ[X]), (∀ t, C.coeff t = c.getD t 0) → (∀ t, D.coeff t = d.getD t 0) →
      ∃ β α, ratcompos (some b) (some a) (n : Int) (some c) (some d) (p : Int)
          (some beta) (some alpha) = some ⟨RES_OK, some β, some α⟩ ∧
        β.length = n * p + 1 ∧ α.length = n * p + 1 ∧
        ∀ k, k ≤ n * p →
          β.getD k 0
            = ∑ i in Finset.range (n + 1), b.getD i 0 * (C ^ i * D ^ (n - i)).coeff k ∧
          α.getD k 0
            = ∑ i in Finset.range (n + 1), a.getD i 0 * (C ^ i * D ^ (n - i)).coeff k := by
  intro h
  obtain ⟨C, hC⟩ := exists_poly [0, 1]
  obtain ⟨D, hD⟩ := exists_poly [1, 0]
  obtain ⟨β, α, hr, -⟩ := h 16383 1 (by decide) (by decide) (List.replicate 16384 1)
    (List.replicate 16384 1) [0, 1] [1, 0] (List.replicate 16384 0) (List.replicate 16384 0)
    (List.length_replicate _ _) (List.length_replicate _ _) rfl rfl
    (List.length_replicate _ _) (List.length_replicate _ _) C D hC hD
  have hf := ratcompos_wrap_fault (List.replicate 16384 1) (List.replicate 16384 1) [0, 1]
    [1, 0] (List.replicate 16384 0) (List.replicate 16384 0) ((16383 : Nat) : Int)
    ((1 : Nat) : Int) (by decide) (by decide) (by decide)
  exact Option.noConfusion (hf.symm.trans hr)

/-- C2, amended, in exact arithmetic: for `n ≥ 1`, `p ≥ 1` whose scratch byte count
`(n+1)*(n*p+1)*8` fits an `int` (the allocations being served), `b`, `a` of length `n+1` and
`c`, `d` of length `p+1`, the outputs of `ratcompos` are, for every `k = 0..n*p`,
`beta[k] = Σ_{i=0..n} b[i] * (c^i * d^(n-i))[k]` and
`alpha[k] = Σ_{i=0..n} a[i] * (c^i * d^(n-i))[k]`, the powers and the product being those of the
polynomials `C`, `D` whose coefficients are `c`, `d`. -/
theorem ratcompos_coefficients (n p : Nat) (hn : 1 ≤ n) (hp : 1 ≤ p)
    (hfit : (n + 1) * (n * p + 1) * 8 < 2 ^ 31)
    (b a c d beta alpha : List ℚ) (hb : b.length = n + 1) (ha : a.length = n + 1)
    (hc : c.length = p + 1) (hd : d.length = p + 1)
    (hbeta : beta.length = n * p + 1) (halpha : alpha.length = n * p + 1)
    (C D : ℚ[X]) (hC : ∀ t, C.coeff t = c.getD t 0) (hD : ∀ t, D.coeff t = d.getD t 0) :
    ∃ β α, ratcompos (some b) (some a) (n : Int) (some c) (some d) (p : Int)
        (some beta) (some alpha) = some ⟨RES_OK, some β, some α⟩ ∧
      β.length = n * p + 1 ∧ α.length = n * p + 1 ∧
      ∀ k, k ≤ n * p →
        β.getD k 0 = ∑ i in Finset.range (n + 1), b.getD i 0 * (C ^ i * D ^ (n - i)).coeff k ∧
        α.getD k 0 = ∑ i in Finset.range (n + 1), a.getD i 0 * (C ^ i * D ^ (n - i)).coeff k := by
  obtain ⟨β, α, h, l1, l2, r⟩ := ratcompos_ok n p hn hp hfit b a c d beta alpha (by omega)
    (by omega)
    (by omega) (by omega) (by omega) (by omega) C D (coeff_take c C hC (p + 1) (by omega))
    (coeff_take d D hD (p + 1) (by omega))
  refine ⟨β, α, h, l1.trans hbeta, l2.trans halpha, fun k hk => ?_⟩
  rw [(r k).1, (r k).2, if_pos (by omega), if_pos (by omega)]
  exact ⟨Finset.sum_congr rfl fun i _ => mul_comm _ _,
    Finset.sum_congr rfl fun i _ => mul_comm _ _⟩

/-- Witness of C2: `c = [0, 1]` is the polynomial `X`, `d = [1, 1]` is `1 + X`. -/
theorem ratcompos_coefficients_witness :
    ∃ β α, ratcompos (some [1, 2]) (some [3, 4]) ((1 : Nat) : Int) (some [0, 1]) (some [1, 1])
        ((1 : Nat) : Int) (some [0, 0]) (some [0, 0]) = some ⟨RES_OK, some β, some α⟩ ∧
      β.length = 1 * 1 + 1 ∧ α.length = 1 * 1 + 1 ∧
      ∀ k, k ≤ 1 * 1 →
        β.getD k 0 = ∑ i in Finset.range (1 + 1),
          [1, 2].getD i 0 * ((X : ℚ[X]) ^ i * (1 + X) ^ (1 - i)).coeff k ∧
        α.getD k 0 = ∑ i in Finset.range (1 + 1),
          [3, 4].getD i 0 * ((X : ℚ[X]) ^ i * (1 + X) ^ (1 - i)).coeff k :=
  ratcompos_coefficients 1 1 (by decide) (by decide) (by decide) [1, 2] [3, 4] [0, 1] [1, 1]
    [0, 0] [0, 0] rfl rfl rfl rfl rfl rfl X (1 + X)
    (fun t => by rcases t with _ | _ | t <;> simp [Polynomial.coeff_X])
    (fun t => by rcases t with _ | _ | t <;> simp [Polynomial.coeff_X, Polynomial.coeff_one])

/-- C3: for `n ≥ 1`, `p ≥ 1` and any coefficient values, a `ratcompos` call that returns
has returned `RES_OK` and has written exactly the entries `0..n*p` of `beta` and of
`alpha`: the new content is `n*p+1` coefficients that do not depend on what the output
arrays held, followed by the untouched rest of the caller's arrays; the count `n*p+1`
depends on `n` and `p` only. Such calls exist: the call returns whenever the scratch byte
count `(n+1)*(n*p+1)*8` fits an `int` (the allocations being served). -/
theorem ratcompos_output_length (n p : Nat) (hn : 1 ≤ n) (hp : 1 ≤ p)
    (b a c d : List ℚ) (hb : b.length = n + 1) (ha : a.length = n + 1)
    (hc : c.length = p + 1) (hd : d.length = p + 1) :
    ∃ βnew αnew : List ℚ, βnew.length = n * p + 1 ∧ αnew.length = n * p + 1 ∧
      ∀ beta alpha : List ℚ, n * p + 1 ≤ beta.length → n * p + 1 ≤ alpha.length →
        (∀ out : Out,
          ratcompos (some b) (some a) (n : Int) (some c) (some d) (p : Int)
            (some beta) (some alpha) = some out →
          out = ⟨RES_OK, some (βnew ++ beta.drop (n * p + 1)),
            some (αnew ++ alpha.drop (n * p + 1))⟩) ∧
        ((n + 1) * (n * p + 1) * 8 < 2 ^ 31 →
          ratcompos (some b) (some a) (n : Int) (some c) (some d) (p : Int)
            (some beta) (some alpha)
          = some ⟨RES_OK, some (βnew ++ beta.drop (n * p + 1)),
              some (αnew ++ alpha.drop (n * p + 1))⟩) := by
  by_cases hfit : (n + 1) * (n * p + 1) * 8 < 2 ^ 31
  · obtain ⟨C, hC⟩ := exists_poly c
    obtain ⟨D, hD⟩ := exists_poly d
    have hC1 := coeff_take c C hC (p + 1) (by omega)
    have hD1 := coeff_take d D hD (p + 1) (by omega)
    obtain ⟨β1, α1, -, l1, l2, r1⟩ := ratcompos_ok n p hn hp hfit b a c d
      (List.replicate (n * p + 1) 0) (List.replicate (n * p + 1) 0) (by omega) (by omega)
      (by omega) (by omega) (by simp) (by simp) C D hC1 hD1
    rw [List.length_replicate] at l1 l2
    refine ⟨β1, α1, l1, l2, fun beta alpha hbeta halpha => ?_⟩
    obtain ⟨β, α, h, l3, l4, r⟩ := ratcompos_ok n p hn hp hfit b a c d beta alpha (by omega)
      (by omega) (by omega) (by omega) hbeta halpha C D hC1 hD1
    have key : ∀ (o o1 old : List ℚ) (f : Nat → ℚ), o.length = old.length →
        o1.length = n * p + 1 → n * p + 1 ≤ old.length →
        (∀ x, o.getD x 0 = if x < n * p + 1 then f x else old.getD x 0) →
        (∀ x, x < n * p + 1 → o1.getD x 0 = f x) → o = o1 ++ old.drop (n * p + 1) := by
      intro o o1 old f e1 e2 e3 e4 e5
      apply list_ext_getD
      · rw [List.length_append, List.length_drop]; omega
      · intro x _
        rw [e4 x]
        by_cases hx : x < n * p + 1
        · rw [if_pos hx, List.getD_append _ _ _ _ (by omega), e5 x hx]
        · rw [if_neg hx, List.getD_append_right _ _ _ _ (by omega)]
          simp only [List.getD_eq_getElem?_getD, List.getElem?_drop]
          congr 2; omega
    have hcall : ratcompos (some b) (some a) (n : Int) (some c) (some d) (p : Int)
        (some beta) (some alpha)
        = some ⟨RES_OK, some (β1 ++ beta.drop (n * p + 1)),
            some (α1 ++ alpha.drop (n * p + 1))⟩ := by
      rw [h, ← key β β1 beta _ l3 l1 hbeta (fun x => (r x).1)
          (fun x hx => by rw [(r1 x).1, if_pos hx]),
        ← key α α1 alpha _ l4 l2 halpha (fun x => (r x).2)
          (fun x hx => by rw [(r1 x).2, if_pos hx])]
    refine ⟨fun out hout => ?_, fun _ => hcall⟩
    rw [hcall] at hout
    exact (Option.some.inj hout).symm
  · refine ⟨List.replicate (n * p + 1) 0, List.replicate (n * p + 1) 0,
      List.length_replicate _ _, List.length_replicate _ _,
      fun beta alpha _ _ => ⟨fun out hout => ?_, fun h => absurd h hfit⟩⟩
    exact absurd (ratcompos_some_fit n p hn hp b a c d beta alpha out hout) hfit

/-- Witness of C3 at `n = 2`, `p = 1`. -/
theorem ratcompos_output_length_witness :
    ∃ βnew αnew : List ℚ, βnew.length = 2 * 1 + 1 ∧ αnew.length = 2 * 1 + 1 ∧
      ∀ beta alpha : List ℚ, 2 * 1 + 1 ≤ beta.length → 2 * 1 + 1 ≤ alpha.length →
        (∀ out : Out,
          ratcompos (some [1, 2, 3]) (some [4, 5, 6]) ((2 : Nat) : Int) (some [1, -1])
            (some [1, 1]) ((1 : Nat) : Int) (some beta) (some alpha) = some out →
          out = ⟨RES_OK, some (βnew ++ beta.drop (2 * 1 + 1)),
            some (αnew ++ alpha.drop (2 * 1 + 1))⟩) ∧
        ((2 + 1) * (2 * 1 + 1) * 8 < 2 ^ 31 →
          ratcompos (some [1, 2, 3]) (some [4, 5, 6]) ((2 : Nat) : Int) (some [1, -1])
            (some [1, 1]) ((1 : Nat) : Int) (some beta) (some alpha)
          = some ⟨RES_OK, some (βnew ++ beta.drop (2 * 1 + 1)),
              some (αnew ++ alpha.drop (2 * 1 + 1))⟩) :=
  ratcompos_output_length 2 1 (by decide) (by decide) [1, 2, 3] [4, 5, 6] [1, -1] [1, 1]
    rfl rfl rfl rfl

/-- Coefficients of the cross terms when the substitution is `X / r`. -/
theorem cross_X_const (r : ℚ) (n i x : Nat) :
    ((X : ℚ[X]) ^ i * (Polynomial.C r) ^ (n - i)).coeff x = if x = i then r ^ (n - i) else 0 := by
  rw [← Polynomial.C_pow, Polynomial.coeff_mul_C, Polynomial.coeff_X_pow]
  split <;> simp

/-- Coefficients of the cross terms when the substitution is `r / X`. -/
theorem cross_const_X (r : ℚ) (n i x : Nat) (hi : i ≤ n) (hx : x ≤ n) :
    ((Polynomial.C r) ^ i * (X : ℚ[X]) ^ (n - i)).coeff x = if i = n - x then r ^ i else 0 := by
  rw [← Polynomial.C_pow, Polynomial.coeff_C_mul, Polynomial.coeff_X_pow]
  by_cases h : x = n - i
  · rw [if_pos h, if_pos (by omega), mul_one]
  · rw [if_neg h, if_neg (by omega), mul_zero]

theorem coeff_X_list (t : Nat) : (X : ℚ[X]).coeff t = if t < 1 + 1 then [0, (1 : ℚ)].getD t 0 else 0 := by
  rcases t with _ | _ | t <;> simp [Polynomial.coeff_X]

theorem coeff_C_list (r : ℚ) (t : Nat) :
    (Polynomial.C r : ℚ[X]).coeff t = if t < 1 + 1 then [r, (0 : ℚ)].getD t 0 else 0 := by
  rcases t with _ | _ | t <;> simp [Polynomial.coeff_C]

/-- The outputs of `ratcompos` for the substitution `x = y / r` (`c = [0, 1]`, `d = [r, 0]`). -/
theorem ratcompos_scale (n : Nat) (hn : 1 ≤ n) (hfit : (n + 1) * (n + 1) * 8 < 2 ^ 31)
    (r : ℚ) (b a beta alpha : List ℚ)
    (hb : b.length = n + 1) (ha : a.length = n + 1)
    (hbeta : beta.length = n + 1) (halpha : alpha.length = n + 1) :
    ratcompos (some b) (some a) (n : Int) (some [0, 1]) (some [r, 0]) 1 (some beta) (some alpha)
      = some ⟨RES_OK, some ((List.range (n + 1)).map fun i => b.getD i 0 * r ^ (n - i)),
          some ((List.range (n + 1)).map fun i => a.getD i 0 * r ^ (n - i))⟩ := by
  obtain ⟨β, α, h, l1, l2, q⟩ := ratcompos_ok n 1 hn le_rfl
    (by rw [Nat.mul_one]; exact hfit) b a [0, 1] [r, 0] beta alpha
    (by omega) (by omega) (by simp) (by simp) (by omega) (by omega) X (Polynomial.C r)
    coeff_X_list (coeff_C_list r)
  simp only [Nat.cast_one, mul_one] at h q
  have key : ∀ (o l : List ℚ), o.length = n + 1 →
      (∀ x, x < n + 1 → o.getD x 0 = ∑ i in Finset.range (n + 1),
        ((X : ℚ[X]) ^ i * (Polynomial.C r) ^ (n - i)).coeff x * l.getD i 0) →
      o = (List.range (n + 1)).map fun i => l.getD i 0 * r ^ (n - i) := by
    intro o l e1 e2
    apply list_ext_getD
    · rw [List.length_map, List.length_range, e1]
    · intro x hx
      rw [e1] at hx
      rw [e2 x hx]
      simp only [cross_X_const, ite_mul, zero_mul, Finset.sum_ite_eq, Finset.mem_range, hx,
        if_true, List.getD_eq_getElem?_getD, List.getElem?_map, List.getElem?_range hx,
        Option.map_some', Option.getD_some]
      ring
  rw [h, ← key β b (l1.trans hbeta) (fun x hx => by rw [(q x).1, if_pos hx]),
    ← key α a (l2.trans halpha) (fun x hx => by rw [(q x).2, if_pos hx])]

/-- C4 as stated fails: at `n = 16383` the scratch byte count `16384 * 16384 * 8 = 2^31`
is negative as an `int`, the scratch arrays do not exist and the identity substitution
does not return `RES_OK`. -/
theorem ratcompos_identity_unbounded_fails :
    ¬ ∀ (n : Nat), 1 ≤ n → ∀ (b a beta alpha : List ℚ),
      b.length = n + 1 → a.length = n + 1 → beta.length = n + 1 → alpha.length = n + 1 →
      ratcompos (some b) (some a) (n : Int) (some [0, 1]) (some [1, 0]) 1 (some beta)
        (some alpha) = some ⟨RES_OK, some b, some a⟩ := by
  intro h
  have hr := h 16383 (by decide) (List.replicate 16384 1) (List.replicate 16384 2)
    (List.replicate 16384 0) (List.replicate 16384 0)
    (List.length_replicate _ _) (List.length_replicate _ _)
    (List.length_replicate _ _) (List.length_replicate _ _)
  have hf := ratcompos_wrap_fault (List.replicate 16384 1) (List.replicate 16384 2) [0, 1]
    [1, 0] (List.replicate 16384 0) (List.replicate 16384 0) ((16383 : Nat) : Int)
    1 (by decide) (by decide) (by decide)
  exact Option.noConfusion (hf.symm.trans hr)

/-- C4, amended, in exact arithmetic: identity substitution. For `n ≥ 1` whose scratch byte
count `(n+1)*(n+1)*8` fits an `int` (the allocations being served) and `b`, `a` of length `n+1`,
`ratcompos` with `p = 1`, `c = [0, 1]`, `d = [1, 0]` returns `RES_OK` with `beta = b` and
`alpha = a`. -/
theorem ratcompos_identity (n : Nat) (hn : 1 ≤ n) (hfit : (n + 1) * (n + 1) * 8 < 2 ^ 31)
    (b a beta alpha : List ℚ)
    (hb : b.length = n + 1) (ha : a.length = n + 1)
    (hbeta : beta.length = n + 1) (halpha : alpha.length = n + 1) :
    ratcompos (some b) (some a) (n : Int) (some [0, 1]) (some [1, 0]) 1 (some beta) (some alpha)
      = some ⟨RES_OK, some b, some a⟩ := by
  have key : ∀ l : List ℚ, l.length = n + 1 →
      ((List.range (n + 1)).map fun i => l.getD i 0 * (1 : ℚ) ^ (n - i)) = l := by
    intro l hl
    apply list_ext_getD
    · rw [List.length_map, List.length_range, hl]
    · intro x hx
      rw [List.length_map, List.length_range] at hx
      simp only [List.getD_eq_getElem?_getD, List.getElem?_map, List.getElem?_range hx,
        Option.map_some', Option.getD_some, one_pow, mul_one]
  rw [ratcompos_scale n hn hfit 1 b a beta alpha hb ha hbeta halpha, key b hb, key a ha]

/-- Witness of C4 at `n = 2`. -/
theorem ratcompos_identity_witness :
    ratcompos (some [1, 2, 3]) (some [4, 5, 6]) ((2 : Nat) : Int) (some [0, 1]) (some [1, 0]) 1
      (some [0, 0, 0]) (some [7, 8, 9]) = some ⟨RES_OK, some [1, 2, 3], some [4, 5, 6]⟩ :=
  ratcompos_identity 2 (by decide) (by decide) [1, 2, 3] [4, 5, 6] [0, 0, 0] [7, 8, 9]
    rfl rfl rfl rfl

/-- The outputs of `ratcompos` as the coefficient lists of two polynomials. -/
theorem ratcompos_poly (n p : Nat) (hn : 1 ≤ n) (hp : 1 ≤ p)
    (hfit : (n + 1) * (n * p + 1) * 8 < 2 ^ 31)
    (b a c d beta alpha : List ℚ) (hb : b.length = n + 1) (ha : a.length = n + 1)
    (hc : c.length = p + 1) (hd : d.length = p + 1)
    (hbeta : beta.length = n * p + 1) (halpha : alpha.length = n * p + 1)
    (C D : ℚ[X]) (hC : ∀ t, C.coeff t = c.getD t 0) (hD : ∀ t, D.coeff t = d.getD t 0) :
    ∃ β α, ratcompos (some b) (some a) (n : Int) (some c) (some d) (p : Int)
        (some beta) (some alpha) = some ⟨RES_OK, some β, some α⟩ ∧
      β.length = n * p + 1 ∧ α.length = n * p + 1 ∧
      ∀ k,
        β.getD k 0 = (∑ i in Finset.range (n + 1),
          Polynomial.C (b.getD i 0) * C ^ i * D ^ (n - i)).coeff k ∧
        α.getD k 0 = (∑ i in Finset.range (n + 1),
          Polynomial.C (a.getD i 0) * C ^ i * D ^ (n - i)).coeff k := by
  have hC1 := coeff_take c C hC (p + 1) (by omega)
  have hD1 := coeff_take d D hD (p + 1) (by omega)
  obtain ⟨β, α, h, l1, l2, r⟩ := ratcompos_ok n p hn hp hfit b a c d beta alpha (by omega)
    (by omega)
    (by omega) (by omega) (by omega) (by omega) C D hC1 hD1
  have dC : C.natDegree ≤ p :=
    natDegree_le_of_coeff C p fun t ht => by rw [hC1 t, if_neg (by omega)]
  have dD : D.natDegree ≤ p :=
    natDegree_le_of_coeff D p fun t ht => by rw [hD1 t, if_neg (by omega)]
  have key : ∀ (o old l : List ℚ), o.length = n * p + 1 → old.length = n * p + 1 →
      (∀ x, o.getD x 0 = if x < n * p + 1 then
        ∑ i in Finset.range (n + 1), (C ^ i * D ^ (n - i)).coeff x * l.getD i 0
        else old.getD x 0) →
      ∀ k, o.getD k 0 = (∑ i in Finset.range (n + 1),
          Polynomial.C (l.getD i 0) * C ^ i * D ^ (n - i)).coeff k := by
    intro o old l e1 e2 e3 k
    rw [Polynomial.finset_sum_coeff, e3 k]
    by_cases hk : k < n * p + 1
    · rw [if_pos hk]
      exact Finset.sum_congr rfl fun i _ => by
        rw [mul_assoc, Polynomial.coeff_C_mul, mul_comm]
    · rw [if_neg hk, List.getD_eq_default _ _ (by omega)]
      symm
      refine Finset.sum_eq_zero fun i hi => ?_
      have hin : i ≤ n := by
        have := Finset.mem_range.mp hi; omega
      rw [mul_assoc, Polynomial.coeff_C_mul, Polynomial.coeff_eq_zero_of_natDegree_lt
        (lt_of_le_of_lt (natDegree_cross C D p n i hin dC dD) (by omega)), mul_zero]
  exact ⟨β, α, h, l1.trans hbeta, l2.trans halpha, fun k =>
    ⟨key β beta b (l1.trans hbeta) hbeta (fun x => (r x).1) k,
      key α alpha a (l2.trans halpha) halpha (fun x => (r x).2) k⟩⟩

theorem coeff_one_sub_X_list (t : Nat) : (1 - X : ℚ[X]).coeff t = [1, (-1 : ℚ)].getD t 0 := by
  rcases t with _ | _ | t <;> simp [Polynomial.coeff_X, Polynomial.coeff_one]

theorem coeff_one_add_X_list (t : Nat) : (1 + X : ℚ[X]).coeff t = [1, (1 : ℚ)].getD t 0 := by
  rcases t with _ | _ | t <;> simp [Polynomial.coeff_X, Polynomial.coeff_one]

/-- C5 as stated fails: at `ord = 1`, `bs = [0, 1]`, `as = [1, 0]` the code returns
`bz = [1, -1]`, the coefficients of `1 - y`, while the substitution `x = (y-1)/(y+1)` of the
claim gives `y - 1`, whose constant coefficient is `-1`. -/
theorem bilinear_claimed_sign_fails :
    ¬ ∀ (ord : Nat) (bs as bz az : List ℚ), 1 ≤ ord → bs.length = ord + 1 →
      as.length = ord + 1 → bz.length = ord + 1 → az.length = ord + 1 →
      ∃ β α, bilinear (some bs) (some as) (ord : Int) (some bz) (some az)
          = some ⟨RES_OK, some β, some α⟩ ∧
        β.length = ord + 1 ∧ α.length = ord + 1 ∧
        ∀ k,
          β.getD k 0 = (∑ i in Finset.range (ord + 1),
            Polynomial.C (bs.getD i 0) * (X - 1 : ℚ[X]) ^ i * (X + 1) ^ (ord - i)).coeff k ∧
          α.getD k 0 = (∑ i in Finset.range (ord + 1),
            Polynomial.C (as.getD i 0) * (X - 1 : ℚ[X]) ^ i * (X + 1) ^ (ord - i)).coeff k := by
  intro h
  obtain ⟨β, α, hr, -, -, hk⟩ := h 1 [0, 1] [1, 0] [0, 0] [0, 0] le_rfl rfl rfl rfl rfl
  have e : bilinear (some [0, 1]) (some [1, 0]) ((1 : Nat) : Int) (some [0, 0]) (some [0, 0])
      = some ⟨RES_OK, some [1, -1], some [1, 1]⟩ := by decide!
  rw [e] at hr
  simp only [Option.some.injEq, Out.mk.injEq, true_and] at hr
  have h0 := (hk 0).1
  rw [← hr.1] at h0
  simp [Finset.sum_range_succ] at h0
  norm_num at h0

/-- C5, amended, in exact arithmetic: `bilinear` applies the fixed substitution
`x = (1-y)/(1+y)`. For `ord ≥ 1` whose scratch byte count `(ord+1)*(ord+1)*8` fits an `int` (the
allocations being served) and `bs`, `as` of length `ord+1`, it returns `RES_OK` with `bz` the
coefficients of `Σ_{i=0..ord} bs[i] * (1-y)^i * (1+y)^(ord-i)` and `az` those of the same sum
over `as`, each of length `ord+1`, index `k` holding the coefficient of `y^k`. -/
theorem bilinear_coefficients (ord : Nat) (hord : 1 ≤ ord)
    (hfit : (ord + 1) * (ord + 1) * 8 < 2 ^ 31) (bs as bz az : List ℚ)
    (hbs : bs.length = ord + 1) (has : as.length = ord + 1)
    (hbz : bz.length = ord + 1) (haz : az.length = ord + 1) :
    ∃ β α, bilinear (some bs) (some as) (ord : Int) (some bz) (some az)
        = some ⟨RES_OK, some β, some α⟩ ∧
      β.length = ord + 1 ∧ α.length = ord + 1 ∧
      ∀ k,
        β.getD k 0 = (∑ i in Finset.range (ord + 1),
          Polynomial.C (bs.getD i 0) * (1 - X : ℚ[X]) ^ i * (1 + X) ^ (ord - i)).coeff k ∧
        α.getD k 0 = (∑ i in Finset.range (ord + 1),
          Polynomial.C (as.getD i 0) * (1 - X : ℚ[X]) ^ i * (1 + X) ^ (ord - i)).coeff k := by
  have := ratcompos_poly ord 1 hord le_rfl (by rw [Nat.mul_one]; exact hfit) bs as [1, -1]
    [1, 1] bz az hbs has rfl rfl (by omega) (by omega) (1 - X) (1 + X) coeff_one_sub_X_list
    coeff_one_add_X_list
  simpa only [Nat.cast_one, mul_one] using this

/-- Witness of C5 (amended) at `ord = 1`. -/
theorem bilinear_coefficients_witness :
    ∃ β α, bilinear (some [0, 1]) (some [1, 0]) ((1 : Nat) : Int) (some [0, 0]) (some [0, 0])
        = some ⟨RES_OK, some β, some α⟩ ∧
      β.length = 1 + 1 ∧ α.length = 1 + 1 ∧
      ∀ k,
        β.getD k 0 = (∑ i in Finset.range (1 + 1),
          Polynomial.C ([0, (1 : ℚ)].getD i 0) * (1 - X : ℚ[X]) ^ i * (1 + X) ^ (1 - i)).coeff k ∧
        α.getD k 0 = (∑ i in Finset.range (1 + 1),
          Polynomial.C ([1, (0 : ℚ)].getD i 0) * (1 - X : ℚ[X]) ^ i * (1 + X) ^ (1 - i)).coeff k :=
  bilinear_coefficients 1 (by decide) (by decide) [0, 1] [1, 0] [0, 0] [0, 0] rfl rfl rfl rfl

theorem polyEval_pair (u v y : ℚ) : polyEval [u, v] y = u + v * y := by
  simp [polyEval, List.range_succ]

/-- A list obtained from `b` by two rounds of the substitution `x = (1-y)/(1+y)` with
denominators cleared is `2^n * b`. -/
theorem double_subst (n : Nat) (b β1 β2 : List ℚ) (hb : b.length = n + 1)
    (h2 : β2.length = n + 1)
    (e1 : ∀ y : ℚ, 1 + y ≠ 0 → polyEval β1 y = (1 + y) ^ n * polyEval b ((1 - y) / (1 + y)))
    (e2 : ∀ y : ℚ, 1 + y ≠ 0 → polyEval β2 y = (1 + y) ^ n * polyEval β1 ((1 - y) / (1 + y))) :
    β2 = b.map fun x => 2 ^ n * x := by
  obtain ⟨P2, hP2⟩ := exists_poly β2
  obtain ⟨PB, hPB⟩ := exists_poly b
  have hval : ∀ y : ℚ, 1 + y ≠ 0 → P2.eval y = (Polynomial.C (2 ^ n) * PB).eval y := by
    intro y hy
    have hz : 1 + (1 - y) / (1 + y) ≠ 0 := by
      have : 1 + (1 - y) / (1 + y) = 2 / (1 + y) := by field_simp; ring
      rw [this]; exact div_ne_zero two_ne_zero hy
    have hback : (1 - (1 - y) / (1 + y)) / (1 + (1 - y) / (1 + y)) = y := by
      field_simp; ring
    have hprod : (1 + y) ^ n * (1 + (1 - y) / (1 + y)) ^ n = 2 ^ n := by
      rw [← mul_pow]; congr 1; field_simp; ring
    rw [← polyEval_eq_eval β2 P2 hP2 y, e2 y hy, e1 _ hz, hback, ← mul_assoc, hprod,
      Polynomial.eval_mul, Polynomial.eval_C, polyEval_eq_eval b PB hPB y]
  have hP : P2 = Polynomial.C (2 ^ n) * PB := by
    apply Polynomial.eq_of_infinite_eval_eq
    refine Set.Infinite.mono ?_ (Set.finite_singleton (-1 : ℚ)).infinite_compl
    intro y hy
    apply hval y
    intro h0
    apply hy
    have : y = -1 := by linarith
    exact this
  apply list_ext_getD
  · rw [List.length_map, h2, hb]
  · intro x hx
    rw [← hP2 x, hP, Polynomial.coeff_C_mul, hPB x]
    simp only [List.getD_eq_getElem?_getD, List.getElem?_map]
    rw [h2, ← hb] at hx
    rw [List.getElem?_eq_getElem hx]
    rfl

/-- C6 as stated fails: at `ord = 16383` the scratch byte count `16384 * 16384 * 8 = 2^31`
is negative as an `int`, the scratch arrays do not exist and the first `bilinear` call
already has no outputs to hand to the second. -/
theorem bilinear_round_trip_unbounded_fails :
    ¬ ∀ (ord : Nat), 1 ≤ ord → ∀ (bs as bz az bz2 az2 : List ℚ),
      bs.length = ord + 1 → as.length = ord + 1 → bz.length = ord + 1 →
      az.length = ord + 1 → bz2.length = ord + 1 → az2.length = ord + 1 →
      ∃ β α, bilinear (some bs) (some as) (ord : Int) (some bz) (some az)
          = some ⟨RES_OK, some β, some α⟩ ∧
        bilinear (some β) (some α) (ord : Int) (some bz2) (some az2)
          = some ⟨RES_OK, some (bs.map fun x => 2 ^ ord * x),
              some (as.map fun x => 2 ^ ord * x)⟩ ∧
        (2 : ℚ) ^ ord ≠ 0 := by
  intro h
  obtain ⟨β, α, hr, -⟩ := h 16383 (by decide) (List.replicate 16384 1)
    (List.replicate 16384 1) (List.replicate 16384 0) (List.replicate 16384 0)
    (List.replicate 16384 0) (List.replicate 16384 0)
    (List.length_replicate _ _) (List.length_replicate _ _) (List.length_replicate _ _)
    (List.length_replicate _ _) (List.length_replicate _ _) (List.length_replicate _ _)
  have hf := bilinear_wrap_fault (List.replicate 16384 1) (List.replicate 16384 1)
    (List.replicate 16384 0) (List.replicate 16384 0) ((16383 : Nat) : Int) (by decide)
    (by decide)
  exact Option.noConfusion (hf.symm.trans hr)

/-- C6, amended: bilinear round trip. For `ord ≥ 1` whose scratch byte count
`(ord+1)*(ord+1)*8` fits an `int` (the allocations being served) and `bs`, `as` of length
`ord+1`, applying `bilinear` to the output of `bilinear` (same `ord`) returns
`(2^ord * bs, 2^ord * as)`: the original coefficients up to one common non-zero factor. -/
theorem bilinear_round_trip (ord : Nat) (hord : 1 ≤ ord)
    (hfit : (ord + 1) * (ord + 1) * 8 < 2 ^ 31) (bs as bz az bz2 az2 : List ℚ)
    (hbs : bs.length = ord + 1) (has : as.length = ord + 1)
    (hbz : bz.length = ord + 1) (haz : az.length = ord + 1)
    (hbz2 : bz2.length = ord + 1) (haz2 : az2.length = ord + 1) :
    ∃ β α, bilinear (some bs) (some as) (ord : Int) (some bz) (some az)
        = some ⟨RES_OK, some β, some α⟩ ∧
      bilinear (some β) (some α) (ord : Int) (some bz2) (some az2)
        = some ⟨RES_OK, some (bs.map fun x => 2 ^ ord * x), some (as.map fun x => 2 ^ ord * x)⟩ ∧
      (2 : ℚ) ^ ord ≠ 0 := by
  have hfit1 : (ord + 1) * (ord * 1 + 1) * 8 < 2 ^ 31 := by rw [Nat.mul_one]; exact hfit
  obtain ⟨β1, α1, h1, l1, l1a, e1⟩ := ratcompos_eval ord 1 hord le_rfl hfit1 bs as [1, -1]
    [1, 1] bz az hbs has rfl rfl (by omega) (by omega)
  rw [mul_one] at l1 l1a
  obtain ⟨β2, α2, h2, l2, l2a, e2⟩ := ratcompos_eval ord 1 hord le_rfl hfit1 β1 α1 [1, -1]
    [1, 1] bz2 az2 l1 l1a rfl rfl (by omega) (by omega)
  rw [mul_one] at l2 l2a
  simp only [polyEval_pair, one_mul, neg_mul, ← sub_eq_add_neg] at e1 e2
  simp only [Nat.cast_one] at h1 h2
  refine ⟨β1, α1, h1, ?_, pow_ne_zero _ two_ne_zero⟩
  have hβ := double_subst ord bs β1 β2 hbs l2 (fun y hy => (e1 y hy).1) (fun y hy => (e2 y hy).1)
  have hα := double_subst ord as α1 α2 has l2a (fun y hy => (e1 y hy).2)
    (fun y hy => (e2 y hy).2)
  rw [← hβ, ← hα]
  exact h2

/-- Witness of C6 at `ord = 1`. -/
theorem bilinear_round_trip_witness :
    ∃ β α, bilinear (some [3, 5]) (some [1, 2]) ((1 : Nat) : Int) (some [0, 0]) (some [0, 0])
        = some ⟨RES_OK, some β, some α⟩ ∧
      bilinear (some β) (some α) ((1 : Nat) : Int) (some [0, 0]) (some [0, 0])
        = some ⟨RES_OK, some ([3, 5].map fun x => 2 ^ 1 * x),
            some ([1, 2].map fun x => 2 ^ 1 * x)⟩ ∧
      (2 : ℚ) ^ 1 ≠ 0 :=
  bilinear_round_trip 1 (by decide) (by decide) [3, 5] [1, 2] [0, 0] [0, 0] [0, 0] [0, 0]
    rfl rfl rfl rfl rfl rfl

/-! ## The frequency transforms -/

theorem low2low_eq (b a beta alpha : List ℚ) (ord : Int) (w0 w1 : ℚ) (hord : 1 ≤ ord)
    (hw0 : 0 < w0) (hw1 : 0 < w1) :
    low2low (some b) (some a) ord w0 w1 (some beta) (some alpha)
      = ratcompos (some b) (some a) ord (some [0, 1]) (some [w1 / w0, 0]) 1
          (some beta) (some alpha) := by
  simp [low2low, not_lt.mpr hord, not_le.mpr hw0, not_le.mpr hw1]

theorem low2high_eq (b a beta alpha : List ℚ) (ord : Int) (w0 w1 : ℚ) (hord : 1 ≤ ord)
    (hw0 : 0 < w0) (hw1 : 0 < w1) :
    low2high (some b) (some a) ord w0 w1 (some beta) (some alpha)
      = ratcompos (some b) (some a) ord (some [w1 / w0, 0]) (some [0, 1]) 1
          (some beta) (some alpha) := by
  simp [low2high, not_lt.mpr hord, not_le.mpr hw0, not_le.mpr hw1]

theorem low2bp_eq (b a beta alpha : List ℚ) (ord : Int) (w0 wpl wph : ℚ) (hord : 1 ≤ ord)
    (hw0 : 0 < w0) (hwpl : 0 < wpl) (hwph : wpl < wph) :
    low2bp (some b) (some a) ord w0 wpl wph (some beta) (some alpha)
      = ratcompos (some b) (some a) ord (some [(wph * wpl) / (w0 * w0), 0, 1])
          (some [0, (wph - wpl) / w0, 0]) 2 (some beta) (some alpha) := by
  have h3 : 0 < wph := lt_trans hwpl hwph
  simp [low2bp, not_lt.mpr hord, not_le.mpr hw0, not_le.mpr hwpl, not_le.mpr hwph,
    not_le.mpr h3]

/-- A `low2low` call that passes its checks and whose scratch byte count is negative as
an `int` has no result. -/
theorem low2low_wrap_fault (b a beta alpha : List ℚ) (ord : Int) (w0 w1 : ℚ) (hord : 1 ≤ ord)
    (hw0 : 0 < w0) (hw1 : 0 < w1)
    (hneg : wrapInt (wrapInt ((ord + 1) * wrapInt (ord * 1 + 1)) * sizeofDouble) < 0) :
    low2low (some b) (some a) ord w0 w1 (some beta) (some alpha) = none := by
  rw [low2low_eq b a beta alpha ord w0 w1 hord hw0 hw1]
  exact ratcompos_wrap_fault _ _ _ _ _ _ ord 1 hord (by decide) hneg

/-- A `low2high` call that passes its checks and whose scratch byte count is negative as
an `int` has no result. -/
theorem low2high_wrap_fault (b a beta alpha : List ℚ) (ord : Int) (w0 w1 : ℚ)
    (hord : 1 ≤ ord) (hw0 : 0 < w0) (hw1 : 0 < w1)
    (hneg : wrapInt (wrapInt ((ord + 1) * wrapInt (ord * 1 + 1)) * sizeofDouble) < 0) :
    low2high (some b) (some a) ord w0 w1 (some beta) (some alpha) = none := by
  rw [low2high_eq b a beta alpha ord w0 w1 hord hw0 hw1]
  exact ratcompos_wrap_fault _ _ _ _ _ _ ord 1 hord (by decide) hneg

/-- A `low2bp` call that passes its checks and whose scratch byte count is negative as an
`int` has no result. -/
theorem low2bp_wrap_fault (b a beta alpha : List ℚ) (ord : Int) (w0 wpl wph : ℚ)
    (hord : 1 ≤ ord) (hw0 : 0 < w0) (hwpl : 0 < wpl) (hwph : wpl < wph)
    (hneg : wrapInt (wrapInt ((ord + 1) * wrapInt (ord * 2 + 1)) * sizeofDouble) < 0) :
    low2bp (some b) (some a) ord w0 wpl wph (some beta) (some alpha) = none := by
  rw [low2bp_eq b a beta alpha ord w0 wpl wph hord hw0 hwpl hwph]
  exact ratcompos_wrap_fault _ _ _ _ _ _ ord 2 hord (by decide) hneg

/-- C7 as stated fails: at `ord = 16383`, `w0 = w1 = 1` the scratch byte count
`16384 * 16384 * 8 = 2^31` is negative as an `int`, the scratch arrays do not exist and
`low2low` does not return `RES_OK`. -/
theorem low2low_scaling_unbounded_fails :
    ¬ ∀ (ord : Nat), 1 ≤ ord → ∀ (w0 w1 : ℚ), 0 < w0 → 0 < w1 →
      ∀ (b a beta alpha : List ℚ), b.length = ord + 1 → a.length = ord + 1 →
      beta.length = ord + 1 → alpha.length = ord + 1 →
      ∃ β α, low2low (some b) (some a) (ord : Int) w0 w1 (some beta) (some alpha)
          = some ⟨RES_OK, some β, some α⟩ ∧
        β.length = ord + 1 ∧ α.length = ord + 1 ∧
        (∀ i, i ≤ ord → β.getD i 0 = b.getD i 0 * (w1 / w0) ^ (ord - i) ∧
          α.getD i 0 = a.getD i 0 * (w1 / w0) ^ (ord - i)) ∧
        ∀ y : ℚ, polyEval β y = (w1 / w0) ^ ord * polyEval b (y * w0 / w1) ∧
          polyEval α y = (w1 / w0) ^ ord * polyEval a (y * w0 / w1) ∧
          (polyEval α y ≠ 0 →
            polyEval β y / polyEval α y
              = polyEval b (y * w0 / w1) / polyEval a (y * w0 / w1)) := by
  intro h
  obtain ⟨β, α, hr, -⟩ := h 16383 (by decide) 1 1 one_pos one_pos (List.replicate 16384 1)
    (List.replicate 16384 1) (List.replicate 16384 0) (List.replicate 16384 0)
    (List.length_replicate _ _) (List.length_replicate _ _) (List.length_replicate _ _)
    (List.length_replicate _ _)
  have hf := low2low_wrap_fault (List.replicate 16384 1) (List.replicate 16384 1)
    (List.replicate 16384 0) (List.replicate 16384 0) ((16383 : Nat) : Int) 1 1 (by decide)
    one_pos one_pos (by decide)
  exact Option.noConfusion (hf.symm.trans hr)

/-- C7, amended, in exact arithmetic: `low2low` is a pure frequency scaling. For `ord ≥ 1` whose
scratch byte count `(ord+1)*(ord+1)*8` fits an `int` (the allocations being served), `w0 > 0`,
`w1 > 0` and `b`, `a` of length `ord+1` it returns `RES_OK` with `ord+1` output coefficients
`beta[i] = b[i] * (w1/w0)^(ord-i)`, `alpha[i] = a[i] * (w1/w0)^(ord-i)`; at every `y`,
`beta(y) = (w1/w0)^ord * B(y*w0/w1)` and likewise for `alpha`, so
`beta(y)/alpha(y) = B(y*w0/w1)/A(y*w0/w1)`. -/
theorem low2low_scaling (ord : Nat) (hord : 1 ≤ ord)
    (hfit : (ord + 1) * (ord + 1) * 8 < 2 ^ 31) (w0 w1 : ℚ) (hw0 : 0 < w0) (hw1 : 0 < w1)
    (b a beta alpha : List ℚ) (hb : b.length = ord + 1) (ha : a.length = ord + 1)
    (hbeta : beta.length = ord + 1) (halpha : alpha.length = ord + 1) :
    ∃ β α, low2low (some b) (some a) (ord : Int) w0 w1 (some beta) (some alpha)
        = some ⟨RES_OK, some β, some α⟩ ∧
      β.length = ord + 1 ∧ α.length = ord + 1 ∧
      (∀ i, i ≤ ord → β.getD i 0 = b.getD i 0 * (w1 / w0) ^ (ord - i) ∧
        α.getD i 0 = a.getD i 0 * (w1 / w0) ^ (ord - i)) ∧
      ∀ y : ℚ, polyEval β y = (w1 / w0) ^ ord * polyEval b (y * w0 / w1) ∧
        polyEval α y = (w1 / w0) ^ ord * polyEval a (y * w0 / w1) ∧
        (polyEval α y ≠ 0 →
          polyEval β y / polyEval α y = polyEval b (y * w0 / w1) / polyEval a (y * w0 / w1)) := by
  have hr : w1 / w0 ≠ 0 := div_ne_zero (ne_of_gt hw1) (ne_of_gt hw0)
  have hcall := low2low_eq b a beta alpha (ord : Int) w0 w1 (by omega) hw0 hw1
  have h1 := ratcompos_scale ord hord hfit (w1 / w0) b a beta alpha hb ha hbeta halpha
  obtain ⟨β, α, h2, -, -, e⟩ := ratcompos_eval ord 1 hord le_rfl
    (by rw [Nat.mul_one]; exact hfit) b a [0, 1] [w1 / w0, 0]
    beta alpha hb ha rfl rfl (by omega) (by omega)
  simp only [Nat.cast_one] at h2
  rw [h1] at h2
  simp only [Option.some.injEq, Out.mk.injEq, true_and] at h2
  obtain ⟨hβ, hα⟩ := h2
  have getD_map : ∀ (l : List ℚ) (i : Nat), i ≤ ord →
      ((List.range (ord + 1)).map fun i => l.getD i 0 * (w1 / w0) ^ (ord - i)).getD i 0
        = l.getD i 0 * (w1 / w0) ^ (ord - i) := by
    intro l i hi
    simp only [List.getD_eq_getElem?_getD, List.getElem?_map,
      List.getElem?_range (show i < ord + 1 by omega), Option.map_some', Option.getD_some]
  refine ⟨_, _, hcall.trans h1, by simp, by simp,
    fun i hi => ⟨getD_map b i hi, getD_map a i hi⟩, fun y => ?_⟩
  rw [hβ, hα]
  have e1 := e y (by rw [polyEval_pair]; simpa using hr)
  simp only [polyEval_pair, zero_mul, add_zero, zero_add, one_mul] at e1
  have hy : y / (w1 / w0) = y * w0 / w1 := by
    field_simp
  rw [hy] at e1
  refine ⟨e1.1, e1.2, fun _ => ?_⟩
  rw [e1.1, e1.2, mul_div_mul_left _ _ (pow_ne_zero ord hr)]

/-- Witness of C7 at `ord = 2`, `w0 = 1`, `w1 = 1/2`. -/
theorem low2low_scaling_witness :
    ∃ β α, low2low (some [1, 2, 3]) (some [4, 5, 6]) ((2 : Nat) : Int) 1 (1 / 2)
        (some [0, 0, 0]) (some [0, 0, 0]) = some ⟨RES_OK, some β, some α⟩ ∧
      β.length = 2 + 1 ∧ α.length = 2 + 1 ∧
      (∀ i, i ≤ 2 → β.getD i 0 = [1, 2, 3].getD i 0 * ((1 / 2 : ℚ) / 1) ^ (2 - i) ∧
        α.getD i 0 = [4, 5, 6].getD i 0 * ((1 / 2 : ℚ) / 1) ^ (2 - i)) ∧
      ∀ y : ℚ, polyEval β y = ((1 / 2 : ℚ) / 1) ^ 2 * polyEval [1, 2, 3] (y * 1 / (1 / 2)) ∧
        polyEval α y = ((1 / 2 : ℚ) / 1) ^ 2 * polyEval [4, 5, 6] (y * 1 / (1 / 2)) ∧
        (polyEval α y ≠ 0 →
          polyEval β y / polyEval α y
            = polyEval [1, 2, 3] (y * 1 / (1 / 2)) / polyEval [4, 5, 6] (y * 1 / (1 / 2))) :=
  low2low_scaling 2 (by decide) (by decide) 1 (1 / 2) (by norm_num) (by norm_num) [1, 2, 3]
    [4, 5, 6] [0, 0, 0] [0, 0, 0] rfl rfl rfl rfl

/-- The outputs of `ratcompos` for the substitution `x = r / y` (`c = [r, 0]`, `d = [0, 1]`). -/
theorem ratcompos_invert (n : Nat) (hn : 1 ≤ n) (hfit : (n + 1) * (n + 1) * 8 < 2 ^ 31)
    (r : ℚ) (b a beta alpha : List ℚ)
    (hb : b.length = n + 1) (ha : a.length = n + 1)
    (hbeta : beta.length = n + 1) (halpha : alpha.length = n + 1) :
    ratcompos (some b) (some a) (n : Int) (some [r, 0]) (some [0, 1]) 1 (some beta) (some alpha)
      = some ⟨RES_OK, some ((List.range (n + 1)).map fun k => b.getD (n - k) 0 * r ^ (n - k)),
          some ((List.range (n + 1)).map fun k => a.getD (n - k) 0 * r ^ (n - k))⟩ := by
  obtain ⟨β, α, h, l1, l2, q⟩ := ratcompos_ok n 1 hn le_rfl
    (by rw [Nat.mul_one]; exact hfit) b a [r, 0] [0, 1] beta alpha
    (by omega) (by omega) (by simp) (by simp) (by omega) (by omega) (Polynomial.C r) X
    (coeff_C_list r) coeff_X_list
  simp only [Nat.cast_one, mul_one] at h q
  have key : ∀ (o l : List ℚ), o.length = n + 1 →
      (∀ x, x < n + 1 → o.getD x 0 = ∑ i in Finset.range (n + 1),
        ((Polynomial.C r) ^ i * (X : ℚ[X]) ^ (n - i)).coeff x * l.getD i 0) →
      o = (List.range (n + 1)).map fun k => l.getD (n - k) 0 * r ^ (n - k) := by
    intro o l e1 e2
    apply list_ext_getD
    · rw [List.length_map, List.length_range, e1]
    · intro x hx
      rw [e1] at hx
      rw [e2 x hx]
      have hs : ∀ i ∈ Finset.range (n + 1),
          ((Polynomial.C r) ^ i * (X : ℚ[X]) ^ (n - i)).coeff x * l.getD i 0
            = if i = n - x then r ^ i * l.getD i 0 else 0 := by
        intro i hi
        have hin : i ≤ n := by
          have := Finset.mem_range.mp hi; omega
        rw [cross_const_X r n i x hin (by omega)]
        split <;> simp
      rw [Finset.sum_congr rfl hs, Finset.sum_ite_eq' (Finset.range (n + 1)) (n - x),
        if_pos (Finset.mem_range.mpr (by omega))]
      simp only [List.getD_eq_getElem?_getD, List.getElem?_map, List.getElem?_range hx,
        Option.map_some', Option.getD_some]
      ring
  rw [h, ← key β b (l1.trans hbeta) (fun x hx => by rw [(q x).1, if_pos hx]),
    ← key α a (l2.trans halpha) (fun x hx => by rw [(q x).2, if_pos hx])]

/-- C8 as stated fails: at `ord = 16383`, `w0 = w1 = 1` the scratch byte count
`16384 * 16384 * 8 = 2^31` is negative as an `int`, the scratch arrays do not exist and
`low2high` does not return `RES_OK`. -/
theorem low2high_inversion_unbounded_fails :
    ¬ ∀ (ord : Nat), 1 ≤ ord → ∀ (w0 w1 : ℚ), 0 < w0 → 0 < w1 →
      ∀ (b a beta alpha : List ℚ), b.length = ord + 1 → a.length = ord + 1 →
      beta.length = ord + 1 → alpha.length = ord + 1 →
      ∃ β α, low2high (some b) (some a) (ord : Int) w0 w1 (some beta) (some alpha)
          = some ⟨RES_OK, some β, some α⟩ ∧
        β.length = ord + 1 ∧ α.length = ord + 1 ∧
        (∀ k, k ≤ ord → β.getD k 0 = b.getD (ord - k) 0 * (w1 / w0) ^ (ord - k) ∧
          α.getD k 0 = a.getD (ord - k) 0 * (w1 / w0) ^ (ord - k)) ∧
        ∀ y : ℚ, y ≠ 0 →
          polyEval β y = y ^ ord * polyEval b ((w1 / w0) / y) ∧
          polyEval α y = y ^ ord * polyEval a ((w1 / w0) / y) ∧
          (polyEval α y ≠ 0 →
            polyEval β y / polyEval α y
              = polyEval b ((w1 / w0) / y) / polyEval a ((w1 / w0) / y)) := by
  intro h
  obtain ⟨β, α, hr, -⟩ := h 16383 (by decide) 1 1 one_pos one_pos (List.replicate 16384 1)
    (List.replicate 16384 1) (List.replicate 16384 0) (List.replicate 16384 0)
    (List.length_replicate _ _) (List.length_replicate _ _) (List.length_replicate _ _)
    (List.length_replicate _ _)
  have hf := low2high_wrap_fault (List.replicate 16384 1) (List.replicate 16384 1)
    (List.replicate 16384 0) (List.replicate 16384 0) ((16383 : Nat) : Int) 1 1 (by decide)
    one_pos one_pos (by decide)
  exact Option.noConfusion (hf.symm.trans hr)

/-- C8, amended, in exact arithmetic: `low2high` inverts the frequency axis with scale `w1/w0`.
For `ord ≥ 1` whose scratch byte count `(ord+1)*(ord+1)*8` fits an `int` (the allocations being
served), `w0 > 0`, `w1 > 0` and `b`, `a` of length `ord+1` it returns `RES_OK` with `ord+1`
output coefficients `beta[k] = b[ord-k] * (w1/w0)^(ord-k)`,
`alpha[k] = a[ord-k] * (w1/w0)^(ord-k)`; at every `y ≠ 0`, `beta(y) = y^ord * B((w1/w0)/y)` and
likewise for `alpha`, so `beta(y)/alpha(y) = B((w1/w0)/y)/A((w1/w0)/y)`. -/
theorem low2high_inversion (ord : Nat) (hord : 1 ≤ ord)
    (hfit : (ord + 1) * (ord + 1) * 8 < 2 ^ 31) (w0 w1 : ℚ) (hw0 : 0 < w0)
    (hw1 : 0 < w1) (b a beta alpha : List ℚ) (hb : b.length = ord + 1)
    (ha : a.length = ord + 1) (hbeta : beta.length = ord + 1)
    (halpha : alpha.length = ord + 1) :
    ∃ β α, low2high (some b) (some a) (ord : Int) w0 w1 (some beta) (some alpha)
        = some ⟨RES_OK, some β, some α⟩ ∧
      β.length = ord + 1 ∧ α.length = ord + 1 ∧
      (∀ k, k ≤ ord → β.getD k 0 = b.getD (ord - k) 0 * (w1 / w0) ^ (ord - k) ∧
        α.getD k 0 = a.getD (ord - k) 0 * (w1 / w0) ^ (ord - k)) ∧
      ∀ y : ℚ, y ≠ 0 →
        polyEval β y = y ^ ord * polyEval b ((w1 / w0) / y) ∧
        polyEval α y = y ^ ord * polyEval a ((w1 / w0) / y) ∧
        (polyEval α y ≠ 0 →
          polyEval β y / polyEval α y
            = polyEval b ((w1 / w0) / y) / polyEval a ((w1 / w0) / y)) := by
  have hcall := low2high_eq b a beta alpha (ord : Int) w0 w1 (by omega) hw0 hw1
  have h1 := ratcompos_invert ord hord hfit (w1 / w0) b a beta alpha hb ha hbeta halpha
  obtain ⟨β, α, h2, -, -, e⟩ := ratcompos_eval ord 1 hord le_rfl
    (by rw [Nat.mul_one]; exact hfit) b a [w1 / w0, 0] [0, 1]
    beta alpha hb ha rfl rfl (by omega) (by omega)
  simp only [Nat.cast_one] at h2
  rw [h1] at h2
  simp only [Option.some.injEq, Out.mk.injEq, true_and] at h2
  obtain ⟨hβ, hα⟩ := h2
  have getD_map : ∀ (l : List ℚ) (k : Nat), k ≤ ord →
      ((List.range (ord + 1)).map fun k => l.getD (ord - k) 0 * (w1 / w0) ^ (ord - k)).getD k 0
        = l.getD (ord - k) 0 * (w1 / w0) ^ (ord - k) := by
    intro l k hk
    simp only [List.getD_eq_getElem?_getD, List.getElem?_map,
      List.getElem?_range (show k < ord + 1 by omega), Option.map_some', Option.getD_some]
  refine ⟨_, _, hcall.trans h1, by simp, by simp,
    fun k hk => ⟨getD_map b k hk, getD_map a k hk⟩, fun y hy => ?_⟩
  rw [hβ, hα]
  have e1 := e y (by rw [polyEval_pair]; simpa using hy)
  simp only [polyEval_pair, zero_mul, add_zero, zero_add, one_mul] at e1
  refine ⟨e1.1, e1.2, fun _ => ?_⟩
  rw [e1.1, e1.2, mul_div_mul_left _ _ (pow_ne_zero ord hy)]

/-- Witness of C8 at `ord = 2`, `w0 = 1`, `w1 = 3`. -/
theorem low2high_inversion_witness :
    ∃ β α, low2high (some [1, 2, 3]) (some [4, 5, 6]) ((2 : Nat) : Int) 1 3
        (some [0, 0, 0]) (some [0, 0, 0]) = some ⟨RES_OK, some β, some α⟩ ∧
      β.length = 2 + 1 ∧ α.length = 2 + 1 ∧
      (∀ k, k ≤ 2 → β.getD k 0 = [1, 2, 3].getD (2 - k) 0 * ((3 : ℚ) / 1) ^ (2 - k) ∧
        α.getD k 0 = [4, 5, 6].getD (2 - k) 0 * ((3 : ℚ) / 1) ^ (2 - k)) ∧
      ∀ y : ℚ, y ≠ 0 →
        polyEval β y = y ^ 2 * polyEval [1, 2, 3] (((3 : ℚ) / 1) / y) ∧
        polyEval α y = y ^ 2 * polyEval [4, 5, 6] (((3 : ℚ) / 1) / y) ∧
        (polyEval α y ≠ 0 →
          polyEval β y / polyEval α y
            = polyEval [1, 2, 3] (((3 : ℚ) / 1) / y) / polyEval [4, 5, 6] (((3 : ℚ) / 1) / y)) :=
  low2high_inversion 2 (by decide) (by decide) 1 3 (by norm_num) (by norm_num) [1, 2, 3]
    [4, 5, 6] [0, 0, 0] [0, 0, 0] rfl rfl rfl rfl

theorem coeff_bp_num_list (s : ℚ) (t : Nat) :
    ((X : ℚ[X]) ^ 2 + Polynomial.C s).coeff t = [s, 0, (1 : ℚ)].getD t 0 := by
  rcases t with _ | _ | _ | t <;> simp [Polynomial.coeff_X_pow, Polynomial.coeff_C]

theorem coeff_bp_den_list (s : ℚ) (t : Nat) :
    (Polynomial.C s * (X : ℚ[X])).coeff t = [0, s, (0 : ℚ)].getD t 0 := by
  rcases t with _ | _ | _ | t <;> simp [Polynomial.coeff_X, Polynomial.coeff_C]

/-- C9 as stated fails: at `ord = 11585`, `w0 = wpl = 1`, `wph = 2` the scratch byte count
`11586 * 23171 * 8` exceeds `2^31 - 1` and is negative as an `int`, the scratch arrays do
not exist and `low2bp` does not return `RES_OK`. -/
theorem low2bp_coefficients_unbounded_fails :
    ¬ ∀ (ord : Nat), 1 ≤ ord → ∀ (w0 wpl wph : ℚ), 0 < w0 → 0 < wpl → wpl < wph →
      ∀ (b a beta alpha : List ℚ), b.length = ord + 1 → a.length = ord + 1 →
      beta.length = 2 * ord + 1 → alpha.length = 2 * ord + 1 →
      ∃ β α, low2bp (some b) (some a) (ord : Int) w0 wpl wph (some beta) (some alpha)
          = some ⟨RES_OK, some β, some α⟩ ∧
        β.length = 2 * ord + 1 ∧ α.length = 2 * ord + 1 ∧
        ∀ k,
          β.getD k 0 = (∑ i in Finset.range (ord + 1), Polynomial.C (b.getD i 0) *
            ((X : ℚ[X]) ^ 2 + Polynomial.C (wph * wpl / w0 ^ 2)) ^ i *
            (Polynomial.C ((wph - wpl) / w0) * X) ^ (ord - i)).coeff k ∧
          α.getD k 0 = (∑ i in Finset.range (ord + 1), Polynomial.C (a.getD i 0) *
            ((X : ℚ[X]) ^ 2 + Polynomial.C (wph * wpl / w0 ^ 2)) ^ i *
            (Polynomial.C ((wph - wpl) / w0) * X) ^ (ord - i)).coeff k := by
  intro h
  obtain ⟨β, α, hr, -⟩ := h 11585 (by decide) 1 1 2 one_pos one_pos one_lt_two
    (List.replicate 11586 1) (List.replicate 11586 1) (List.replicate 23171 0)
    (List.replicate 23171 0) (List.length_replicate _ _) (List.length_replicate _ _)
    (List.length_replicate _ _) (List.length_replicate _ _)
  have hf := low2bp_wrap_fault (List.replicate 11586 1) (List.replicate 11586 1)
    (List.replicate 23171 0) (List.replicate 23171 0) ((11585 : Nat) : Int) 1 1 2 (by decide)
    one_pos one_pos one_lt_two (by decide)
  exact Option.noConfusion (hf.symm.trans hr)

/-- C9, amended, in exact arithmetic: `low2bp` realises the substitution
`x = (y^2 + wph*wpl/w0^2) / (((wph-wpl)/w0) * y)`. For `ord ≥ 1` whose scratch byte count
`(ord+1)*(2*ord+1)*8` fits an `int` (the allocations being served), `w0 > 0`, `0 < wpl < wph`
and `b`, `a` of length `ord+1` it returns `RES_OK` with exactly `2*ord+1` output coefficients,
`beta` the coefficients of
`Σ_{i=0..ord} b[i] * (y^2 + wph*wpl/w0^2)^i * (((wph-wpl)/w0) * y)^(ord-i)` and `alpha` those of
the same sum with `a[i]`. -/
theorem low2bp_coefficients (ord : Nat) (hord : 1 ≤ ord)
    (hfit : (ord + 1) * (2 * ord + 1) * 8 < 2 ^ 31) (w0 wpl wph : ℚ) (hw0 : 0 < w0)
    (hwpl : 0 < wpl) (hwph : wpl < wph) (b a beta alpha : List ℚ)
    (hb : b.length = ord + 1) (ha : a.length = ord + 1)
    (hbeta : beta.length = 2 * ord + 1) (halpha : alpha.length = 2 * ord + 1) :
    ∃ β α, low2bp (some b) (some a) (ord : Int) w0 wpl wph (some beta) (some alpha)
        = some ⟨RES_OK, some β, some α⟩ ∧
      β.length = 2 * ord + 1 ∧ α.length = 2 * ord + 1 ∧
      ∀ k,
        β.getD k 0 = (∑ i in Finset.range (ord + 1), Polynomial.C (b.getD i 0) *
          ((X : ℚ[X]) ^ 2 + Polynomial.C (wph * wpl / w0 ^ 2)) ^ i *
          (Polynomial.C ((wph - wpl) / w0) * X) ^ (ord - i)).coeff k ∧
        α.getD k 0 = (∑ i in Finset.range (ord + 1), Polynomial.C (a.getD i 0) *
          ((X : ℚ[X]) ^ 2 + Polynomial.C (wph * wpl / w0 ^ 2)) ^ i *
          (Polynomial.C ((wph - wpl) / w0) * X) ^ (ord - i)).coeff k := by
  have hcall := low2bp_eq b a beta alpha (ord : Int) w0 wpl wph (by omega) hw0 hwpl hwph
  have hsq : w0 * w0 = w0 ^ 2 := by ring
  rw [hsq] at hcall
  obtain ⟨β, α, h, l1, l2, r⟩ := ratcompos_poly ord 2 hord (by decide)
    (by rw [Nat.mul_comm ord 2]; exact hfit) b a
    [wph * wpl / w0 ^ 2, 0, 1] [0, (wph - wpl) / w0, 0] beta alpha hb ha rfl rfl
    (by omega) (by omega) ((X : ℚ[X]) ^ 2 + Polynomial.C (wph * wpl / w0 ^ 2))
    (Polynomial.C ((wph - wpl) / w0) * X) (coeff_bp_num_list _) (coeff_bp_den_list _)
  simp only [Nat.cast_ofNat] at h
  exact ⟨β, α, hcall.trans h, by omega, by omega, r⟩

/-- Witness of C9 at `ord = 1`, `w0 = 1`, `wpl = 1`, `wph = 2`. -/
theorem low2bp_coefficients_witness :
    ∃ β α, low2bp (some [1, 2]) (some [3, 4]) ((1 : Nat) : Int) 1 1 2
        (some [0, 0, 0]) (some [0, 0, 0]) = some ⟨RES_OK, some β, some α⟩ ∧
      β.length = 2 * 1 + 1 ∧ α.length = 2 * 1 + 1 ∧
      ∀ k,
        β.getD k 0 = (∑ i in Finset.range (1 + 1), Polynomial.C ([1, (2 : ℚ)].getD i 0) *
          ((X : ℚ[X]) ^ 2 + Polynomial.C (2 * 1 / 1 ^ 2)) ^ i *
          (Polynomial.C ((2 - 1) / 1) * X) ^ (1 - i)).coeff k ∧
        α.getD k 0 = (∑ i in Finset.range (1 + 1), Polynomial.C ([3, (4 : ℚ)].getD i 0) *
          ((X : ℚ[X]) ^ 2 + Polynomial.C (2 * 1 / 1 ^ 2)) ^ i *
          (Polynomial.C ((2 - 1) / 1) * X) ^ (1 - i)).coeff k :=
  low2bp_coefficients 1 (by decide) (by decide) 1 1 2 (by norm_num) (by norm_num)
    (by norm_num) [1, 2] [3, 4] [0, 0, 0] [0, 0, 0] rfl rfl rfl rfl

/-- A `ratcompos` call on non-null arrays of sufficient size with `n ≥ 1`, `p ≥ 1`
returns `RES_OK`. -/
theorem ratcompos_res_ok (n p : Nat) (hn : 1 ≤ n) (hp : 1 ≤ p)
    (hfit : (n + 1) * (n * p + 1) * 8 < 2 ^ 31) (b a c d beta alpha : List ℚ)
    (hb : n + 1 ≤ b.length) (ha : n + 1 ≤ a.length)
    (hc : c.length = p + 1) (hd : d.length = p + 1)
    (hbeta : n * p + 1 ≤ beta.length) (halpha : n * p + 1 ≤ alpha.length) :
    (ratcompos (some b) (some a) (n : Int) (some c) (some d) (p : Int)
      (some beta) (some alpha)).map Out.res = some RES_OK := by
  obtain ⟨C, hC⟩ := exists_poly c
  obtain ⟨D, hD⟩ := exists_poly d
  obtain ⟨β, α, h, -⟩ := ratcompos_ok n p hn hp hfit b a c d beta alpha hb ha (by omega)
    (by omega)
    hbeta halpha C D (coeff_take c C hC (p + 1) (by omega)) (coeff_take d D hD (p + 1) (by omega))
  rw [h]; rfl

/-- A non-null array of `m` equal entries holds any count up to `m`. -/
theorem holds_replicate (m : Nat) (x : ℚ) (k : Int) (h : k ≤ m) :
    holds (some (List.replicate m x)) k = true := by
  unfold holds
  simp only [List.length_replicate]
  exact decide_eq_true h

/-- C10 as stated fails: with non-null arrays, `ord = 16383` and all frequencies positive
every check passes, but the scratch byte count `16384 * 16384 * 8 = 2^31` is negative as an
`int`, the scratch arrays do not exist and `low2low` does not return `RES_OK`. -/
theorem transforms_validation_unbounded_fails :
    ¬ ∀ (b a beta alpha beta2 alpha2 : Option (List ℚ)) (ord : Int) (w0 w1 wpl wph : ℚ),
      (1 ≤ ord → holds b (ord + 1) = true) → (1 ≤ ord → holds a (ord + 1) = true) →
      (1 ≤ ord → holds beta (ord + 1) = true) → (1 ≤ ord → holds alpha (ord + 1) = true) →
      (1 ≤ ord → holds beta2 (2 * ord + 1) = true) →
      (1 ≤ ord → holds alpha2 (2 * ord + 1) = true) →
      (low2low b a ord w0 w1 beta alpha).map Out.res = some
        (if b = none ∨ a = none ∨ beta = none ∨ alpha = none then ERROR_PTR
         else if ord < 1 then ERROR_FILTER_ORD
         else if w0 ≤ 0 ∨ w1 ≤ 0 then ERROR_FILTER_FT
         else RES_OK) ∧
      (low2high b a ord w0 w1 beta alpha).map Out.res = some
        (if b = none ∨ a = none ∨ beta = none ∨ alpha = none then ERROR_PTR
         else if ord < 1 then ERROR_FILTER_ORD
         else if w0 ≤ 0 ∨ w1 ≤ 0 then ERROR_FILTER_FT
         else RES_OK) ∧
      (low2bp b a ord w0 wpl wph beta2 alpha2).map Out.res = some
        (if b = none ∨ a = none ∨ beta2 = none ∨ alpha2 = none then ERROR_PTR
         else if ord < 1 then ERROR_FILTER_ORD
         else if w0 ≤ 0 ∨ wpl ≤ 0 ∨ wph ≤ 0 ∨ wph ≤ wpl then ERROR_FILTER_FT
         else RES_OK) := by
  intro h
  obtain ⟨h1, -⟩ := h (some (List.replicate 16384 1)) (some (List.replicate 16384 1))
    (some (List.replicate 16384 0)) (some (List.replicate 16384 0))
    (some (List.replicate 32767 0)) (some (List.replicate 32767 0)) 16383 1 1 1 2
    (fun _ => holds_replicate _ _ _ (by decide)) (fun _ => holds_replicate _ _ _ (by decide))
    (fun _ => holds_replicate _ _ _ (by decide)) (fun _ => holds_replicate _ _ _ (by decide))
    (fun _ => holds_replicate _ _ _ (by decide)) (fun _ => holds_replicate _ _ _ (by decide))
  rw [low2low_wrap_fault (List.replicate 16384 1) (List.replicate 16384 1)
    (List.replicate 16384 0) (List.replicate 16384 0) 16383 1 1 (by decide) one_pos one_pos
    (by decide)] at h1
  exact Option.noConfusion h1

/-- C10, amended: validation of the three frequency transforms, for frequencies that are
numbers, in this priority: `ERROR_PTR` if one of `b`, `a`, `beta`, `alpha` is null;
otherwise `ERROR_FILTER_ORD` if `ord < 1`; otherwise `ERROR_FILTER_FT` if a frequency is
non-positive (or, for `low2bp`, if `wph ≤ wpl`); otherwise `RES_OK`, the scratch byte count
of the order fitting an `int` (`(ord+1)*(ord+1)*8` for `low2low` and `low2high`,
`(ord+1)*(2*ord+1)*8` for `low2bp`; the allocations being served): the bound is asked only
of the calls that pass every check. The arrays, where not
null, hold what the order asks for: `ord+1` inputs, and `ord+1` outputs for `low2low` and
`low2high` (`beta`, `alpha`), `2*ord+1` outputs for `low2bp` (`beta2`, `alpha2`). -/
theorem transforms_validation (b a beta alpha beta2 alpha2 : Option (List ℚ)) (ord : Int)
    (w0 w1 wpl wph : ℚ)
    (hfit : ¬ (b = none ∨ a = none ∨ beta = none ∨ alpha = none) → ¬ ord < 1 →
      ¬ (w0 ≤ 0 ∨ w1 ≤ 0) → (ord + 1) * (ord + 1) * 8 < 2 ^ 31)
    (hfit2 : ¬ (b = none ∨ a = none ∨ beta2 = none ∨ alpha2 = none) → ¬ ord < 1 →
      ¬ (w0 ≤ 0 ∨ wpl ≤ 0 ∨ wph ≤ 0 ∨ wph ≤ wpl) → (ord + 1) * (2 * ord + 1) * 8 < 2 ^ 31)
    (hb : 1 ≤ ord → holds b (ord + 1) = true) (ha : 1 ≤ ord → holds a (ord + 1) = true)
    (hbeta : 1 ≤ ord → holds beta (ord + 1) = true)
    (halpha : 1 ≤ ord → holds alpha (ord + 1) = true)
    (hbeta2 : 1 ≤ ord → holds beta2 (2 * ord + 1) = true)
    (halpha2 : 1 ≤ ord → holds alpha2 (2 * ord + 1) = true) :
    (low2low b a ord w0 w1 beta alpha).map Out.res = some
      (if b = none ∨ a = none ∨ beta = none ∨ alpha = none then ERROR_PTR
       else if ord < 1 then ERROR_FILTER_ORD
       else if w0 ≤ 0 ∨ w1 ≤ 0 then ERROR_FILTER_FT
       else RES_OK) ∧
    (low2high b a ord w0 w1 beta alpha).map Out.res = some
      (if b = none ∨ a = none ∨ beta = none ∨ alpha = none then ERROR_PTR
       else if ord < 1 then ERROR_FILTER_ORD
       else if w0 ≤ 0 ∨ w1 ≤ 0 then ERROR_FILTER_FT
       else RES_OK) ∧
    (low2bp b a ord w0 wpl wph beta2 alpha2).map Out.res = some
      (if b = none ∨ a = none ∨ beta2 = none ∨ alpha2 = none then ERROR_PTR
       else if ord < 1 then ERROR_FILTER_ORD
       else if w0 ≤ 0 ∨ wpl ≤ 0 ∨ wph ≤ 0 ∨ wph ≤ wpl then ERROR_FILTER_FT
       else RES_OK) := by
  rcases b with _ | b
  · simp [low2low, low2high, low2bp]
  rcases a with _ | a
  · simp [low2low, low2high, low2bp]
  have part1 : (low2low (some b) (some a) ord w0 w1 beta alpha).map Out.res = some
      (if beta = none ∨ alpha = none then ERROR_PTR
       else if ord < 1 then ERROR_FILTER_ORD
       else if w0 ≤ 0 ∨ w1 ≤ 0 then ERROR_FILTER_FT
       else RES_OK) := by
    rcases beta with _ | beta
    · simp [low2low]
    rcases alpha with _ | alpha
    · simp [low2low]
    by_cases h1 : ord < 1
    · simp [low2low, h1]
    have h1' : 1 ≤ ord := by omega
    obtain ⟨n, rfl⟩ := Int.eq_ofNat_of_zero_le (show 0 ≤ ord by omega)
    have sb := hb h1'
    have sa := ha h1'
    have sbeta := hbeta h1'
    have salpha := halpha h1'
    simp only [holds, decide_eq_true_eq] at sb sa sbeta salpha
    simp only [reduceCtorEq, or_self, if_false, h1]
    by_cases hf : w0 ≤ 0 ∨ w1 ≤ 0
    · simp [low2low, h1, hf]
    · rw [if_neg hf]
      have hsz : (n + 1) * (n * 1 + 1) * 8 < 2 ^ 31 := by
        have := hfit (by simp) h1 hf
        rw [Nat.mul_one]
        exact_mod_cast this
      push_neg at hf
      rw [low2low_eq b a beta alpha _ w0 w1 h1' hf.1 hf.2]
      have := ratcompos_res_ok n 1 (by omega) le_rfl hsz b a [0, 1] [w1 / w0, 0] beta alpha
        (by omega) (by omega) rfl rfl (by omega) (by omega)
      simpa only [Nat.cast_one] using this
  have part2 : (low2high (some b) (some a) ord w0 w1 beta alpha).map Out.res = some
      (if beta = none ∨ alpha = none then ERROR_PTR
       else if ord < 1 then ERROR_FILTER_ORD
       else if w0 ≤ 0 ∨ w1 ≤ 0 then ERROR_FILTER_FT
       else RES_OK) := by
    rcases beta with _ | beta
    · simp [low2high]
    rcases alpha with _ | alpha
    · simp [low2high]
    by_cases h1 : ord < 1
    · simp [low2high, h1]
    have h1' : 1 ≤ ord := by omega
    obtain ⟨n, rfl⟩ := Int.eq_ofNat_of_zero_le (show 0 ≤ ord by omega)
    have sb := hb h1'
    have sa := ha h1'
    have sbeta := hbeta h1'
    have salpha := halpha h1'
    simp only [holds, decide_eq_true_eq] at sb sa sbeta salpha
    simp only [reduceCtorEq, or_self, if_false, h1]
    by_cases hf : w0 ≤ 0 ∨ w1 ≤ 0
    · simp [low2high, h1, hf]
    · rw [if_neg hf]
      have hsz : (n + 1) * (n * 1 + 1) * 8 < 2 ^ 31 := by
        have := hfit (by simp) h1 hf
        rw [Nat.mul_one]
        exact_mod_cast this
      push_neg at hf
      rw [low2high_eq b a beta alpha _ w0 w1 h1' hf.1 hf.2]
      have := ratcompos_res_ok n 1 (by omega) le_rfl hsz b a [w1 / w0, 0] [0, 1] beta alpha
        (by omega) (by omega) rfl rfl (by omega) (by omega)
      simpa only [Nat.cast_one] using this
  have part3 : (low2bp (some b) (some a) ord w0 wpl wph beta2 alpha2).map Out.res = some
      (if beta2 = none ∨ alpha2 = none then ERROR_PTR
       else if ord < 1 then ERROR_FILTER_ORD
       else if w0 ≤ 0 ∨ wpl ≤ 0 ∨ wph ≤ 0 ∨ wph ≤ wpl then ERROR_FILTER_FT
       else RES_OK) := by
    rcases beta2 with _ | beta2
    · simp [low2bp]
    rcases alpha2 with _ | alpha2
    · simp [low2bp]
    by_cases h1 : ord < 1
    · simp [low2bp, h1]
    have h1' : 1 ≤ ord := by omega
    obtain ⟨n, rfl⟩ := Int.eq_ofNat_of_zero_le (show 0 ≤ ord by omega)
    have sb := hb h1'
    have sa := ha h1'
    have sbeta := hbeta2 h1'
    have salpha := halpha2 h1'
    simp only [holds, decide_eq_true_eq] at sb sa sbeta salpha
    simp only [reduceCtorEq, or_self, if_false, h1]
    by_cases hf : w0 ≤ 0 ∨ wpl ≤ 0 ∨ wph ≤ 0 ∨ wph ≤ wpl
    · simp [low2bp, h1, hf]
    · rw [if_neg hf]
      have hsz : (n + 1) * (n * 2 + 1) * 8 < 2 ^ 31 := by
        have := hfit2 (by simp) h1 hf
        rw [Nat.mul_comm n 2]
        exact_mod_cast this
      push_neg at hf
      rw [low2bp_eq b a beta2 alpha2 _ w0 wpl wph h1' hf.1 hf.2.1 hf.2.2.2]
      have := ratcompos_res_ok n 2 (by omega) (by decide) hsz b a
        [(wph * wpl) / (w0 * w0), 0, 1] [0, (wph - wpl) / w0, 0] beta2 alpha2
        (by omega) (by omega) rfl rfl (by omega) (by omega)
      simpa only [Nat.cast_ofNat] using this
  simpa only [reduceCtorEq, false_or] using And.intro part1 (And.intro part2 part3)

/-- Witness of C10 at `ord = 1`: two inputs, two outputs for `low2low` and `low2high`,
three outputs for `low2bp`. -/
theorem transforms_validation_witness :
    (low2low (some [1, 2]) (some [3, 4]) 1 1 1 (some [0, 0]) (some [0, 0])).map Out.res
      = some
      (if (some [1, 2] : Option (List ℚ)) = none ∨ (some [3, 4] : Option (List ℚ)) = none ∨
          (some [0, 0] : Option (List ℚ)) = none ∨
          (some [0, 0] : Option (List ℚ)) = none then ERROR_PTR
       else if (1 : Int) < 1 then ERROR_FILTER_ORD
       else if (1 : ℚ) ≤ 0 ∨ (1 : ℚ) ≤ 0 then ERROR_FILTER_FT
       else RES_OK) ∧
    (low2high (some [1, 2]) (some [3, 4]) 1 1 1 (some [0, 0]) (some [0, 0])).map Out.res
      = some
      (if (some [1, 2] : Option (List ℚ)) = none ∨ (some [3, 4] : Option (List ℚ)) = none ∨
          (some [0, 0] : Option (List ℚ)) = none ∨
          (some [0, 0] : Option (List ℚ)) = none then ERROR_PTR
       else if (1 : Int) < 1 then ERROR_FILTER_ORD
       else if (1 : ℚ) ≤ 0 ∨ (1 : ℚ) ≤ 0 then ERROR_FILTER_FT
       else RES_OK) ∧
    (low2bp (some [1, 2]) (some [3, 4]) 1 1 2 3 (some [0, 0, 0]) (some [0, 0, 0])).map Out.res
      = some
      (if (some [1, 2] : Option (List ℚ)) = none ∨ (some [3, 4] : Option (List ℚ)) = none ∨
          (some [0, 0, 0] : Option (List ℚ)) = none ∨
          (some [0, 0, 0] : Option (List ℚ)) = none then ERROR_PTR
       else if (1 : Int) < 1 then ERROR_FILTER_ORD
       else if (1 : ℚ) ≤ 0 ∨ (2 : ℚ) ≤ 0 ∨ (3 : ℚ) ≤ 0 ∨ (3 : ℚ) ≤ 2 then ERROR_FILTER_FT
       else RES_OK) :=
  transforms_validation (some [1, 2]) (some [3, 4]) (some [0, 0]) (some [0, 0])
    (some [0, 0, 0]) (some [0, 0, 0]) 1 1 1 2 3 (fun _ _ _ => by decide)
    (fun _ _ _ => by decide)
    (by decide) (by decide) (by decide) (by decide) (by decide) (by decide)

/-! ## Status of `ratcompos` and `bilinear` -/

/-- A `ratcompos` call on non-null arrays that hold at least what the orders ask for, with
`n ≥ 1` and `p ≥ 1`, returns `RES_OK`. -/
theorem ratcompos_res_ok_ge (n p : Nat) (hn : 1 ≤ n) (hp : 1 ≤ p)
    (hfit : (n + 1) * (n * p + 1) * 8 < 2 ^ 31)
    (b a c d beta alpha : List ℚ)
    (hb : n + 1 ≤ b.length) (ha : n + 1 ≤ a.length)
    (hc : p + 1 ≤ c.length) (hd : p + 1 ≤ d.length)
    (hbeta : n * p + 1 ≤ beta.length) (halpha : n * p + 1 ≤ alpha.length) :
    (ratcompos (some b) (some a) (n : Int) (some c) (some d) (p : Int)
      (some beta) (some alpha)).map Out.res = some RES_OK := by
  obtain ⟨C, hC⟩ := exists_poly ((c.drop 0).take (p + 1))
  obtain ⟨D, hD⟩ := exists_poly ((d.drop 0).take (p + 1))
  obtain ⟨β, α, h, -⟩ := ratcompos_ok n p hn hp hfit b a c d beta alpha hb ha hc hd
    hbeta halpha C D (fun t => by rw [hC t, getD_slice, Nat.zero_add])
    (fun t => by rw [hD t, getD_slice, Nat.zero_add])
  rw [h]; rfl

/-- C11 as stated fails: with six non-null arrays, `n = 16383` and `p = 1` neither error
applies, but the scratch byte count `16384 * 16384 * 8 = 2^31` is negative as an `int`,
the scratch arrays do not exist and `ratcompos` does not return `RES_OK`. -/
theorem ratcompos_bilinear_status_unbounded_fails :
    ¬ ∀ (b a c d beta alpha : Option (List ℚ)) (n p : Int)
      (bs as bz az : Option (List ℚ)) (ord : Int),
      (1 ≤ n → 1 ≤ p → holds b (n + 1) = true) →
      (1 ≤ n → 1 ≤ p → holds a (n + 1) = true) →
      (1 ≤ n → 1 ≤ p → holds c (p + 1) = true) →
      (1 ≤ n → 1 ≤ p → holds d (p + 1) = true) →
      (1 ≤ n → 1 ≤ p → holds beta (n * p + 1) = true) →
      (1 ≤ n → 1 ≤ p → holds alpha (n * p + 1) = true) →
      (1 ≤ ord → holds bs (ord + 1) = true) → (1 ≤ ord → holds as (ord + 1) = true) →
      (1 ≤ ord → holds bz (ord + 1) = true) → (1 ≤ ord → holds az (ord + 1) = true) →
      ((ratcompos b a n c d p beta alpha).map Out.res = some
        (if b = none ∨ a = none ∨ c = none ∨ d = none ∨ beta = none ∨ alpha = none
          then ERROR_PTR
         else if n < 1 ∨ p < 1 then ERROR_SIZE
         else RES_OK)) ∧
      ((bilinear bs as ord bz az).map Out.res = some
        (if bs = none ∨ as = none ∨ bz = none ∨ az = none then ERROR_PTR
         else if ord < 1 then ERROR_SIZE
         else RES_OK)) := by
  intro h
  obtain ⟨h1, -⟩ := h (some (List.replicate 16384 1)) (some (List.replicate 16384 1))
    (some [0, 1]) (some [1, 0]) (some (List.replicate 16384 0))
    (some (List.replicate 16384 0)) 16383 1 (some [1, 2]) (some [3, 4]) (some [0, 0])
    (some [0, 0]) 1
    (fun _ _ => holds_replicate _ _ _ (by decide))
    (fun _ _ => holds_replicate _ _ _ (by decide)) (fun _ _ => by decide)
    (fun _ _ => by decide) (fun _ _ => holds_replicate _ _ _ (by decide))
    (fun _ _ => holds_replicate _ _ _ (by decide))
    (fun _ => by decide) (fun _ => by decide) (fun _ => by decide) (fun _ => by decide)
  rw [ratcompos_wrap_fault (List.replicate 16384 1) (List.replicate 16384 1) [0, 1] [1, 0]
    (List.replicate 16384 0) (List.replicate 16384 0) 16383 1 (by decide) (by decide)
    (by decide)] at h1
  exact Option.noConfusion h1

/-- C11, amended: `ratcompos` returns `ERROR_PTR` exactly when one of `b`, `a`, `c`, `d`,
`beta`, `alpha` is null (whatever `n` and `p`), `ERROR_SIZE` exactly when all six are
non-null and `n < 1` or `p < 1`, and `RES_OK` in every other case, the scratch byte count
`(n+1)*(n*p+1)*8` fitting an `int` (the allocations being served); `bilinear` adds no
validation: `ERROR_PTR` exactly when one of `bs`, `as`, `bz`, `az` is null, `ERROR_SIZE`
exactly when they are all non-null and `ord < 1`, and `RES_OK` otherwise, the byte count
`(ord+1)*(ord+1)*8` fitting an `int`; the bound is asked only of the calls that pass both
checks. The arrays, where not null, hold what the orders ask
for (`n+1`, `p+1` and `n*p+1` entries). -/
theorem ratcompos_bilinear_status (b a c d beta alpha : Option (List ℚ)) (n p : Int)
    (bs as bz az : Option (List ℚ)) (ord : Int)
    (hfit : ¬ (b = none ∨ a = none ∨ c = none ∨ d = none ∨ beta = none ∨ alpha = none) →
      ¬ (n < 1 ∨ p < 1) → (n + 1) * (n * p + 1) * 8 < 2 ^ 31)
    (hfitz : ¬ (bs = none ∨ as = none ∨ bz = none ∨ az = none) → ¬ ord < 1 →
      (ord + 1) * (ord + 1) * 8 < 2 ^ 31)
    (hb : 1 ≤ n → 1 ≤ p → holds b (n + 1) = true)
    (ha : 1 ≤ n → 1 ≤ p → holds a (n + 1) = true)
    (hc : 1 ≤ n → 1 ≤ p → holds c (p + 1) = true)
    (hd : 1 ≤ n → 1 ≤ p → holds d (p + 1) = true)
    (hbeta : 1 ≤ n → 1 ≤ p → holds beta (n * p + 1) = true)
    (halpha : 1 ≤ n → 1 ≤ p → holds alpha (n * p + 1) = true)
    (hbs : 1 ≤ ord → holds bs (ord + 1) = true) (has : 1 ≤ ord → holds as (ord + 1) = true)
    (hbz : 1 ≤ ord → holds bz (ord + 1) = true) (haz : 1 ≤ ord → holds az (ord + 1) = true) :
    ((ratcompos b a n c d p beta alpha).map Out.res = some
      (if b = none ∨ a = none ∨ c = none ∨ d = none ∨ beta = none ∨ alpha = none then ERROR_PTR
       else if n < 1 ∨ p < 1 then ERROR_SIZE
       else RES_OK)) ∧
    ((bilinear bs as ord bz az).map Out.res = some
      (if bs = none ∨ as = none ∨ bz = none ∨ az = none then ERROR_PTR
       else if ord < 1 then ERROR_SIZE
       else RES_OK)) := by
  have main : ∀ (b a c d beta alpha : Option (List ℚ)) (n p : Int),
      (¬ (b = none ∨ a = none ∨ c = none ∨ d = none ∨ beta = none ∨ alpha = none) →
        ¬ (n < 1 ∨ p < 1) → (n + 1) * (n * p + 1) * 8 < 2 ^ 31) →
      (1 ≤ n → 1 ≤ p → holds b (n + 1) = true) → (1 ≤ n → 1 ≤ p → holds a (n + 1) = true) →
      (1 ≤ n → 1 ≤ p → holds c (p + 1) = true) → (1 ≤ n → 1 ≤ p → holds d (p + 1) = true) →
      (1 ≤ n → 1 ≤ p → holds beta (n * p + 1) = true) →
      (1 ≤ n → 1 ≤ p → holds alpha (n * p + 1) = true) →
      (ratcompos b a n c d p beta alpha).map Out.res = some
        (if b = none ∨ a = none ∨ c = none ∨ d = none ∨ beta = none ∨ alpha = none
          then ERROR_PTR
         else if n < 1 ∨ p < 1 then ERROR_SIZE
         else RES_OK) := by
    intro b a c d beta alpha n p hfit hb ha hc hd hbeta halpha
    rcases b with _ | b
    · rcases a with _ | a <;> simp [ratcompos]
    rcases a with _ | a
    · simp [ratcompos]
    rcases c with _ | c
    · simp [ratcompos]
    rcases d with _ | d
    · simp [ratcompos]
    rcases beta with _ | beta
    · simp [ratcompos]
    rcases alpha with _ | alpha
    · simp [ratcompos]
    by_cases h1 : n < 1 ∨ p < 1
    · simp [ratcompos, h1]
    have hn : 1 ≤ n := by omega
    have hp : 1 ≤ p := by omega
    obtain ⟨N, rfl⟩ := Int.eq_ofNat_of_zero_le (show 0 ≤ n by omega)
    obtain ⟨P, rfl⟩ := Int.eq_ofNat_of_zero_le (show 0 ≤ p by omega)
    have hsz : (N + 1) * (N * P + 1) * 8 < 2 ^ 31 := by
      have := hfit (by simp) h1
      exact_mod_cast this
    have sb := hb hn hp
    have sa := ha hn hp
    have sc := hc hn hp
    have sd := hd hn hp
    have sbeta := hbeta hn hp
    have salpha := halpha hn hp
    simp only [holds, decide_eq_true_eq] at sb sa sc sd sbeta salpha
    have e1 : N * P + 1 ≤ beta.length := by
      have : ((N * P + 1 : Nat) : Int) ≤ (beta.length : Int) := by push_cast; exact sbeta
      exact_mod_cast this
    have e2 : N * P + 1 ≤ alpha.length := by
      have : ((N * P + 1 : Nat) : Int) ≤ (alpha.length : Int) := by push_cast; exact salpha
      exact_mod_cast this
    simp only [reduceCtorEq, or_self, if_false, h1]
    exact ratcompos_res_ok_ge N P (by omega) (by omega) hsz b a c d beta alpha (by omega)
      (by omega) (by omega) (by omega) e1 e2
  refine ⟨main b a c d beta alpha n p hfit hb ha hc hd hbeta halpha, ?_⟩
  have := main bs as (some [1, -1]) (some [1, 1]) bz az ord 1
    (fun h1 h2 => by
      rw [mul_one]
      exact hfitz (fun h => h1 (by rcases h with h | h | h | h <;> simp [h]))
        (fun h => h2 (Or.inl h)))
    (fun h _ => hbs h) (fun h _ => has h) (fun _ _ => by decide) (fun _ _ => by decide)
    (fun h _ => by simpa using hbz h) (fun h _ => by simpa using haz h)
  simpa only [reduceCtorEq, false_or, or_false, show ¬ ((1 : Int) < 1) by decide] using this

/-- Witness of C11: a well-formed `ratcompos` call (`n = 1`, `p = 2`) and a `bilinear` call
with a null output. -/
theorem ratcompos_bilinear_status_witness :
    ((ratcompos (some [1, 2]) (some [3, 4]) 1 (some [1, 0, 1]) (some [0, 1, 0]) 2
        (some [0, 0, 0]) (some [0, 0, 0])).map Out.res = some
      (if (some [1, 2] : Option (List ℚ)) = none ∨ (some [3, 4] : Option (List ℚ)) = none ∨
          (some [1, 0, 1] : Option (List ℚ)) = none ∨
          (some [0, 1, 0] : Option (List ℚ)) = none ∨
          (some [0, 0, 0] : Option (List ℚ)) = none ∨
          (some [0, 0, 0] : Option (List ℚ)) = none then ERROR_PTR
       else if (1 : Int) < 1 ∨ (2 : Int) < 1 then ERROR_SIZE
       else RES_OK)) ∧
    ((bilinear (some [1, 2]) (some [3, 4]) 1 none (some [0, 0])).map Out.res = some
      (if (some [1, 2] : Option (List ℚ)) = none ∨ (some [3, 4] : Option (List ℚ)) = none ∨
          (none : Option (List ℚ)) = none ∨ (some [0, 0] : Option (List ℚ)) = none
        then ERROR_PTR
       else if (1 : Int) < 1 then ERROR_SIZE
       else RES_OK)) :=
  ratcompos_bilinear_status (some [1, 2]) (some [3, 4]) (some [1, 0, 1]) (some [0, 1, 0])
    (some [0, 0, 0]) (some [0, 0, 0]) 1 2 (some [1, 2]) (some [3, 4]) none (some [0, 0]) 1
    (fun _ _ => by decide) (fun _ _ => by decide)
    (by decide) (by decide) (by decide) (by decide) (by decide) (by decide)
    (by decide) (by decide) (by decide) (by decide)

/-! ## `iir`: error paths -/

theorem tmod_two_ne_zero (ord : Int) (h : ord % 2 = 1) : Int.tmod ord 2 ≠ 0 := by
  intro h0
  have := Int.dvd_iff_tmod_eq_zero.mpr h0
  omega

theorem tmod_two_eq_zero (ord : Int) (h : ord % 2 = 0) : Int.tmod ord 2 = 0 :=
  Int.dvd_iff_tmod_eq_zero.mp (Int.dvd_of_emod_eq_zero h)

theorem iirAlloc_odd (E : Ext) (ord type : Int)
    (hshape : Int.land type E.DSPL_FILTER_TYPE_MASK = E.DSPL_FILTER_BPASS ∨
      Int.land type E.DSPL_FILTER_TYPE_MASK = E.DSPL_FILTER_BSTOP)
    (hodd : ord % 2 = 1) : iirAlloc E ord type = Except.error ERROR_FILTER_ORD_BP := by
  simp only [iirAlloc, if_pos hshape, if_pos (tmod_two_ne_zero ord hodd)]

theorem iirAlloc_even (E : Ext) (ord type : Int)
    (hshape : Int.land type E.DSPL_FILTER_TYPE_MASK = E.DSPL_FILTER_BPASS ∨
      Int.land type E.DSPL_FILTER_TYPE_MASK = E.DSPL_FILTER_BSTOP)
    (heven : ord % 2 = 0) :
    iirAlloc E ord type = Except.ok ⟨malloc E.junk (Int.tdiv ord 2 + 1),
      malloc E.junk (Int.tdiv ord 2 + 1), malloc E.junk (ord + 1), malloc E.junk (ord + 1),
      Int.tdiv ord 2⟩ := by
  simp only [iirAlloc, if_pos hshape, tmod_two_eq_zero ord heven, ne_eq, not_true_eq_false,
    if_false]

theorem iirAlloc_low (E : Ext) (ord type : Int)
    (hshape : Int.land type E.DSPL_FILTER_TYPE_MASK = E.DSPL_FILTER_LPF ∨
      Int.land type E.DSPL_FILTER_TYPE_MASK = E.DSPL_FILTER_HPF)
    (h1 : Int.land type E.DSPL_FILTER_TYPE_MASK ≠ E.DSPL_FILTER_BPASS)
    (h2 : Int.land type E.DSPL_FILTER_TYPE_MASK ≠ E.DSPL_FILTER_BSTOP) :
    iirAlloc E ord type = Except.ok ⟨malloc E.junk (ord + 1), malloc E.junk (ord + 1),
      malloc E.junk (ord + 1), malloc E.junk (ord + 1), ord⟩ := by
  simp only [iirAlloc, if_pos hshape, h1, h2, or_self, if_false]

/-- C12: bandpass order parity. For every call of `iir` whose shape bits are bandpass or
bandstop and whose `ord` is odd (`ord % 2 = 1` with the non-negative remainder, so positive
or negative), `iir` returns `ERROR_FILTER_ORD_BP`, whatever the other arguments, the
prototype generators and the output pointers are; the status is decided in the allocation
part, before the prototype dispatcher, the frequency transforms and `bilinear`, and the
output arrays are as before the call. -/
theorem iir_bandpass_odd_order (E : Ext) (rp rs : ℚ) (ord : Int) (w0 w1 : ℚ) (type : Int)
    (b a : Option (List ℚ))
    (hshape : Int.land type E.DSPL_FILTER_TYPE_MASK = E.DSPL_FILTER_BPASS ∨
      Int.land type E.DSPL_FILTER_TYPE_MASK = E.DSPL_FILTER_BSTOP)
    (hodd : ord % 2 = 1) :
    iirAlloc E ord type = Except.error ERROR_FILTER_ORD_BP ∧
    iirFront E rp rs ord w0 w1 type = some (Except.error ERROR_FILTER_ORD_BP) ∧
    iir E rp rs ord w0 w1 type b a = some ⟨ERROR_FILTER_ORD_BP, b, a⟩ := by
  have h := iirAlloc_odd E ord type hshape hodd
  refine ⟨h, by simp only [iirFront, h], by simp only [iir, iirFront, h]⟩

/-- Witness of C12: bandpass, Butterworth, `ord = -3`. -/
theorem iir_bandpass_odd_order_witness :
    iirAlloc sampleExt (-3) 260 = Except.error ERROR_FILTER_ORD_BP ∧
    iirFront sampleExt 1 40 (-3) (1 / 3) (2 / 3) 260 = some (Except.error ERROR_FILTER_ORD_BP) ∧
    iir sampleExt 1 40 (-3) (1 / 3) (2 / 3) 260 (some [0, 0]) none
      = some ⟨ERROR_FILTER_ORD_BP, some [0, 0], none⟩ :=
  iir_bandpass_odd_order sampleExt 1 40 (-3) (1 / 3) (2 / 3) 260 (some [0, 0]) none
    (Or.inl (by decide)) (by decide)

/-- C13 as stated fails: with bandstop shape bits and the odd order 1, `iir` returns
`ERROR_FILTER_ORD_BP`, not `ERROR_FILTER_TYPE`. -/
theorem iir_bandstop_not_always_type_error :
    ¬ ∀ (E : Ext) (rp rs : ℚ) (ord : Int) (w0 w1 : ℚ) (type : Int) (b a : Option (List ℚ)),
      Int.land type E.DSPL_FILTER_TYPE_MASK = E.DSPL_FILTER_BSTOP →
      (iir E rp rs ord w0 w1 type b a).map Out.res = some ERROR_FILTER_TYPE := by
  intro h
  have h1 := h sampleExt 1 40 1 (1 / 3) (2 / 3) 264 (some [0, 0]) (some [0, 0]) (by decide)
  have h2 : iir sampleExt 1 40 1 (1 / 3) (2 / 3) 264 (some [0, 0]) (some [0, 0])
      = some ⟨ERROR_FILTER_ORD_BP, some [0, 0], some [0, 0]⟩ := by
    simp only [iir, iirFront, iirAlloc_odd sampleExt 1 264 (Or.inr (by decide)) (by decide)]
  rw [h2] at h1
  simp at h1

/-- C13, amended: `iir` called with shape = bandstop never succeeds. It returns
`ERROR_FILTER_ORD_BP` if `ord` is odd; otherwise the status of the prototype dispatcher
(called at order `ord/2`) if that is not `RES_OK`; and otherwise `ERROR_FILTER_TYPE`,
whatever `rp`, `rs`, `w0`, `w1` and the output pointers are. The bandstop code is taken to
differ from the lowpass, highpass and bandpass codes. -/
theorem iir_bandstop (E : Ext) (rp rs : ℚ) (ord : Int) (w0 w1 : ℚ) (type : Int)
    (b a : Option (List ℚ))
    (hshape : Int.land type E.DSPL_FILTER_TYPE_MASK = E.DSPL_FILTER_BSTOP)
    (hd1 : E.DSPL_FILTER_BSTOP ≠ E.DSPL_FILTER_LPF)
    (hd2 : E.DSPL_FILTER_BSTOP ≠ E.DSPL_FILTER_HPF)
    (hd3 : E.DSPL_FILTER_BSTOP ≠ E.DSPL_FILTER_BPASS) :
    (ord % 2 = 1 → iir E rp rs ord w0 w1 type b a = some ⟨ERROR_FILTER_ORD_BP, b, a⟩) ∧
    (ord % 2 = 0 → ∀ o1,
      iir_ap E rp rs (Int.tdiv ord 2) type (malloc E.junk (Int.tdiv ord 2 + 1))
        (malloc E.junk (Int.tdiv ord 2 + 1)) = some o1 →
      iir E rp rs ord w0 w1 type b a =
        some ⟨if o1.res ≠ RES_OK then o1.res else ERROR_FILTER_TYPE, b, a⟩) := by
  constructor
  · intro hodd
    simp only [iir, iirFront, iirAlloc_odd E ord type (Or.inr hshape) hodd]
  · intro heven o1 hap
    simp only [iir, iirFront, iirAlloc_even E ord type (Or.inr hshape) heven, hap]
    by_cases hr : o1.res = RES_OK
    · simp [hr, iirTransform, hshape, hd1, hd2, hd3]
    · simp [hr]

/-- Witness of C13 (amended): bandstop, Butterworth, `ord = 2`. -/
theorem iir_bandstop_witness :
    ((2 : Int) % 2 = 1 → iir sampleExt 1 40 2 (1 / 3) (2 / 3) 264 (some [0, 0, 0]) none
      = some ⟨ERROR_FILTER_ORD_BP, some [0, 0, 0], none⟩) ∧
    ((2 : Int) % 2 = 0 → ∀ o1,
      iir_ap sampleExt 1 40 (Int.tdiv 2 2) 264 (malloc sampleExt.junk (Int.tdiv 2 2 + 1))
        (malloc sampleExt.junk (Int.tdiv 2 2 + 1)) = some o1 →
      iir sampleExt 1 40 2 (1 / 3) (2 / 3) 264 (some [0, 0, 0]) none =
        some ⟨if o1.res ≠ RES_OK then o1.res else ERROR_FILTER_TYPE, some [0, 0, 0], none⟩) :=
  iir_bandstop sampleExt 1 40 2 (1 / 3) (2 / 3) 264 (some [0, 0, 0]) none
    (by decide) (by decide) (by decide) (by decide)

/-- A `ratcompos` call with a null output array returns `ERROR_PTR`. -/
theorem ratcompos_null_output (b a c d beta alpha : Option (List ℚ)) (n p : Int)
    (h : beta = none ∨ alpha = none) :
    ratcompos b a n c d p beta alpha = some ⟨ERROR_PTR, beta, alpha⟩ := by
  rcases h with h | h
  · subst h
    rcases a with _ | a <;> rcases b with _ | b <;> rcases c with _ | c <;>
      rcases d with _ | d <;> rfl
  · subst h
    rcases a with _ | a <;> rcases b with _ | b <;> rcases c with _ | c <;>
      rcases d with _ | d <;> rcases beta with _ | beta <;> rfl

/-- C14 as stated fails: with a null `b`, bandpass shape bits and the odd order 1, `iir`
returns `ERROR_FILTER_ORD_BP`, not `ERROR_PTR`. -/
theorem iir_null_output_not_always_ptr_error :
    ¬ ∀ (E : Ext) (rp rs : ℚ) (ord : Int) (w0 w1 : ℚ) (type : Int) (b a : Option (List ℚ)),
      b = none ∨ a = none →
      (iir E rp rs ord w0 w1 type b a).map Out.res = some ERROR_PTR := by
  intro h
  have h1 := h sampleExt 1 40 1 (1 / 3) (2 / 3) 260 none (some [0, 0]) (Or.inl rfl)
  have h2 : iir sampleExt 1 40 1 (1 / 3) (2 / 3) 260 none (some [0, 0])
      = some ⟨ERROR_FILTER_ORD_BP, none, some [0, 0]⟩ := by
    simp only [iir, iirFront, iirAlloc_odd sampleExt 1 260 (Or.inl (by decide)) (by decide)]
  rw [h2] at h1
  simp at h1

/-- C14, amended: `iir` has no pointer validation of its own; a null output array `b` or
`a` is rejected by `bilinear`, its last step. If `b` or `a` is null then `iir` returns
`ERROR_PTR` whenever the steps before `bilinear` (order parity, prototype, frequency
transform) succeed, and otherwise the status of the first of these steps that fails; it
never returns `RES_OK`, and the output pointers are left as they were. -/
theorem iir_null_output (E : Ext) (rp rs : ℚ) (ord : Int) (w0 w1 : ℚ) (type : Int)
    (b a : Option (List ℚ)) (hnull : b = none ∨ a = none) :
    (∀ bt at_, iirFront E rp rs ord w0 w1 type = some (Except.ok (bt, at_)) →
      iir E rp rs ord w0 w1 type b a = some ⟨ERROR_PTR, b, a⟩) ∧
    (∀ r, iirFront E rp rs ord w0 w1 type = some (Except.error r) →
      r ≠ RES_OK ∧ iir E rp rs ord w0 w1 type b a = some ⟨r, b, a⟩) ∧
    (∀ out, iir E rp rs ord w0 w1 type b a = some out → out.res ≠ RES_OK) := by
  have hbil : ∀ bt at_, bilinear bt at_ ord b a = some ⟨ERROR_PTR, b, a⟩ := fun bt at_ =>
    ratcompos_null_output bt at_ _ _ b a ord 1 hnull
  have herr : ∀ r, iirFront E rp rs ord w0 w1 type = some (Except.error r) → r ≠ RES_OK := by
    intro r hf
    unfold iirFront at hf
    split at hf
    · next r1 hal =>
      simp only [Option.some.injEq, Except.error.injEq] at hf
      subst hf
      unfold iirAlloc at hal
      simp only at hal
      split at hal
      · split at hal
        · simp only [Except.error.injEq] at hal
          subst hal; simp
        · exact absurd hal (by simp)
      · exact absurd hal (by simp)
    · split at hf
      · exact absurd hf (by simp)
      · split at hf
        · next hne =>
          simp only [Option.some.injEq, Except.error.injEq] at hf
          subst hf; exact hne
        · split at hf
          · exact absurd hf (by simp)
          · split at hf
            · next hne =>
              simp only [Option.some.injEq, Except.error.injEq] at hf
              subst hf; exact hne
            · exact absurd hf (by simp)
  refine ⟨fun bt at_ hf => ?_, fun r hf => ⟨herr r hf, ?_⟩, fun out ho => ?_⟩
  · simp only [iir, hf, hbil]
  · simp only [iir, hf]
  · unfold iir at ho
    split at ho
    · exact absurd ho (by simp)
    · next r hf =>
      simp only [Option.some.injEq] at ho
      subst ho
      exact herr r hf
    · rw [hbil] at ho
      simp only [Option.some.injEq] at ho
      subst ho; simp

/-- Witness of C14 (amended): lowpass, Butterworth, `ord = 2`, null `b`. -/
theorem iir_null_output_witness :
    (∀ bt at_, iirFront sampleExt 1 40 2 (1 / 3) (2 / 3) 257 = some (Except.ok (bt, at_)) →
      iir sampleExt 1 40 2 (1 / 3) (2 / 3) 257 none (some [0, 0, 0])
        = some ⟨ERROR_PTR, none, some [0, 0, 0]⟩) ∧
    (∀ r, iirFront sampleExt 1 40 2 (1 / 3) (2 / 3) 257 = some (Except.error r) →
      r ≠ RES_OK ∧ iir sampleExt 1 40 2 (1 / 3) (2 / 3) 257 none (some [0, 0, 0])
        = some ⟨r, none, some [0, 0, 0]⟩) ∧
    (∀ out, iir sampleExt 1 40 2 (1 / 3) (2 / 3) 257 none (some [0, 0, 0]) = some out →
      out.res ≠ RES_OK) :=
  iir_null_output sampleExt 1 40 2 (1 / 3) (2 / 3) 257 none (some [0, 0, 0]) (Or.inl rfl)

/-- C16: unknown approximation family. For every `type` whose approximation bits are none
of Butterworth, Chebyshev-I, Chebyshev-II, Elliptic, `iir_ap` returns `ERROR_FILTER_APPROX`
whatever the generators are and with `b`, `a` as they were; and `iir` called with such a
`type` and a lowpass or highpass shape (codes different from bandpass and bandstop), or a
bandpass or bandstop shape with even order, forwards that status, returning
`ERROR_FILTER_APPROX` with its output arrays as they were: the frequency transform and
`bilinear` are not reached. -/
theorem unknown_approximation (E : Ext) (rp rs : ℚ) (ord : Int) (w0 w1 : ℚ) (type : Int)
    (b a : Option (List ℚ))
    (h1 : Int.land type E.DSPL_FILTER_APPROX_MASK ≠ E.DSPL_FILTER_BUTTER)
    (h2 : Int.land type E.DSPL_FILTER_APPROX_MASK ≠ E.DSPL_FILTER_CHEBY1)
    (h3 : Int.land type E.DSPL_FILTER_APPROX_MASK ≠ E.DSPL_FILTER_CHEBY2)
    (h4 : Int.land type E.DSPL_FILTER_APPROX_MASK ≠ E.DSPL_FILTER_ELLIP) :
    (∀ ord1, iir_ap E rp rs ord1 type b a = some ⟨ERROR_FILTER_APPROX, b, a⟩) ∧
    (((Int.land type E.DSPL_FILTER_TYPE_MASK = E.DSPL_FILTER_LPF ∨
          Int.land type E.DSPL_FILTER_TYPE_MASK = E.DSPL_FILTER_HPF) ∧
        Int.land type E.DSPL_FILTER_TYPE_MASK ≠ E.DSPL_FILTER_BPASS ∧
        Int.land type E.DSPL_FILTER_TYPE_MASK ≠ E.DSPL_FILTER_BSTOP) ∨
      ((Int.land type E.DSPL_FILTER_TYPE_MASK = E.DSPL_FILTER_BPASS ∨
          Int.land type E.DSPL_FILTER_TYPE_MASK = E.DSPL_FILTER_BSTOP) ∧ ord % 2 = 0) →
      iirFront E rp rs ord w0 w1 type = some (Except.error ERROR_FILTER_APPROX) ∧
      iir E rp rs ord w0 w1 type b a = some ⟨ERROR_FILTER_APPROX, b, a⟩) := by
  have hap : ∀ ord1 x y, iir_ap E rp rs ord1 type x y = some ⟨ERROR_FILTER_APPROX, x, y⟩ := by
    intro ord1 x y
    simp only [iir_ap, h1, h2, h3, h4, if_false]
  refine ⟨fun ord1 => hap ord1 b a, fun hs => ?_⟩
  have hf : iirFront E rp rs ord w0 w1 type = some (Except.error ERROR_FILTER_APPROX) := by
    rcases hs with ⟨hs, n1, n2⟩ | ⟨hs, heven⟩
    · simp [iirFront, iirAlloc_low E ord type hs n1 n2, hap]
    · simp [iirFront, iirAlloc_even E ord type hs heven, hap]
  exact ⟨hf, by simp only [iir, hf]⟩

/-- Witness of C16: lowpass shape bits with no approximation bit set. -/
theorem unknown_approximation_witness :
    (∀ ord1, iir_ap sampleExt 1 40 ord1 1 (some [0, 0, 0]) (some [5])
      = some ⟨ERROR_FILTER_APPROX, some [0, 0, 0], some [5]⟩) ∧
    (((Int.land 1 sampleExt.DSPL_FILTER_TYPE_MASK = sampleExt.DSPL_FILTER_LPF ∨
          Int.land 1 sampleExt.DSPL_FILTER_TYPE_MASK = sampleExt.DSPL_FILTER_HPF) ∧
        Int.land 1 sampleExt.DSPL_FILTER_TYPE_MASK ≠ sampleExt.DSPL_FILTER_BPASS ∧
        Int.land 1 sampleExt.DSPL_FILTER_TYPE_MASK ≠ sampleExt.DSPL_FILTER_BSTOP) ∨
      ((Int.land 1 sampleExt.DSPL_FILTER_TYPE_MASK = sampleExt.DSPL_FILTER_BPASS ∨
          Int.land 1 sampleExt.DSPL_FILTER_TYPE_MASK = sampleExt.DSPL_FILTER_BSTOP) ∧
        (2 : Int) % 2 = 0) →
      iirFront sampleExt 1 40 2 (1 / 3) (2 / 3) 1 = some (Except.error ERROR_FILTER_APPROX) ∧
      iir sampleExt 1 40 2 (1 / 3) (2 / 3) 1 (some [0, 0, 0]) (some [5])
        = some ⟨ERROR_FILTER_APPROX, some [0, 0, 0], some [5]⟩) :=
  unknown_approximation sampleExt 1 40 2 (1 / 3) (2 / 3) 1 (some [0, 0, 0]) (some [5])
    (by decide) (by decide) (by decide) (by decide)

/-! ## `iir`: the successful path -/

theorem malloc_nat (junk : Nat → ℚ) (cnt : Int) (m : Nat) (h : cnt = (m : Int)) :
    malloc junk cnt = some ((List.range m).map junk) := by
  subst h
  simp [malloc]

/-- The new content of the outputs of `ratcompos` does not depend on what the output arrays
held. -/
theorem ratcompos_fixed (n p : Nat) (hn : 1 ≤ n) (hp : 1 ≤ p)
    (hfit : (n + 1) * (n * p + 1) * 8 < 2 ^ 31)
    (b a c d : List ℚ) (hb : b.length = n + 1) (ha : a.length = n + 1)
    (hc : c.length = p + 1) (hd : d.length = p + 1) :
    ∃ β α : List ℚ, β.length = n * p + 1 ∧ α.length = n * p + 1 ∧
      ∀ beta alpha : List ℚ, beta.length = n * p + 1 → alpha.length = n * p + 1 →
        ratcompos (some b) (some a) (n : Int) (some c) (some d) (p : Int)
          (some beta) (some alpha) = some ⟨RES_OK, some β, some α⟩ := by
  obtain ⟨C, hC⟩ := exists_poly c
  obtain ⟨D, hD⟩ := exists_poly d
  have hC1 := coeff_take c C hC (p + 1) (by omega)
  have hD1 := coeff_take d D hD (p + 1) (by omega)
  obtain ⟨β1, α1, -, l1, l2, r1⟩ := ratcompos_ok n p hn hp hfit b a c d
    (List.replicate (n * p + 1) 0) (List.replicate (n * p + 1) 0) (by omega) (by omega)
    (by omega) (by omega) (by simp) (by simp) C D hC1 hD1
  rw [List.length_replicate] at l1 l2
  refine ⟨β1, α1, l1, l2, fun beta alpha hbeta halpha => ?_⟩
  obtain ⟨β, α, h, l3, l4, r⟩ := ratcompos_ok n p hn hp hfit b a c d beta alpha (by omega)
    (by omega)
    (by omega) (by omega) (by omega) (by omega) C D hC1 hD1
  have e1 : β = β1 := list_ext_getD β β1 (by omega) fun x hx => by
    rw [(r x).1, (r1 x).1, if_pos (by omega), if_pos (by omega)]
  have e2 : α = α1 := list_ext_getD α α1 (by omega) fun x hx => by
    rw [(r x).2, (r1 x).2, if_pos (by omega), if_pos (by omega)]
  rw [h, e1, e2]

/-- `bilinear` on arrays of `ord+1` entries succeeds with outputs of `ord+1` entries. -/
theorem bilinear_ok (n : Nat) (hn : 1 ≤ n) (hfit : (n + 1) * (n + 1) * 8 < 2 ^ 31)
    (bt at_ b a : List ℚ)
    (h1 : bt.length = n + 1) (h2 : at_.length = n + 1)
    (h3 : b.length = n + 1) (h4 : a.length = n + 1) :
    ∃ β α, bilinear (some bt) (some at_) (n : Int) (some b) (some a)
        = some ⟨RES_OK, some β, some α⟩ ∧ β.length = n + 1 ∧ α.length = n + 1 := by
  obtain ⟨β, α, h, l1, l2, -⟩ := ratcompos_eval n 1 hn le_rfl
    (by rw [Nat.mul_one]; exact hfit) bt at_ [1, -1] [1, 1] b a
    h1 h2 rfl rfl (by omega) (by omega)
  simp only [Nat.cast_one] at h
  exact ⟨β, α, h, by omega, by omega⟩

/-- `iir` once its three first steps have succeeded. -/
theorem iir_run (E : Ext) (rp rs : ℚ) (ord : Int) (w0 w1 : ℚ) (type : Int) (s : IirBufs)
    (halloc : iirAlloc E ord type = Except.ok s) (bs as bt at_ : Option (List ℚ))
    (hap : iir_ap E rp rs s.ord_ap type s.bs s.as = some ⟨RES_OK, bs, as⟩)
    (htr : iirTransform E w0 w1 type bs as s.ord_ap s.bt s.at_ = some ⟨RES_OK, bt, at_⟩)
    (b a : Option (List ℚ)) :
    iir E rp rs ord w0 w1 type b a = bilinear bt at_ ord b a := by
  simp [iir, iirFront, halloc, hap, htr]

theorem one_lit : (1.0 : ℚ) = 1 := by norm_num

/-- C17 as stated fails: for a lowpass `type` at `ord = 16383`, with a prototype that
returns `RES_OK` and `wa0 > 0`, the scratch byte count `16384 * 16384 * 8 = 2^31` of the
`ratcompos` call inside `low2low` is negative as an `int`, the scratch arrays do not exist
and neither `low2low` nor `iir` returns `RES_OK`. -/
theorem iir_composition_unbounded_fails :
    ¬ ∀ (E : Ext) (rp rs w0 w1 : ℚ) (type : Int) (n : Nat), 1 ≤ n →
      ∀ (bs as : List ℚ), bs.length = n + 1 → as.length = n + 1 →
      iir_ap E rp rs (n : Int) type (malloc E.junk ((n : Int) + 1))
        (malloc E.junk ((n : Int) + 1)) = some ⟨RES_OK, some bs, some as⟩ →
      (Int.land type E.DSPL_FILTER_TYPE_MASK = E.DSPL_FILTER_LPF →
        E.DSPL_FILTER_LPF ≠ E.DSPL_FILTER_BPASS → E.DSPL_FILTER_LPF ≠ E.DSPL_FILTER_BSTOP →
        0 < E.tan (w0 * E.M_PI * 0.5) →
        ∀ b a : List ℚ, b.length = n + 1 → a.length = n + 1 →
        ∃ bt at_ β α : List ℚ,
          (∀ beta0 alpha0 : List ℚ, beta0.length = n + 1 → alpha0.length = n + 1 →
            low2low (some bs) (some as) (n : Int) 1 (E.tan (w0 * E.M_PI * 0.5))
              (some beta0) (some alpha0) = some ⟨RES_OK, some bt, some at_⟩) ∧
          bt.length = n + 1 ∧ at_.length = n + 1 ∧
          bilinear (some bt) (some at_) (n : Int) (some b) (some a)
            = some ⟨RES_OK, some β, some α⟩ ∧
          β.length = n + 1 ∧ α.length = n + 1 ∧
          iir E rp rs (n : Int) w0 w1 type (some b) (some a)
            = some ⟨RES_OK, some β, some α⟩) ∧
      (Int.land type E.DSPL_FILTER_TYPE_MASK = E.DSPL_FILTER_HPF →
        E.DSPL_FILTER_HPF ≠ E.DSPL_FILTER_LPF →
        E.DSPL_FILTER_HPF ≠ E.DSPL_FILTER_BPASS → E.DSPL_FILTER_HPF ≠ E.DSPL_FILTER_BSTOP →
        0 < E.tan (w0 * E.M_PI * 0.5) →
        ∀ b a : List ℚ, b.length = n + 1 → a.length = n + 1 →
        ∃ bt at_ β α : List ℚ,
          (∀ beta0 alpha0 : List ℚ, beta0.length = n + 1 → alpha0.length = n + 1 →
            low2high (some bs) (some as) (n : Int) 1 (E.tan (w0 * E.M_PI * 0.5))
              (some beta0) (some alpha0) = some ⟨RES_OK, some bt, some at_⟩) ∧
          bt.length = n + 1 ∧ at_.length = n + 1 ∧
          bilinear (some bt) (some at_) (n : Int) (some b) (some a)
            = some ⟨RES_OK, some β, some α⟩ ∧
          β.length = n + 1 ∧ α.length = n + 1 ∧
          iir E rp rs (n : Int) w0 w1 type (some b) (some a)
            = some ⟨RES_OK, some β, some α⟩) ∧
      (Int.land type E.DSPL_FILTER_TYPE_MASK = E.DSPL_FILTER_BPASS →
        E.DSPL_FILTER_BPASS ≠ E.DSPL_FILTER_LPF → E.DSPL_FILTER_BPASS ≠ E.DSPL_FILTER_HPF →
        0 < E.tan (w0 * E.M_PI * 0.5) →
        E.tan (w0 * E.M_PI * 0.5) < E.tan (w1 * E.M_PI * 0.5) →
        ∀ b a : List ℚ, b.length = 2 * n + 1 → a.length = 2 * n + 1 →
        ∃ bt at_ β α : List ℚ,
          (∀ beta0 alpha0 : List ℚ, beta0.length = 2 * n + 1 → alpha0.length = 2 * n + 1 →
            low2bp (some bs) (some as) (n : Int) 1 (E.tan (w0 * E.M_PI * 0.5))
              (E.tan (w1 * E.M_PI * 0.5)) (some beta0) (some alpha0)
              = some ⟨RES_OK, some bt, some at_⟩) ∧
          bt.length = 2 * n + 1 ∧ at_.length = 2 * n + 1 ∧
          bilinear (some bt) (some at_) ((2 * n : Nat) : Int) (some b) (some a)
            = some ⟨RES_OK, some β, some α⟩ ∧
          β.length = 2 * n + 1 ∧ α.length = 2 * n + 1 ∧
          iir E rp rs ((2 * n : Nat) : Int) w0 w1 type (some b) (some a)
            = some ⟨RES_OK, some β, some α⟩) := by
  intro h
  have hw : (0 : ℚ) < sampleExt.tan (1 / 3 * sampleExt.M_PI * 0.5) := by
    show (0 : ℚ) < 1 / 3 * 3 * 0.5
    norm_num
  have hap : iir_ap sampleExt 1 40 ((16383 : Nat) : Int) 257
      (malloc sampleExt.junk (((16383 : Nat) : Int) + 1))
      (malloc sampleExt.junk (((16383 : Nat) : Int) + 1))
      = some ⟨RES_OK, some (List.replicate 16384 1), some (List.replicate 16384 2)⟩ := by
    unfold iir_ap
    rw [if_pos (by decide)]
    rfl
  obtain ⟨bt, at_, β, α, hlow, -⟩ := (h sampleExt 1 40 (1 / 3) (2 / 3) 257 16383 (by decide)
    (List.replicate 16384 1) (List.replicate 16384 2) (List.length_replicate _ _)
    (List.length_replicate _ _) hap).1 (by decide) (by decide) (by decide) hw
    (List.replicate 16384 0) (List.replicate 16384 0) (List.length_replicate _ _)
    (List.length_replicate _ _)
  have hr := hlow (List.replicate 16384 0) (List.replicate 16384 0)
    (List.length_replicate _ _) (List.length_replicate _ _)
  have hf := low2low_wrap_fault (List.replicate 16384 1) (List.replicate 16384 2)
    (List.replicate 16384 0) (List.replicate 16384 0) ((16383 : Nat) : Int) 1
    (sampleExt.tan (1 / 3 * sampleExt.M_PI * 0.5)) (by decide) one_pos hw (by decide)
  exact Option.noConfusion (hf.symm.trans hr)

/-- C17, amended: `iir` is the composition prototype, frequency transform, `bilinear`, with
consistent orders, for an order whose scratch byte count `(ord+1)*(ord+1)*8` fits an `int`
(the allocations being served). The prototype dispatcher at order `n ≥ 1` is taken to
return `RES_OK` with `bs`, `as` of `n+1` entries, and `wa0 = tan(w0*M_PI*0.5)`,
`wa1 = tan(w1*M_PI*0.5)`. For a lowpass (resp. highpass) `type` with `ord = n` and
`wa0 > 0`, `iir` returns `RES_OK` with `(b, a) = bilinear(low2low(bs, as, n, 1, wa0))`
(resp. `low2high`); for a bandpass `type` with `ord = 2*n` and `0 < wa0 < wa1`,
`(b, a) = bilinear(low2bp(bs, as, n, 1, wa0, wa1))`. In each case `bt`, `at` have exactly
`ord+1` entries, which `bilinear` at order `ord` reads, and the final `b`, `a` have `ord+1`
entries. The shape codes are taken to be distinct. -/
theorem iir_composition (E : Ext) (rp rs w0 w1 : ℚ) (type : Int) (n : Nat) (hn : 1 ≤ n)
    (bs as : List ℚ) (hbs : bs.length = n + 1) (has : as.length = n + 1)
    (hap : iir_ap E rp rs (n : Int) type (malloc E.junk ((n : Int) + 1))
      (malloc E.junk ((n : Int) + 1)) = some ⟨RES_OK, some bs, some as⟩) :
    (Int.land type E.DSPL_FILTER_TYPE_MASK = E.DSPL_FILTER_LPF →
      (n + 1) * (n + 1) * 8 < 2 ^ 31 →
      E.DSPL_FILTER_LPF ≠ E.DSPL_FILTER_BPASS → E.DSPL_FILTER_LPF ≠ E.DSPL_FILTER_BSTOP →
      0 < E.tan (w0 * E.M_PI * 0.5) →
      ∀ b a : List ℚ, b.length = n + 1 → a.length = n + 1 →
      ∃ bt at_ β α : List ℚ,
        (∀ beta0 alpha0 : List ℚ, beta0.length = n + 1 → alpha0.length = n + 1 →
          low2low (some bs) (some as) (n : Int) 1 (E.tan (w0 * E.M_PI * 0.5))
            (some beta0) (some alpha0) = some ⟨RES_OK, some bt, some at_⟩) ∧
        bt.length = n + 1 ∧ at_.length = n + 1 ∧
        bilinear (some bt) (some at_) (n : Int) (some b) (some a)
          = some ⟨RES_OK, some β, some α⟩ ∧
        β.length = n + 1 ∧ α.length = n + 1 ∧
        iir E rp rs (n : Int) w0 w1 type (some b) (some a) = some ⟨RES_OK, some β, some α⟩) ∧
    (Int.land type E.DSPL_FILTER_TYPE_MASK = E.DSPL_FILTER_HPF →
      (n + 1) * (n + 1) * 8 < 2 ^ 31 →
      E.DSPL_FILTER_HPF ≠ E.DSPL_FILTER_LPF →
      E.DSPL_FILTER_HPF ≠ E.DSPL_FILTER_BPASS → E.DSPL_FILTER_HPF ≠ E.DSPL_FILTER_BSTOP →
      0 < E.tan (w0 * E.M_PI * 0.5) →
      ∀ b a : List ℚ, b.length = n + 1 → a.length = n + 1 →
      ∃ bt at_ β α : List ℚ,
        (∀ beta0 alpha0 : List ℚ, beta0.length = n + 1 → alpha0.length = n + 1 →
          low2high (some bs) (some as) (n : Int) 1 (E.tan (w0 * E.M_PI * 0.5))
            (some beta0) (some alpha0) = some ⟨RES_OK, some bt, some at_⟩) ∧
        bt.length = n + 1 ∧ at_.length = n + 1 ∧
        bilinear (some bt) (some at_) (n : Int) (some b) (some a)
          = some ⟨RES_OK, some β, some α⟩ ∧
        β.length = n + 1 ∧ α.length = n + 1 ∧
        iir E rp rs (n : Int) w0 w1 type (some b) (some a) = some ⟨RES_OK, some β, some α⟩) ∧
    (Int.land type E.DSPL_FILTER_TYPE_MASK = E.DSPL_FILTER_BPASS →
      (2 * n + 1) * (2 * n + 1) * 8 < 2 ^ 31 →
      E.DSPL_FILTER_BPASS ≠ E.DSPL_FILTER_LPF → E.DSPL_FILTER_BPASS ≠ E.DSPL_FILTER_HPF →
      0 < E.tan (w0 * E.M_PI * 0.5) → E.tan (w0 * E.M_PI * 0.5) < E.tan (w1 * E.M_PI * 0.5) →
      ∀ b a : List ℚ, b.length = 2 * n + 1 → a.length = 2 * n + 1 →
      ∃ bt at_ β α : List ℚ,
        (∀ beta0 alpha0 : List ℚ, beta0.length = 2 * n + 1 → alpha0.length = 2 * n + 1 →
          low2bp (some bs) (some as) (n : Int) 1 (E.tan (w0 * E.M_PI * 0.5))
            (E.tan (w1 * E.M_PI * 0.5)) (some beta0) (some alpha0)
            = some ⟨RES_OK, some bt, some at_⟩) ∧
        bt.length = 2 * n + 1 ∧ at_.length = 2 * n + 1 ∧
        bilinear (some bt) (some at_) ((2 * n : Nat) : Int) (some b) (some a)
          = some ⟨RES_OK, some β, some α⟩ ∧
        β.length = 2 * n + 1 ∧ α.length = 2 * n + 1 ∧
        iir E rp rs ((2 * n : Nat) : Int) w0 w1 type (some b) (some a)
          = some ⟨RES_OK, some β, some α⟩) := by
  have hm : malloc E.junk ((n : Int) + 1) = some ((List.range (n + 1)).map E.junk) :=
    malloc_nat E.junk _ (n + 1) (by push_cast; ring)
  have hjl : ((List.range (n + 1)).map E.junk).length = n + 1 := by simp
  refine ⟨?_, ?_, ?_⟩
  · intro hs hfit d1 d2 hw b a hb ha
    have hal := iirAlloc_low E (n : Int) type (Or.inl hs) (by rw [hs]; exact d1)
      (by rw [hs]; exact d2)
    have hlow : ∀ beta0 alpha0 : List ℚ, beta0.length = n + 1 → alpha0.length = n + 1 →
        low2low (some bs) (some as) (n : Int) 1 (E.tan (w0 * E.M_PI * 0.5))
          (some beta0) (some alpha0) = some ⟨RES_OK, some _, some _⟩ :=
      fun beta0 alpha0 h1 h2 =>
        (low2low_eq bs as beta0 alpha0 (n : Int) 1 _ (by omega) one_pos hw).trans
          (ratcompos_scale n hn hfit _ bs as beta0 alpha0 hbs has h1 h2)
    obtain ⟨β, α, hbil, l1, l2⟩ := bilinear_ok n hn hfit _ _ b a
      (show ((List.range (n + 1)).map fun i =>
        bs.getD i 0 * (E.tan (w0 * E.M_PI * 0.5) / 1) ^ (n - i)).length = n + 1 by simp)
      (show ((List.range (n + 1)).map fun i =>
        as.getD i 0 * (E.tan (w0 * E.M_PI * 0.5) / 1) ^ (n - i)).length = n + 1 by simp)
      hb ha
    refine ⟨_, _, β, α, hlow, by simp, by simp, hbil, l1, l2, ?_⟩
    rw [iir_run E rp rs (n : Int) w0 w1 type _ hal (some bs) (some as) _ _ hap
      (by
        simp only [iirTransform, if_pos hs, hm, one_lit]
        exact hlow _ _ hjl hjl)]
    exact hbil
  · intro hs hfit d0 d1 d2 hw b a hb ha
    have hal := iirAlloc_low E (n : Int) type (Or.inr hs) (by rw [hs]; exact d1)
      (by rw [hs]; exact d2)
    have hhigh : ∀ beta0 alpha0 : List ℚ, beta0.length = n + 1 → alpha0.length = n + 1 →
        low2high (some bs) (some as) (n : Int) 1 (E.tan (w0 * E.M_PI * 0.5))
          (some beta0) (some alpha0) = some ⟨RES_OK, some _, some _⟩ :=
      fun beta0 alpha0 h1 h2 =>
        (low2high_eq bs as beta0 alpha0 (n : Int) 1 _ (by omega) one_pos hw).trans
          (ratcompos_invert n hn hfit _ bs as beta0 alpha0 hbs has h1 h2)
    obtain ⟨β, α, hbil, l1, l2⟩ := bilinear_ok n hn hfit _ _ b a
      (show ((List.range (n + 1)).map fun k =>
        bs.getD (n - k) 0 * (E.tan (w0 * E.M_PI * 0.5) / 1) ^ (n - k)).length = n + 1 by simp)
      (show ((List.range (n + 1)).map fun k =>
        as.getD (n - k) 0 * (E.tan (w0 * E.M_PI * 0.5) / 1) ^ (n - k)).length = n + 1 by simp)
      hb ha
    refine ⟨_, _, β, α, hhigh, by simp, by simp, hbil, l1, l2, ?_⟩
    rw [iir_run E rp rs (n : Int) w0 w1 type _ hal (some bs) (some as) _ _ hap
      (by
        have hne : Int.land type E.DSPL_FILTER_TYPE_MASK ≠ E.DSPL_FILTER_LPF := by
          rw [hs]; exact d0
        simp only [iirTransform, if_neg hne, if_pos hs, hm, one_lit]
        exact hhigh _ _ hjl hjl)]
    exact hbil
  · intro hs hfit d1 d2 hw hw1 b a hb ha
    have hfitbp : (n + 1) * (n * 2 + 1) * 8 < 2 ^ 31 :=
      lt_of_le_of_lt
        (Nat.mul_le_mul_right 8 (Nat.mul_le_mul (by omega) (by omega))) hfit
    have heven : ((2 * n : Nat) : Int) % 2 = 0 := by omega
    have hdiv : Int.tdiv ((2 * n : Nat) : Int) 2 = (n : Int) := by
      have : ((2 * n : Nat) : Int) = 2 * (n : Int) := by push_cast; ring
      rw [this, Int.mul_tdiv_cancel_left _ (by decide)]
    have hal := iirAlloc_even E ((2 * n : Nat) : Int) type (Or.inl hs) heven
    rw [hdiv] at hal
    have hm2 : malloc E.junk (((2 * n : Nat) : Int) + 1)
        = some ((List.range (2 * n + 1)).map E.junk) :=
      malloc_nat E.junk _ (2 * n + 1) (by push_cast; ring)
    have hjl2 : ((List.range (2 * n + 1)).map E.junk).length = n * 2 + 1 := by
      simp; omega
    obtain ⟨bt, at_, lb, la, hfix⟩ := ratcompos_fixed n 2 hn (by decide) hfitbp bs as
      [(E.tan (w1 * E.M_PI * 0.5) * E.tan (w0 * E.M_PI * 0.5)) / (1 * 1), 0, 1]
      [0, (E.tan (w1 * E.M_PI * 0.5) - E.tan (w0 * E.M_PI * 0.5)) / 1, 0] hbs has rfl rfl
    simp only [Nat.cast_ofNat] at hfix
    have hbp : ∀ beta0 alpha0 : List ℚ, beta0.length = 2 * n + 1 → alpha0.length = 2 * n + 1 →
        low2bp (some bs) (some as) (n : Int) 1 (E.tan (w0 * E.M_PI * 0.5))
          (E.tan (w1 * E.M_PI * 0.5)) (some beta0) (some alpha0)
          = some ⟨RES_OK, some bt, some at_⟩ :=
      fun beta0 alpha0 h1 h2 =>
        (low2bp_eq bs as beta0 alpha0 (n : Int) 1 _ _ (by omega) one_pos hw hw1).trans
          (hfix beta0 alpha0 (by omega) (by omega))
    obtain ⟨β, α, hbil, l1, l2⟩ := bilinear_ok (2 * n) (by omega) hfit bt at_ b a
      (by omega) (by omega) hb ha
    refine ⟨bt, at_, β, α, hbp, by omega, by omega, hbil, l1, l2, ?_⟩
    rw [iir_run E rp rs _ w0 w1 type _ hal (some bs) (some as) (some bt) (some at_) hap
      (by
        have hne1 : Int.land type E.DSPL_FILTER_TYPE_MASK ≠ E.DSPL_FILTER_LPF := by
          rw [hs]; exact d1
        have hne2 : Int.land type E.DSPL_FILTER_TYPE_MASK ≠ E.DSPL_FILTER_HPF := by
          rw [hs]; exact d2
        simp only [iirTransform, if_neg hne1, if_neg hne2, if_pos hs, hm2, one_lit]
        exact hbp _ _ (by omega) (by omega))]
    exact hbil

/-- Witness of C17: the lowpass case at `n = 2` in the sample environment. -/
theorem iir_composition_witness :
    ∃ bt at_ β α : List ℚ,
      (∀ beta0 alpha0 : List ℚ, beta0.length = 2 + 1 → alpha0.length = 2 + 1 →
        low2low (some [1, 1, 1]) (some [2, 2, 2]) ((2 : Nat) : Int) 1
          (sampleExt.tan (1 / 3 * sampleExt.M_PI * 0.5))
          (some beta0) (some alpha0) = some ⟨RES_OK, some bt, some at_⟩) ∧
      bt.length = 2 + 1 ∧ at_.length = 2 + 1 ∧
      bilinear (some bt) (some at_) ((2 : Nat) : Int) (some [0, 0, 0]) (some [0, 0, 0])
        = some ⟨RES_OK, some β, some α⟩ ∧
      β.length = 2 + 1 ∧ α.length = 2 + 1 ∧
      iir sampleExt 1 40 ((2 : Nat) : Int) (1 / 3) (2 / 3) 257 (some [0, 0, 0]) (some [0, 0, 0])
        = some ⟨RES_OK, some β, some α⟩ :=
  (iir_composition sampleExt 1 40 (1 / 3) (2 / 3) 257 2 (by decide) [1, 1, 1] [2, 2, 2]
    rfl rfl (by decide!)).1 (by decide) (by decide) (by decide) (by decide)
    (by show (0 : ℚ) < 1 / 3 * 3 * 0.5; norm_num) [0, 0, 0] [0, 0, 0] rfl rfl

/-! ## Scratch bookkeeping of `ratcompos` -/

theorem powLoop_prefix (n p : Nat) (c d : List ℚ) (C D : ℚ[X])
    (hc : p + 1 ≤ c.length) (hd : p + 1 ≤ d.length)
    (hC : ∀ t, C.coeff t = if t < p + 1 then c.getD t 0 else 0)
    (hD : ∀ t, D.coeff t = if t < p + 1 then d.getD t 0 else 0)
    (k2 q : Int) (hk2 : k2 = ((n * p + 1 : Nat) : Int)) (hq : q = (p : Int))
    (m : Nat) (hm : m ≤ n) :
    ∃ s, forLoop (powBody c d q k2) m 1
        ⟨(List.replicate ((n + 1) * (n * p + 1)) 0).set 0 1,
         (List.replicate ((n + 1) * (n * p + 1)) 0).set 0 1, 0, 1⟩ = some (Except.ok s) ∧
      s.pn = ((m * (n * p + 1) : Nat) : Int) ∧ s.ln = ((m * p + 1 : Nat) : Int) ∧
      s.num.length = (n + 1) * (n * p + 1) ∧ s.den.length = (n + 1) * (n * p + 1) ∧
      (∀ i t, i ≤ n → t < n * p + 1 →
        s.num.getD (i * (n * p + 1) + t) 0 = if i ≤ m then (C ^ i).coeff t else 0) ∧
      (∀ i t, i ≤ n → t < n * p + 1 →
        s.den.getD (i * (n * p + 1) + t) 0 = if i ≤ m then (D ^ i).coeff t else 0) :=
  forLoop_inv (powBody c d q k2) m
    (fun j s => s.pn = ((j * (n * p + 1) : Nat) : Int) ∧ s.ln = ((j * p + 1 : Nat) : Int) ∧
      s.num.length = (n + 1) * (n * p + 1) ∧ s.den.length = (n + 1) * (n * p + 1) ∧
      (∀ i t, i ≤ n → t < n * p + 1 →
        s.num.getD (i * (n * p + 1) + t) 0 = if i ≤ j then (C ^ i).coeff t else 0) ∧
      (∀ i t, i ≤ n → t < n * p + 1 →
        s.den.getD (i * (n * p + 1) + t) 0 = if i ≤ j then (D ^ i).coeff t else 0))
    1 ⟨(List.replicate ((n + 1) * (n * p + 1)) 0).set 0 1,
         (List.replicate ((n + 1) * (n * p + 1)) 0).set 0 1, 0, 1⟩
    ⟨by simp, by simp, by simp, by simp, fun i t _ ht => init_getD n p C i t ht,
      fun i t _ ht => init_getD n p D i t ht⟩
    (by
      rintro j s hj ⟨h1, h2, h3, h4, h5, h6⟩
      obtain ⟨m1, hm1, hl1, hi1⟩ := pow_step n p c C hc hC s.num j (by omega) h3 h5 s.pn s.ln
        k2 q h1 h2 hk2 hq
      obtain ⟨m2, hm2, hl2, hi2⟩ := pow_step n p d D hd hD s.den j (by omega) h4 h6 s.pn s.ln
        k2 q h1 h2 hk2 hq
      refine ⟨⟨m1, m2, s.pn + k2, s.ln + q⟩, ?_, ?_, ?_, hl1, hl2, hi1, hi2⟩
      · simp only [powBody, hm1, hm2, andThen_ok]
      · show s.pn + k2 = _
        rw [h1, hk2]; push_cast; ring
      · show s.ln + q = _
        rw [h2, hq]; push_cast; ring)

theorem crossLoop_prefix (n p : Nat) (num den : List ℚ) (C D : ℚ[X])
    (hC : ∀ t, p + 1 ≤ t → C.coeff t = 0) (hD : ∀ t, p + 1 ≤ t → D.coeff t = 0)
    (hln : num.length = (n + 1) * (n * p + 1)) (hld : den.length = (n + 1) * (n * p + 1))
    (hnum : ∀ i t, i ≤ n → t < n * p + 1 → num.getD (i * (n * p + 1) + t) 0 = (C ^ i).coeff t)
    (hden : ∀ i t, i ≤ n → t < n * p + 1 → den.getD (i * (n * p + 1) + t) 0 = (D ^ i).coeff t)
    (k2 q : Int) (hk2 : k2 = ((n * p + 1 : Nat) : Int)) (hq : q = (p : Int))
    (m : Nat) (hm : m ≤ n + 1) :
    ∃ s, forLoop (crossBody num den q k2) m 0
        ⟨List.replicate ((n + 1) * (n * p + 1)) 0, 0, (n : Int) * k2, 1, k2⟩
          = some (Except.ok s) ∧
      s.pn = ((m * (n * p + 1) : Nat) : Int) ∧
      s.pd = (n : Int) * ((n * p + 1 : Nat) : Int) - (m : Int) * ((n * p + 1 : Nat) : Int) ∧
      s.ln = ((m * p + 1 : Nat) : Int) ∧
      s.ld = ((n * p + 1 : Nat) : Int) - (m : Int) * (p : Int) ∧
      s.ndn.length = (n + 1) * (n * p + 1) ∧
      (∀ i t, i ≤ n → t < n * p + 1 →
        s.ndn.getD (i * (n * p + 1) + t) 0 =
          if i < m then (C ^ i * D ^ (n - i)).coeff t else 0) :=
  forLoop_inv (crossBody num den q k2) m
    (fun j s => s.pn = ((j * (n * p + 1) : Nat) : Int) ∧
      s.pd = (n : Int) * ((n * p + 1 : Nat) : Int) - (j : Int) * ((n * p + 1 : Nat) : Int) ∧
      s.ln = ((j * p + 1 : Nat) : Int) ∧
      s.ld = ((n * p + 1 : Nat) : Int) - (j : Int) * (p : Int) ∧
      s.ndn.length = (n + 1) * (n * p + 1) ∧
      (∀ i t, i ≤ n → t < n * p + 1 →
        s.ndn.getD (i * (n * p + 1) + t) 0 = if i < j then (C ^ i * D ^ (n - i)).coeff t else 0))
    0 ⟨List.replicate ((n + 1) * (n * p + 1)) 0, 0, (n : Int) * k2, 1, k2⟩
    ⟨by simp, by simp [hk2], by simp, by simp [hk2], by simp, fun i t _ _ => by
      rw [replicate_getD, if_neg (Nat.not_lt_zero i)]⟩
    (by
      rintro j s hj ⟨h1, h2, h3, h4, h5, h6⟩
      obtain ⟨m1, hm1, hl1, hi1⟩ := cross_step n p num den C D hC hD hln hld hnum hden s.ndn j
        (by omega) h5 h6 s.pn s.ln s.pd s.ld ((0 + (j : Int)) * k2) h1 h2 h3 h4
        (by rw [hk2]; push_cast; ring)
      refine ⟨⟨m1, s.pn + k2, s.pd - k2, s.ln + q, s.ld - q⟩, ?_, ?_, ?_, ?_, ?_, hl1, hi1⟩
      · simp only [crossBody, hm1, andThen_ok]
      · show s.pn + k2 = _
        rw [h1, hk2]; push_cast; ring
      · show s.pd - k2 = _
        rw [h2, hk2]; push_cast; ring
      · show s.ln + q = _
        rw [h3, hq]; push_cast; ring
      · show s.ld - q = _
        rw [h4, hq]; push_cast; ring)

/-- A `conv` call whose operands and destination lie inside their arrays succeeds and
changes the destination array only in the `na + nb - 1` entries from `oc` on. -/
theorem conv_frame (a b c : List ℚ) (oa na ob nb oc : Int) (oa1 na1 ob1 nb1 oc1 : Nat)
    (h1 : oa = oa1) (h2 : na = na1) (h3 : ob = ob1) (h4 : nb = nb1) (h5 : oc = oc1)
    (hna : 1 ≤ na1) (hnb : 1 ≤ nb1) (ha : oa1 + na1 ≤ a.length) (hb : ob1 + nb1 ≤ b.length)
    (hc : oc1 + (na1 + nb1 - 1) ≤ c.length) :
    ∃ c1, conv a oa na b ob nb c oc = some (Except.ok c1) ∧ c1.length = c.length ∧
      ∀ x, x < oc1 ∨ oc1 + (na1 + nb1 - 1) ≤ x → c1.getD x 0 = c.getD x 0 := by
  have hl : (polyMul ((a.drop oa1).take na1) ((b.drop ob1).take nb1)).length
      = na1 + nb1 - 1 := by
    rw [polyMul_length, List.length_take, List.length_take, List.length_drop,
      List.length_drop]
    omega
  refine ⟨_, conv_eq a b c oa na ob nb oc oa1 na1 ob1 nb1 oc1 h1 h2 h3 h4 h5 hna hnb ha hb hc,
    length_patch _ _ _ (by rw [hl]; exact hc), fun x hx => ?_⟩
  rw [getD_patch _ _ _ _ (by rw [hl]; exact hc), hl, if_neg (by omega)]

/-- At `n = 32767`, `p = 1` the scratch byte count `32768 * 32768 * 8 = 2^33` is `0` as an
`int`: each scratch block has no entry and the store `num[0] = 1.0` of line 147 falls
outside it. -/
theorem ratcomposScratch_32767 :
    ratcomposScratch ((32767 : Nat) : Int) ((1 : Nat) : Int) = none := by
  have e : wrapInt (wrapInt ((((32767 : Nat) : Int) + 1)
      * wrapInt (((32767 : Nat) : Int) * ((1 : Nat) : Int) + 1)) * sizeofDouble) = 0 := by
    decide
  simp only [ratcomposScratch, e, mallocZero, le_refl, if_true, sizeofDouble, mem, andThen,
    Option.map_some', st]
  rfl

/-- C18 as stated fails: at `n = 32767`, `p = 1` (`k = 32768`) the scratch arrays of
`ratcompos` do not have `(n+1)*k` entries: the byte count `2^33` is `0` as an `int`, the
blocks are empty and the very first store, `num[0] = 1.0`, is out of bounds. -/
theorem ratcompos_scratch_bounds_unbounded_fails :
    ¬ ∀ (n p : Nat), 1 ≤ n → 1 ≤ p → ∀ (c d : List ℚ), c.length = p + 1 →
      d.length = p + 1 →
      ∃ sc, ratcomposScratch (n : Int) (p : Int) = some (Except.ok sc) ∧
        sc.k2 = ((n * p + 1 : Nat) : Int) ∧
        sc.num.length = (n + 1) * (n * p + 1) ∧ sc.den.length = (n + 1) * (n * p + 1) ∧
        sc.ndn.length = (n + 1) * (n * p + 1) ∧ sc.ndd.length = (n + 1) * (n * p + 1) ∧
        (∀ i, 1 ≤ i → i ≤ n → ∃ s num1 den1,
          ratcomposPow c d (p : Int) sc (i - 1) = some (Except.ok s) ∧
          s.num.length = (n + 1) * (n * p + 1) ∧ s.den.length = (n + 1) * (n * p + 1) ∧
          s.pn = (((i - 1) * (n * p + 1) : Nat) : Int) ∧
          s.ln = (((i - 1) * p + 1 : Nat) : Int) ∧
          (i - 1) * (n * p + 1) + ((i - 1) * p + 1) ≤ (n + 1) * (n * p + 1) ∧
          s.pn + sc.k2 = ((i * (n * p + 1) : Nat) : Int) ∧
          ((i - 1) * p + 1) + (p + 1) - 1 = i * p + 1 ∧ i * p + 1 ≤ n * p + 1 ∧
          i * (n * p + 1) + (n * p + 1) ≤ (n + 1) * (n * p + 1) ∧
          conv s.num s.pn s.ln c 0 ((p : Int) + 1) s.num (s.pn + sc.k2)
            = some (Except.ok num1) ∧
          num1.length = (n + 1) * (n * p + 1) ∧
          (∀ x, x < i * (n * p + 1) ∨ i * (n * p + 1) + (i * p + 1) ≤ x →
            num1.getD x 0 = s.num.getD x 0) ∧
          conv s.den s.pn s.ln d 0 ((p : Int) + 1) s.den (s.pn + sc.k2)
            = some (Except.ok den1) ∧
          den1.length = (n + 1) * (n * p + 1) ∧
          (∀ x, x < i * (n * p + 1) ∨ i * (n * p + 1) + (i * p + 1) ≤ x →
            den1.getD x 0 = s.den.getD x 0)) ∧
        (∃ s1, ratcomposPow c d (p : Int) sc n = some (Except.ok s1) ∧
          s1.num.length = (n + 1) * (n * p + 1) ∧ s1.den.length = (n + 1) * (n * p + 1) ∧
          ∀ i, i ≤ n → ∃ s ndn1,
            ratcomposCross (n : Int) (p : Int) sc s1 i = some (Except.ok s) ∧
            s.ndn.length = (n + 1) * (n * p + 1) ∧
            s.pn = ((i * (n * p + 1) : Nat) : Int) ∧ s.ln = ((i * p + 1 : Nat) : Int) ∧
            s.pd = (((n - i) * (n * p + 1) : Nat) : Int) ∧
            s.ld = (((n - i) * p + 1 : Nat) : Int) ∧
            i * (n * p + 1) + (i * p + 1) ≤ (n + 1) * (n * p + 1) ∧
            (n - i) * (n * p + 1) + ((n - i) * p + 1) ≤ (n + 1) * (n * p + 1) ∧
            (i * p + 1) + ((n - i) * p + 1) - 1 = n * p + 1 ∧
            i * (n * p + 1) + (n * p + 1) ≤ (n + 1) * (n * p + 1) ∧
            conv s1.num s.pn s.ln s1.den s.pd s.ld s.ndn ((i : Int) * sc.k2)
              = some (Except.ok ndn1) ∧
            ndn1.length = (n + 1) * (n * p + 1) ∧
            (∀ x, x < i * (n * p + 1) ∨ i * (n * p + 1) + (n * p + 1) ≤ x →
              ndn1.getD x 0 = s.ndn.getD x 0)) ∧
        ∀ b a beta alpha : List ℚ, b.length = n + 1 → a.length = n + 1 →
          beta.length = n * p + 1 → alpha.length = n * p + 1 →
          ∃ r, ratcomposCore b a (n : Int) c d (p : Int) beta alpha = some (Except.ok r) := by
  intro h
  obtain ⟨sc, hs, -⟩ := h 32767 1 (by decide) (by decide) [0, 1] [1, 0] rfl rfl
  exact Option.noConfusion (ratcomposScratch_32767.symm.trans hs)

/-- C18, amended: scratch index bookkeeping of `ratcompos` is in bounds when the scratch
byte count fits an `int`. For `n ≥ 1`, `p ≥ 1`, `k = n*p+1` with `(n+1)*k*8 < 2^31` (the
allocations being served), the set-up of `ratcompos` gives `k2 = k` and four scratch
arrays of `(n+1)*k` entries; at step `i` (1..n) of the power loop the state holds
`pn = (i-1)*k`, `ln = (i-1)*p+1 ≥ 1`, both `conv` calls succeed (no size error, no access
outside an array), they read `ln` entries from offset `pn` inside the scratch array and
write the `i*p+1 ≤ k` entries from offset `i*k`, leaving every other entry as it was; at
step `i` (0..n) of the cross-term loop the operands have `i*p+1` and `(n-i)*p+1` entries at
offsets `i*k` and `(n-i)*k`, the `conv` call succeeds and writes exactly the `k` entries
from offset `i*k`, leaving every other entry as it was; every range ends at or below
`(n+1)*k`, and the whole body of `ratcompos` runs without an access outside an array. -/
theorem ratcompos_scratch_bounds (n p : Nat) (_hn : 1 ≤ n) (hp : 1 ≤ p)
    (hfit : (n + 1) * (n * p + 1) * 8 < 2 ^ 31) (c d : List ℚ)
    (hc : c.length = p + 1) (hd : d.length = p + 1) :
    ∃ sc, ratcomposScratch (n : Int) (p : Int) = some (Except.ok sc) ∧
      sc.k2 = ((n * p + 1 : Nat) : Int) ∧
      sc.num.length = (n + 1) * (n * p + 1) ∧ sc.den.length = (n + 1) * (n * p + 1) ∧
      sc.ndn.length = (n + 1) * (n * p + 1) ∧ sc.ndd.length = (n + 1) * (n * p + 1) ∧
      (∀ i, 1 ≤ i → i ≤ n → ∃ s num1 den1,
        ratcomposPow c d (p : Int) sc (i - 1) = some (Except.ok s) ∧
        s.num.length = (n + 1) * (n * p + 1) ∧ s.den.length = (n + 1) * (n * p + 1) ∧
        s.pn = (((i - 1) * (n * p + 1) : Nat) : Int) ∧
        s.ln = (((i - 1) * p + 1 : Nat) : Int) ∧
        (i - 1) * (n * p + 1) + ((i - 1) * p + 1) ≤ (n + 1) * (n * p + 1) ∧
        s.pn + sc.k2 = ((i * (n * p + 1) : Nat) : Int) ∧
        ((i - 1) * p + 1) + (p + 1) - 1 = i * p + 1 ∧ i * p + 1 ≤ n * p + 1 ∧
        i * (n * p + 1) + (n * p + 1) ≤ (n + 1) * (n * p + 1) ∧
        conv s.num s.pn s.ln c 0 ((p : Int) + 1) s.num (s.pn + sc.k2)
          = some (Except.ok num1) ∧
        num1.length = (n + 1) * (n * p + 1) ∧
        (∀ x, x < i * (n * p + 1) ∨ i * (n * p + 1) + (i * p + 1) ≤ x →
          num1.getD x 0 = s.num.getD x 0) ∧
        conv s.den s.pn s.ln d 0 ((p : Int) + 1) s.den (s.pn + sc.k2)
          = some (Except.ok den1) ∧
        den1.length = (n + 1) * (n * p + 1) ∧
        (∀ x, x < i * (n * p + 1) ∨ i * (n * p + 1) + (i * p + 1) ≤ x →
          den1.getD x 0 = s.den.getD x 0)) ∧
      (∃ s1, ratcomposPow c d (p : Int) sc n = some (Except.ok s1) ∧
        s1.num.length = (n + 1) * (n * p + 1) ∧ s1.den.length = (n + 1) * (n * p + 1) ∧
        ∀ i, i ≤ n → ∃ s ndn1,
          ratcomposCross (n : Int) (p : Int) sc s1 i = some (Except.ok s) ∧
          s.ndn.length = (n + 1) * (n * p + 1) ∧
          s.pn = ((i * (n * p + 1) : Nat) : Int) ∧ s.ln = ((i * p + 1 : Nat) : Int) ∧
          s.pd = (((n - i) * (n * p + 1) : Nat) : Int) ∧
          s.ld = (((n - i) * p + 1 : Nat) : Int) ∧
          i * (n * p + 1) + (i * p + 1) ≤ (n + 1) * (n * p + 1) ∧
          (n - i) * (n * p + 1) + ((n - i) * p + 1) ≤ (n + 1) * (n * p + 1) ∧
          (i * p + 1) + ((n - i) * p + 1) - 1 = n * p + 1 ∧
          i * (n * p + 1) + (n * p + 1) ≤ (n + 1) * (n * p + 1) ∧
          conv s1.num s.pn s.ln s1.den s.pd s.ld s.ndn ((i : Int) * sc.k2)
            = some (Except.ok ndn1) ∧
          ndn1.length = (n + 1) * (n * p + 1) ∧
          (∀ x, x < i * (n * p + 1) ∨ i * (n * p + 1) + (n * p + 1) ≤ x →
            ndn1.getD x 0 = s.ndn.getD x 0)) ∧
      ∀ b a beta alpha : List ℚ, b.length = n + 1 → a.length = n + 1 →
        beta.length = n * p + 1 → alpha.length = n * p + 1 →
        ∃ r, ratcomposCore b a (n : Int) c d (p : Int) beta alpha = some (Except.ok r) := by
  obtain ⟨C, hC⟩ := exists_poly c
  obtain ⟨D, hD⟩ := exists_poly d
  have hC1 := coeff_take c C hC (p + 1) (by omega)
  have hD1 := coeff_take d D hD (p + 1) (by omega)
  have hCz : ∀ t, p + 1 ≤ t → C.coeff t = 0 := fun t ht => by rw [hC1 t, if_neg (by omega)]
  have hDz : ∀ t, p + 1 ≤ t → D.coeff t = 0 := fun t ht => by rw [hD1 t, if_neg (by omega)]
  have e3 : (n + 1) * (n * p + 1) = n * (n * p + 1) + (n * p + 1) := by ring
  have hlz : (List.replicate ((n + 1) * (n * p + 1)) (0 : ℚ)).length
      = (n + 1) * (n * p + 1) := List.length_replicate _ _
  have hls : ((List.replicate ((n + 1) * (n * p + 1)) (0 : ℚ)).set 0 1).length
      = (n + 1) * (n * p + 1) := by rw [List.length_set, List.length_replicate]
  refine ⟨_, ratcomposScratch_ok n p hfit, rfl, hls, hls, hlz, hlz, ?_, ?_, ?_⟩
  · intro i hi1 hin
    obtain ⟨j, rfl⟩ : ∃ j, i = j + 1 := ⟨i - 1, by omega⟩
    simp only [Nat.add_sub_cancel]
    obtain ⟨s, hs, q1, q2, q3, q4, -, -⟩ := powLoop_prefix n p c d C D (by omega) (by omega)
      hC1 hD1 ((n * p + 1 : Nat) : Int) (p : Int) rfl rfl j (by omega)
    have e1 : (j + 1) * p = j * p + p := by ring
    have e2 : (j + 1) * (n * p + 1) = j * (n * p + 1) + (n * p + 1) := by ring
    have b1 : (j + 1) * p ≤ n * p := Nat.mul_le_mul_right p hin
    have b2 : (j + 1) * (n * p + 1) ≤ n * (n * p + 1) := Nat.mul_le_mul_right _ hin
    have hoc : s.pn + ((n * p + 1 : Nat) : Int) = (((j + 1) * (n * p + 1) : Nat) : Int) := by
      rw [q1]; push_cast; ring
    have hsum : (j * p + 1) + (p + 1) - 1 = (j + 1) * p + 1 := by omega
    obtain ⟨num1, hn1, ln1, fn1⟩ := conv_frame s.num c s.num s.pn s.ln 0 ((p : Int) + 1)
      (s.pn + ((n * p + 1 : Nat) : Int)) (j * (n * p + 1)) (j * p + 1) 0 (p + 1)
      ((j + 1) * (n * p + 1)) q1 q2 rfl (by push_cast; ring) hoc
      (by omega) (by omega) (by omega) (by omega) (by omega)
    obtain ⟨den1, hd1, ld1, fd1⟩ := conv_frame s.den d s.den s.pn s.ln 0 ((p : Int) + 1)
      (s.pn + ((n * p + 1 : Nat) : Int)) (j * (n * p + 1)) (j * p + 1) 0 (p + 1)
      ((j + 1) * (n * p + 1)) q1 q2 rfl (by push_cast; ring) hoc
      (by omega) (by omega) (by omega) (by omega) (by omega)
    rw [hsum] at fn1 fd1
    exact ⟨s, num1, den1, hs, q3, q4, q1, q2, by omega, hoc, hsum, by omega, by omega,
      hn1, ln1.trans q3, fn1, hd1, ld1.trans q4, fd1⟩
  · obtain ⟨s1, hs1, -, -, l1, l2, i1, i2⟩ := powLoop_prefix n p c d C D (by omega) (by omega)
      hC1 hD1 ((n * p + 1 : Nat) : Int) (p : Int) rfl rfl n le_rfl
    refine ⟨s1, hs1, l1, l2, fun i hin => ?_⟩
    obtain ⟨s, hs, q1, q2, q3, q4, q5, -⟩ := crossLoop_prefix n p s1.num s1.den C D hCz hDz
      l1 l2 (fun i t hi ht => by rw [i1 i t hi ht, if_pos hi])
      (fun i t hi ht => by rw [i2 i t hi ht, if_pos hi]) ((n * p + 1 : Nat) : Int) (p : Int)
      rfl rfl i (by omega)
    have b1 : i * p ≤ n * p := Nat.mul_le_mul_right p hin
    have b2 : i * (n * p + 1) ≤ n * (n * p + 1) := Nat.mul_le_mul_right _ hin
    have b3 : (n - i) * p ≤ n * p := Nat.mul_le_mul_right p (Nat.sub_le n i)
    have b4 : (n - i) * (n * p + 1) ≤ n * (n * p + 1) :=
      Nat.mul_le_mul_right _ (Nat.sub_le n i)
    have b5 : i * p + (n - i) * p = n * p := by
      rw [← Nat.add_mul]; congr 1; omega
    have hpd : s.pd = (((n - i) * (n * p + 1) : Nat) : Int) := by
      rw [q2]; push_cast [Nat.cast_sub hin]; ring
    have hld : s.ld = (((n - i) * p + 1 : Nat) : Int) := by
      rw [q4]; push_cast [Nat.cast_sub hin]; ring
    have hsum : (i * p + 1) + ((n - i) * p + 1) - 1 = n * p + 1 := by omega
    obtain ⟨ndn1, hc1, lc1, fc1⟩ := conv_frame s1.num s1.den s.ndn s.pn s.ln s.pd s.ld
      ((i : Int) * ((n * p + 1 : Nat) : Int)) (i * (n * p + 1)) (i * p + 1)
      ((n - i) * (n * p + 1)) ((n - i) * p + 1) (i * (n * p + 1)) q1 q3 hpd hld
      (by push_cast; ring) (by omega) (by omega) (by omega) (by omega) (by omega)
    rw [hsum] at fc1
    exact ⟨s, ndn1, hs, q5, q1, q3, hpd, hld, by omega, by omega, hsum, by omega, hc1,
      lc1.trans q5, fc1⟩
  · intro b a beta alpha hb ha hbeta halpha
    obtain ⟨β, α, h, -⟩ := core_ok n p hfit b a c d beta alpha (by omega) (by omega)
      (by omega) (by omega) (by omega) (by omega) C D hC1 hD1
    exact ⟨(β, α), h⟩

/-- Witness of C18 at `n = 2`, `p = 1`: the four scratch arrays have nine entries. -/
theorem ratcompos_scratch_bounds_witness :
    ∃ sc, ratcomposScratch ((2 : Nat) : Int) ((1 : Nat) : Int) = some (Except.ok sc) ∧
      sc.num.length = (2 + 1) * (2 * 1 + 1) ∧ sc.ndn.length = (2 + 1) * (2 * 1 + 1) ∧
      ∀ b a beta alpha : List ℚ, b.length = 2 + 1 → a.length = 2 + 1 →
        beta.length = 2 * 1 + 1 → alpha.length = 2 * 1 + 1 →
        ∃ r, ratcomposCore b a ((2 : Nat) : Int) [1, -1] [1, 1] ((1 : Nat) : Int) beta alpha
          = some (Except.ok r) := by
  obtain ⟨sc, h1, -, h2, -, h3, -, -, -, h4⟩ :=
    ratcompos_scratch_bounds 2 1 (by decide) (by decide) (by decide) [1, -1] [1, 1] rfl rfl
  exact ⟨sc, h1, h2, h3, h4⟩

/-! ## Band edges and the highpass involution -/

/-- Both outputs of `ratcompos` at a point, as sums over the cross terms. -/
theorem ratcompos_eval_sum (n p : Nat) (hn : 1 ≤ n) (hp : 1 ≤ p)
    (hfit : (n + 1) * (n * p + 1) * 8 < 2 ^ 31)
    (b a c d beta alpha : List ℚ) (hb : b.length = n + 1) (ha : a.length = n + 1)
    (hc : c.length = p + 1) (hd : d.length = p + 1)
    (hbeta : beta.length = n * p + 1) (halpha : alpha.length = n * p + 1) :
    ∃ β α, ratcompos (some b) (some a) (n : Int) (some c) (some d) (p : Int)
        (some beta) (some alpha) = some ⟨RES_OK, some β, some α⟩ ∧
      β.length = n * p + 1 ∧ α.length = n * p + 1 ∧
      ∀ y : ℚ,
        polyEval β y = ∑ i in Finset.range (n + 1),
          b.getD i 0 * (polyEval c y ^ i * polyEval d y ^ (n - i)) ∧
        polyEval α y = ∑ i in Finset.range (n + 1),
          a.getD i 0 * (polyEval c y ^ i * polyEval d y ^ (n - i)) := by
  obtain ⟨C, hC⟩ := exists_poly c
  obtain ⟨D, hD⟩ := exists_poly d
  have hC1 := coeff_take c C hC (p + 1) (by omega)
  have hD1 := coeff_take d D hD (p + 1) (by omega)
  obtain ⟨β, α, h, l1, l2, r⟩ := ratcompos_ok n p hn hp hfit b a c d beta alpha (by omega)
    (by omega)
    (by omega) (by omega) (by omega) (by omega) C D hC1 hD1
  have dC : C.natDegree ≤ p :=
    natDegree_le_of_coeff C p fun t ht => by rw [hC1 t, if_neg (by omega)]
  have dD : D.natDegree ≤ p :=
    natDegree_le_of_coeff D p fun t ht => by rw [hD1 t, if_neg (by omega)]
  refine ⟨β, α, h, l1.trans hbeta, l2.trans halpha, fun y => ?_⟩
  have e1 := compos_eval β b n p C D dC dD (l1.trans hbeta)
    (fun x hx => by rw [(r x).1, if_pos hx]) y
  have e2 := compos_eval α a n p C D dC dD (l2.trans halpha)
    (fun x hx => by rw [(r x).2, if_pos hx]) y
  rw [← polyEval_eq_eval c C hC y, ← polyEval_eq_eval d D hD y] at e1 e2
  exact ⟨e1, e2⟩

theorem edge_sum_low (l : List ℚ) (n : Nat) :
    ∑ i in Finset.range (n + 1), l.getD i 0 * ((0 : ℚ) ^ i * 2 ^ (n - i)) = 2 ^ n * l.getD 0 0 := by
  rw [Finset.sum_eq_single 0]
  · simp; ring
  · intro i _ hi
    rw [zero_pow hi, zero_mul, mul_zero]
  · intro h
    exact absurd (Finset.mem_range.mpr (Nat.succ_pos n)) h

theorem edge_sum_high (l : List ℚ) (n : Nat) :
    ∑ i in Finset.range (n + 1), l.getD i 0 * ((2 : ℚ) ^ i * 0 ^ (n - i)) = 2 ^ n * l.getD n 0 := by
  rw [Finset.sum_eq_single n]
  · simp; ring
  · intro i hi hne
    have : i < n + 1 := Finset.mem_range.mp hi
    rw [zero_pow (by omega), mul_zero, mul_zero]
  · intro h
    exact absurd (Finset.mem_range.mpr (Nat.lt_succ_self n)) h

/-- C19 as stated fails: at `ord = 16383` the scratch byte count `16384 * 16384 * 8 = 2^31`
is negative as an `int`, the scratch arrays do not exist and `bilinear` has no outputs
whose sums could be taken. -/
theorem bilinear_band_edges_unbounded_fails :
    ¬ ∀ (ord : Nat), 1 ≤ ord → ∀ (bs as bz az : List ℚ),
      bs.length = ord + 1 → as.length = ord + 1 → bz.length = ord + 1 →
      az.length = ord + 1 →
      ∃ β α, bilinear (some bs) (some as) (ord : Int) (some bz) (some az)
          = some ⟨RES_OK, some β, some α⟩ ∧
        β.length = ord + 1 ∧ α.length = ord + 1 ∧
        ∑ k in Finset.range (ord + 1), β.getD k 0 = 2 ^ ord * bs.getD 0 0 ∧
        ∑ k in Finset.range (ord + 1), α.getD k 0 = 2 ^ ord * as.getD 0 0 ∧
        ∑ k in Finset.range (ord + 1), (-1) ^ k * β.getD k 0 = 2 ^ ord * bs.getD ord 0 ∧
        ∑ k in Finset.range (ord + 1), (-1) ^ k * α.getD k 0 = 2 ^ ord * as.getD ord 0 := by
  intro h
  obtain ⟨β, α, hr, -⟩ := h 16383 (by decide) (List.replicate 16384 1)
    (List.replicate 16384 2) (List.replicate 16384 0) (List.replicate 16384 0)
    (List.length_replicate _ _) (List.length_replicate _ _) (List.length_replicate _ _)
    (List.length_replicate _ _)
  have hf := bilinear_wrap_fault (List.replicate 16384 1) (List.replicate 16384 2)
    (List.replicate 16384 0) (List.replicate 16384 0) ((16383 : Nat) : Int) (by decide)
    (by decide)
  exact Option.noConfusion (hf.symm.trans hr)

/-- C19, amended: in exact arithmetic `bilinear` preserves the gain at the two band edges.
For `ord ≥ 1` whose scratch byte count `(ord+1)*(ord+1)*8` fits an `int` (the allocations
being served) and `bs`, `as` of length `ord+1`, with the sums and products of the code
taken exactly, the outputs satisfy `Σ_k bz[k] = 2^ord * bs[0]`,
`Σ_k az[k] = 2^ord * as[0]`, `Σ_k (-1)^k * bz[k] = 2^ord * bs[ord]` and
`Σ_k (-1)^k * az[k] = 2^ord * as[ord]`. -/
theorem bilinear_band_edges (ord : Nat) (hord : 1 ≤ ord)
    (hfit : (ord + 1) * (ord + 1) * 8 < 2 ^ 31) (bs as bz az : List ℚ)
    (hbs : bs.length = ord + 1) (has : as.length = ord + 1)
    (hbz : bz.length = ord + 1) (haz : az.length = ord + 1) :
    ∃ β α, bilinear (some bs) (some as) (ord : Int) (some bz) (some az)
        = some ⟨RES_OK, some β, some α⟩ ∧
      β.length = ord + 1 ∧ α.length = ord + 1 ∧
      ∑ k in Finset.range (ord + 1), β.getD k 0 = 2 ^ ord * bs.getD 0 0 ∧
      ∑ k in Finset.range (ord + 1), α.getD k 0 = 2 ^ ord * as.getD 0 0 ∧
      ∑ k in Finset.range (ord + 1), (-1) ^ k * β.getD k 0 = 2 ^ ord * bs.getD ord 0 ∧
      ∑ k in Finset.range (ord + 1), (-1) ^ k * α.getD k 0 = 2 ^ ord * as.getD ord 0 := by
  obtain ⟨β, α, h, l1, l2, e⟩ := ratcompos_eval_sum ord 1 hord le_rfl
    (by rw [Nat.mul_one]; exact hfit) bs as [1, -1] [1, 1]
    bz az hbs has rfl rfl (by omega) (by omega)
  rw [mul_one] at l1 l2
  simp only [Nat.cast_one] at h
  have p1 := e 1
  have p2 := e (-1)
  have c1 : (1 : ℚ) + -1 * 1 = 0 := by norm_num
  have c2 : (1 : ℚ) + 1 * 1 = 2 := by norm_num
  have c3 : (1 : ℚ) + -1 * -1 = 2 := by norm_num
  have c4 : (1 : ℚ) + 1 * -1 = 0 := by norm_num
  simp only [polyEval_pair, c1, c2, c3, c4, edge_sum_low, edge_sum_high] at p1 p2
  simp only [polyEval_eq_sum, l1, l2, one_pow, mul_one] at p1 p2
  refine ⟨β, α, h, l1, l2, p1.1, p1.2, ?_, ?_⟩
  · rw [← p2.1]
    exact Finset.sum_congr rfl fun k _ => mul_comm _ _
  · rw [← p2.2]
    exact Finset.sum_congr rfl fun k _ => mul_comm _ _

/-- Witness of C19 at `ord = 2`. -/
theorem bilinear_band_edges_witness :
    ∃ β α, bilinear (some [1, 2, 3]) (some [4, 5, 6]) ((2 : Nat) : Int) (some [0, 0, 0])
        (some [0, 0, 0]) = some ⟨RES_OK, some β, some α⟩ ∧
      β.length = 2 + 1 ∧ α.length = 2 + 1 ∧
      ∑ k in Finset.range (2 + 1), β.getD k 0 = 2 ^ 2 * [1, 2, (3 : ℚ)].getD 0 0 ∧
      ∑ k in Finset.range (2 + 1), α.getD k 0 = 2 ^ 2 * [4, 5, (6 : ℚ)].getD 0 0 ∧
      ∑ k in Finset.range (2 + 1), (-1) ^ k * β.getD k 0 = 2 ^ 2 * [1, 2, (3 : ℚ)].getD 2 0 ∧
      ∑ k in Finset.range (2 + 1), (-1) ^ k * α.getD k 0 = 2 ^ 2 * [4, 5, (6 : ℚ)].getD 2 0 :=
  bilinear_band_edges 2 (by decide) (by decide) [1, 2, 3] [4, 5, 6] [0, 0, 0] [0, 0, 0]
    rfl rfl rfl rfl

theorem getD_range_map (f : Nat → ℚ) (m k : Nat) (hk : k < m) :
    ((List.range m).map f).getD k 0 = f k := by
  simp only [List.getD_eq_getElem?_getD, List.getElem?_map, List.getElem?_range hk,
    Option.map_some', Option.getD_some]

/-- Reversing and scaling a coefficient list twice multiplies it by `r^n`. -/
theorem invert_twice (n : Nat) (r : ℚ) (l : List ℚ) (hl : l.length = n + 1) :
    ((List.range (n + 1)).map fun k =>
        ((List.range (n + 1)).map fun j => l.getD (n - j) 0 * r ^ (n - j)).getD (n - k) 0 *
          r ^ (n - k))
      = l.map fun x => r ^ n * x := by
  apply list_ext_getD
  · rw [List.length_map, List.length_range, List.length_map, hl]
  · intro x hx
    rw [List.length_map, List.length_range] at hx
    rw [getD_range_map _ _ _ hx, getD_range_map _ _ _ (show n - x < n + 1 by omega)]
    have e : n - (n - x) = x := by omega
    have hp : r ^ n = r ^ x * r ^ (n - x) := by
      rw [← pow_add]; congr 1; omega
    rw [e, hp]
    simp only [List.getD_eq_getElem?_getD, List.getElem?_map]
    rw [List.getElem?_eq_getElem (show x < l.length by omega)]
    simp only [Option.map_some', Option.getD_some]
    ring

/-- Reversing a coefficient list is the scale-one case of the inversion. -/
theorem invert_one (n : Nat) (l : List ℚ) (hl : l.length = n + 1) :
    ((List.range (n + 1)).map fun k => l.getD (n - k) 0 * (1 : ℚ) ^ (n - k)) = l.reverse := by
  apply list_ext_getD
  · rw [List.length_map, List.length_range, List.length_reverse, hl]
  · intro x hx
    rw [List.length_map, List.length_range] at hx
    rw [getD_range_map _ _ _ hx, one_pow, mul_one]
    simp only [List.getD_eq_getElem?_getD]
    rw [List.getElem?_reverse (show x < l.length by omega)]
    congr 2
    omega

/-- C20 as stated fails: at `ord = 16383`, `w0 = w1 = 1` the scratch byte count
`16384 * 16384 * 8 = 2^31` is negative as an `int`, the scratch arrays do not exist and
the first `low2high` call already does not return `RES_OK`. -/
theorem low2high_involution_unbounded_fails :
    ¬ ∀ (ord : Nat), 1 ≤ ord → ∀ (w0 w1 : ℚ), 0 < w0 → 0 < w1 →
      ∀ (b a beta alpha beta2 alpha2 : List ℚ), b.length = ord + 1 → a.length = ord + 1 →
      beta.length = ord + 1 → alpha.length = ord + 1 →
      beta2.length = ord + 1 → alpha2.length = ord + 1 →
      ∃ β α, low2high (some b) (some a) (ord : Int) w0 w1 (some beta) (some alpha)
          = some ⟨RES_OK, some β, some α⟩ ∧
        low2high (some β) (some α) (ord : Int) w0 w1 (some beta2) (some alpha2)
          = some ⟨RES_OK, some (b.map fun x => (w1 / w0) ^ ord * x),
              some (a.map fun x => (w1 / w0) ^ ord * x)⟩ ∧
        (w1 / w0) ^ ord ≠ 0 ∧
        (w1 = w0 → β = b.reverse ∧ α = a.reverse ∧
          low2high (some β) (some α) (ord : Int) w0 w1 (some beta2) (some alpha2)
            = some ⟨RES_OK, some b, some a⟩) := by
  intro h
  obtain ⟨β, α, hr, -⟩ := h 16383 (by decide) 1 1 one_pos one_pos (List.replicate 16384 1)
    (List.replicate 16384 2) (List.replicate 16384 0) (List.replicate 16384 0)
    (List.replicate 16384 0) (List.replicate 16384 0)
    (List.length_replicate _ _) (List.length_replicate _ _) (List.length_replicate _ _)
    (List.length_replicate _ _) (List.length_replicate _ _) (List.length_replicate _ _)
  have hf := low2high_wrap_fault (List.replicate 16384 1) (List.replicate 16384 2)
    (List.replicate 16384 0) (List.replicate 16384 0) ((16383 : Nat) : Int) 1 1 (by decide)
    one_pos one_pos (by decide)
  exact Option.noConfusion (hf.symm.trans hr)

/-- C20, amended, in exact arithmetic: `low2high` is an involution up to a common scalar. For
`ord ≥ 1` whose scratch byte count `(ord+1)*(ord+1)*8` fits an `int` (the allocations being
served), `w0 > 0`, `w1 > 0` and `b`, `a` of length `ord+1`, applying `low2high` with `(w0, w1)`
to the output of `low2high` with the same `(w0, w1)` returns `RES_OK` with
`beta = (w1/w0)^ord * b` and `alpha = (w1/w0)^ord * a`; with `w1 = w0` a single application
reverses the coefficient order and the double application is the identity. -/
theorem low2high_involution (ord : Nat) (hord : 1 ≤ ord)
    (hfit : (ord + 1) * (ord + 1) * 8 < 2 ^ 31) (w0 w1 : ℚ) (hw0 : 0 < w0)
    (hw1 : 0 < w1) (b a beta alpha beta2 alpha2 : List ℚ)
    (hb : b.length = ord + 1) (ha : a.length = ord + 1)
    (hbeta : beta.length = ord + 1) (halpha : alpha.length = ord + 1)
    (hbeta2 : beta2.length = ord + 1) (halpha2 : alpha2.length = ord + 1) :
    ∃ β α, low2high (some b) (some a) (ord : Int) w0 w1 (some beta) (some alpha)
        = some ⟨RES_OK, some β, some α⟩ ∧
      low2high (some β) (some α) (ord : Int) w0 w1 (some beta2) (some alpha2)
        = some ⟨RES_OK, some (b.map fun x => (w1 / w0) ^ ord * x),
            some (a.map fun x => (w1 / w0) ^ ord * x)⟩ ∧
      (w1 / w0) ^ ord ≠ 0 ∧
      (w1 = w0 → β = b.reverse ∧ α = a.reverse ∧
        low2high (some β) (some α) (ord : Int) w0 w1 (some beta2) (some alpha2)
          = some ⟨RES_OK, some b, some a⟩) := by
  have hr : w1 / w0 ≠ 0 := div_ne_zero (ne_of_gt hw1) (ne_of_gt hw0)
  have h1 := (low2high_eq b a beta alpha (ord : Int) w0 w1 (by omega) hw0 hw1).trans
    (ratcompos_invert ord hord hfit (w1 / w0) b a beta alpha hb ha hbeta halpha)
  have h2 := (low2high_eq _ _ beta2 alpha2 (ord : Int) w0 w1 (by omega) hw0 hw1).trans
    (ratcompos_invert ord hord hfit (w1 / w0)
      ((List.range (ord + 1)).map fun k => b.getD (ord - k) 0 * (w1 / w0) ^ (ord - k))
      ((List.range (ord + 1)).map fun k => a.getD (ord - k) 0 * (w1 / w0) ^ (ord - k))
      beta2 alpha2 (by simp) (by simp) hbeta2 halpha2)
  rw [invert_twice ord (w1 / w0) b hb, invert_twice ord (w1 / w0) a ha] at h2
  refine ⟨_, _, h1, h2, pow_ne_zero _ hr, fun hw => ?_⟩
  have hone : w1 / w0 = 1 := by rw [hw]; exact div_self (ne_of_gt hw0)
  have hid : ∀ l : List ℚ, (l.map fun x => (w1 / w0) ^ ord * x) = l := by
    intro l
    rw [hone]
    simp
  refine ⟨?_, ?_, ?_⟩
  · rw [hone]; exact invert_one ord b hb
  · rw [hone]; exact invert_one ord a ha
  · rw [h2, hid b, hid a]

/-- Witness of C20 at `ord = 2`, `w0 = 1`, `w1 = 3`. -/
theorem low2high_involution_witness :
    ∃ β α, low2high (some [1, 2, 3]) (some [4, 5, 6]) ((2 : Nat) : Int) 1 3 (some [0, 0, 0])
        (some [0, 0, 0]) = some ⟨RES_OK, some β, some α⟩ ∧
      low2high (some β) (some α) ((2 : Nat) : Int) 1 3 (some [0, 0, 0]) (some [0, 0, 0])
        = some ⟨RES_OK, some ([1, 2, 3].map fun x => ((3 : ℚ) / 1) ^ 2 * x),
            some ([4, 5, 6].map fun x => ((3 : ℚ) / 1) ^ 2 * x)⟩ ∧
      ((3 : ℚ) / 1) ^ 2 ≠ 0 ∧
      ((3 : ℚ) = 1 → β = [1, 2, 3].reverse ∧ α = [4, 5, 6].reverse ∧
        low2high (some β) (some α) ((2 : Nat) : Int) 1 3 (some [0, 0, 0]) (some [0, 0, 0])
          = some ⟨RES_OK, some [1, 2, 3], some [4, 5, 6]⟩) :=
  low2high_involution 2 (by decide) (by decide) 1 3 (by norm_num) (by norm_num) [1, 2, 3]
    [4, 5, 6] [0, 0, 0] [0, 0, 0] [0, 0, 0] [0, 0, 0] rfl rfl rfl rfl rfl rfl

end Dspl
